import Mathlib

/-!
Shallow embedding of the demand-paged virtual-memory simulator of this
repository (src/virtual_memory_simulate), centred on
page_swapping_simulate.cpp: the SwapSpace, Disk, RAM, MMU and
VirtualMemorySystem classes, plus the two-level PageTableManager of
allocvm_and_loadvm_sim.cpp and the RAM of mmap.cpp.

Modelling conventions:
* machine integers (pfn_t, vpn_t, swap_slot_t, timestamp_t) are Nat;
  the sentinel (pfn_t)-1 / (swap_slot_t)-1 is the explicit value 2^32-1
  and UINT64_MAX is 2^64-1.  Additions that could wrap a uint32/uint64
  only do so after more than 2^32 operations, far outside any state the
  theorems quantify over, so Nat addition is used.
* byte buffers are `List Nat`.  RAM memory, disk storage and swap storage
  are page-granular in the C++ code (every memcpy the paging engine makes
  copies one whole PAGE_SIZE block at a page-aligned offset), so they are
  modelled as lists of pages.  The sub-page memcpy of
  VirtualMemorySystem::write_memory is modelled inside the addressed
  page (`pageWrite`); C++ would run past the frame for an overlong
  write, so the theorems restrict to in-page accesses.
* the C++ std::unordered_map page table is an association list with
  unique keys; `PageMetadata*` back-pointers stored by RAM::frame_to_page
  are modelled as the owning virtual page number (std::unordered_map
  gives stable element addresses, so a pointer is exactly a key).
  Dereferencing a dangling pointer (possible in C++ only after a
  remap-then-unmap sequence, and undefined behaviour there) is modelled
  as a failed lookup.
* an uninitialised stack buffer (`char buffer[PAGE_SIZE];` that a
  bounds-failed read leaves untouched) is modelled as a zero page.
* Disk.log / SwapSpace.log are ghost fields recording the page id of
  every write_page call; they affect no behaviour and exist only to
  state write-back-counting properties.
-/

set_option maxRecDepth 8000

/-- PAGE_SIZE from page_swapping_simulate.cpp. -/
def PAGE_SIZE : Nat := 4096

/-- RAM_SIZE = 8 * PAGE_SIZE. -/
def RAM_SIZE : Nat := 8 * PAGE_SIZE

/-- DISK_SIZE = 64 * PAGE_SIZE. -/
def DISK_SIZE : Nat := 64 * PAGE_SIZE

/-- SWAP_SIZE = 32 * PAGE_SIZE. -/
def SWAP_SIZE : Nat := 32 * PAGE_SIZE

/-- Number of physical frames (RAM_SIZE / PAGE_SIZE = 8). -/
def NUM_FRAMES : Nat := RAM_SIZE / PAGE_SIZE

/-- Number of swap slots (SWAP_SIZE / PAGE_SIZE = 32). -/
def NUM_SLOTS : Nat := SWAP_SIZE / PAGE_SIZE

/-- Number of disk pages (DISK_SIZE / PAGE_SIZE = 64). -/
def NUM_DISK_PAGES : Nat := DISK_SIZE / PAGE_SIZE

/-- (pfn_t)-1, the allocation-failure sentinel. -/
def NO_FRAME : Nat := 2 ^ 32 - 1

/-- (swap_slot_t)-1, the slot-allocation-failure sentinel. -/
def NO_SLOT : Nat := 2 ^ 32 - 1

/-- UINT64_MAX, initial accumulator of RAM::find_lru_page. -/
def UINT64_MAX : Nat := 2 ^ 64 - 1

/-- A page-sized byte buffer. -/
abbrev Page : Type := List Nat

/-- An all-zero page. -/
def zeroPage : Page := List.replicate PAGE_SIZE 0

/-- Model of an uninitialised `char buffer[PAGE_SIZE]` local (the C++ code
    leaves it untouched when a bounds-checked read fails). -/
def uninitPage : Page := zeroPage

/-- memcpy of `data` into `p` at byte offset `off` (in-page; the paging
    engine only calls this with off + data.length within the page). -/
def pageWrite (p : Page) (off : Nat) (data : List Nat) : Page :=
  p.take off ++ data ++ p.drop (off + data.length)

/-- Byte read of `len` bytes at offset `off` of page `p`. -/
def pageRead (p : Page) (off len : Nat) : List Nat :=
  (p.drop off).take len

/-- Lookup in an association list with Nat keys (std::map / unordered_map
    find). -/
def assocGet {α : Type} : List (Nat × α) → Nat → Option α
  | [], _ => none
  | e :: rest, v => if e.1 = v then some e.2 else assocGet rest v

/-- Insert-or-assign in an association list (operator[] plus assignment). -/
def assocSet {α : Type} : List (Nat × α) → Nat → α → List (Nat × α)
  | [], v, m => [(v, m)]
  | e :: rest, v, m => if e.1 = v then (v, m) :: rest else e :: assocSet rest v m

/-- Erase from an association list. -/
def assocErase {α : Type} : List (Nat × α) → Nat → List (Nat × α)
  | [], _ => []
  | e :: rest, v => if e.1 = v then rest else e :: assocErase rest v

/-- The keys of an association list. -/
def assocKeys {α : Type} (l : List (Nat × α)) : List Nat := l.map Prod.fst

/-- struct PageMetadata of page_swapping_simulate.cpp. -/
structure PageMetadata where
  present : Bool
  dirty : Bool
  accessed : Bool
  file_backed : Bool
  swapped : Bool
  physical_page : Nat
  disk_page : Nat
  swap_slot : Nat
  last_access : Nat
  virtual_page : Nat
deriving DecidableEq, Repr

/-- The PageMetadata default constructor. -/
def PageMetadata.init : PageMetadata :=
  { present := false, dirty := false, accessed := false, file_backed := false,
    swapped := false, physical_page := 0, disk_page := 0, swap_slot := 0,
    last_access := 0, virtual_page := 0 }

/-- First-fit scan of an allocation bitmap: index of the first `false`. -/
def firstFree : List Bool → Option Nat
  | [] => none
  | b :: rest => if b then (firstFree rest).map (· + 1) else some 0

/-- class SwapSpace.  `log` is ghost (see header). -/
structure SwapSpace where
  swap_storage : List Page
  allocated_slots : List Bool
  log : List Nat
deriving DecidableEq

namespace SwapSpace

/-- SwapSpace::allocate_slot: first-fit over allocated_slots, or -1. -/
def allocate_slot (s : SwapSpace) : Nat × SwapSpace :=
  match firstFree s.allocated_slots with
  | some i => (i, { s with allocated_slots := s.allocated_slots.set i true })
  | none => (NO_SLOT, s)

/-- SwapSpace::free_slot: bounds-checked clear of the slot bit. -/
def free_slot (s : SwapSpace) (slot : Nat) : SwapSpace :=
  if slot < s.allocated_slots.length then
    { s with allocated_slots := s.allocated_slots.set slot false }
  else s

/-- SwapSpace::write_page: bounds-checked whole-page store; the ghost log
    records the slot of every call. -/
def write_page (s : SwapSpace) (slot : Nat) (data : Page) : SwapSpace :=
  if slot < s.allocated_slots.length then
    { s with swap_storage := s.swap_storage.set slot data, log := s.log ++ [slot] }
  else { s with log := s.log ++ [slot] }

/-- SwapSpace::read_page: bounds-checked whole-page load into `buffer`;
    an out-of-range slot leaves the caller's buffer untouched. -/
def read_page (s : SwapSpace) (slot : Nat) (buffer : Page) : Page :=
  if slot < s.allocated_slots.length then
    s.swap_storage.getD slot buffer
  else buffer

end SwapSpace

/-- class Disk of page_swapping_simulate.cpp.  `log` is ghost. -/
structure Disk where
  storage : List Page
  log : List Nat
deriving DecidableEq

namespace Disk

/-- Disk::read_page: succeeds iff offset + PAGE_SIZE <= DISK_SIZE,
    otherwise the caller's buffer is left untouched. -/
def read_page (d : Disk) (page_num : Nat) (buffer : Page) : Page :=
  if page_num * PAGE_SIZE + PAGE_SIZE ≤ DISK_SIZE then
    d.storage.getD page_num buffer
  else buffer

/-- Disk::write_page, with the same silent bounds check; the ghost log
    records the page id of every call. -/
def write_page (d : Disk) (page_num : Nat) (buffer : Page) : Disk :=
  if page_num * PAGE_SIZE + PAGE_SIZE ≤ DISK_SIZE then
    { d with storage := d.storage.set page_num buffer, log := d.log ++ [page_num] }
  else { d with log := d.log ++ [page_num] }

end Disk

/-- class RAM of page_swapping_simulate.cpp: page-granular memory, the
    frame_to_page back-pointer array (pointers modelled as owning vpn),
    and the allocation bitmap. -/
structure RAM where
  memory : List Page
  frame_to_page : List (Option Nat)
  allocated : List Bool
deriving DecidableEq

namespace RAM

/-- RAM::allocate_page: first-fit; records the owning metadata pointer. -/
def allocate_page (r : RAM) (page_meta : Option Nat) : Nat × RAM :=
  match firstFree r.allocated with
  | some i =>
      (i, { r with allocated := r.allocated.set i true,
                   frame_to_page := r.frame_to_page.set i page_meta })
  | none => (NO_FRAME, r)

/-- RAM::free_page: bounds-checked; clears the bit and the back-pointer. -/
def free_page (r : RAM) (page_num : Nat) : RAM :=
  if page_num < r.allocated.length then
    { r with allocated := r.allocated.set page_num false,
             frame_to_page := r.frame_to_page.set page_num none }
  else r

/-- RAM::read_page (via get_page_ptr): whole-page load, bounds-checked
    against allocated.size(); failure leaves the buffer untouched. -/
def read_page (r : RAM) (page_num : Nat) (buffer : Page) : Page :=
  if page_num < r.allocated.length then
    r.memory.getD page_num buffer
  else buffer

/-- RAM::write_page (via get_page_ptr): whole-page store. -/
def write_page (r : RAM) (page_num : Nat) (buffer : Page) : RAM :=
  if page_num < r.allocated.length then
    { r with memory := r.memory.set page_num buffer }
  else r

/-- RAM::get_page_metadata: the stored back-pointer (owning vpn). -/
def get_page_metadata (r : RAM) (frame_num : Nat) : Option Nat :=
  if frame_num < r.frame_to_page.length then
    r.frame_to_page.getD frame_num none
  else none

/-- RAM::get_free_frames. -/
def get_free_frames (r : RAM) : Nat :=
  r.allocated.countP (fun b => !b)

end RAM

/-- The page table: vpn -> PageMetadata association list (unordered_map
    with unique keys). -/
abbrev PageTable : Type := List (Nat × PageMetadata)

/-- unordered_map::find on the page table. -/
abbrev ptGet : PageTable → Nat → Option PageMetadata := assocGet

/-- unordered_map::operator[] followed by assignment (insert-or-assign). -/
abbrev ptSet : PageTable → Nat → PageMetadata → PageTable := assocSet

/-- unordered_map::erase on the page table. -/
abbrev ptErase : PageTable → Nat → PageTable := assocErase

/-- The candidate metadata the i-th iteration of RAM::find_lru_page sees:
    the dereferenced back-pointer of frame i, provided the frame is
    allocated. -/
def lruCand (r : RAM) (pt : PageTable) (i : Nat) : Option PageMetadata :=
  if r.allocated.getD i false then
    (r.frame_to_page.getD i none).bind (fun v => ptGet pt v)
  else none

/-- One step of the i-loop of RAM::find_lru_page: frame i replaces the
    (oldest_time, lru_frame) accumulator if its candidate's last_access
    strictly beats it. -/
def lruStep (r : RAM) (pt : PageTable) (i : Nat) (acc : Nat × Nat) : Nat × Nat :=
  match lruCand r pt i with
  | some m => if m.last_access < acc.1 then (m.last_access, i) else acc
  | none => acc

/-- The i-loop of RAM::find_lru_page, running `fuel` iterations from
    index `i`. -/
def lruLoop (r : RAM) (pt : PageTable) : Nat → Nat → Nat × Nat → Nat × Nat
  | 0, _, acc => acc
  | fuel + 1, i, acc => lruLoop r pt fuel (i + 1) (lruStep r pt i acc)

/-- RAM::find_lru_page.  The C++ method dereferences the PageMetadata
    pointers stored in frame_to_page, hence the page-table argument. -/
def RAM.find_lru_page (r : RAM) (pt : PageTable) : Nat :=
  (lruLoop r pt r.frame_to_page.length 0 (UINT64_MAX, NO_FRAME)).2

/-- Loop invariant of RAM::find_lru_page after scanning frames < k:
    either no candidate below UINT64_MAX was seen and the accumulator is
    untouched, or the accumulator holds the first frame achieving the
    minimum last_access among frames < k. -/
def LruAcc (r : RAM) (pt : PageTable) (k : Nat) (acc : Nat × Nat) : Prop :=
  (acc = (UINT64_MAX, NO_FRAME) ∧
     ∀ j < k, ∀ m, lruCand r pt j = some m → ¬(m.last_access < UINT64_MAX))
  ∨ (∃ mb, lruCand r pt acc.2 = some mb ∧ acc.2 < k ∧ acc.1 = mb.last_access ∧
      acc.1 < UINT64_MAX ∧
      (∀ j < k, ∀ m, lruCand r pt j = some m → acc.1 ≤ m.last_access) ∧
      (∀ j < acc.2, ∀ m, lruCand r pt j = some m → acc.1 < m.last_access))

/-- The whole simulator state: MMU fields (page_table, next_disk_page,
    current_time), the RAM/Disk/SwapSpace the MMU references, and the
    VirtualMemorySystem mmap cursor. -/
structure Sys where
  page_table : PageTable
  ram : RAM
  disk : Disk
  swap_space : SwapSpace
  next_disk_page : Nat
  current_time : Nat
  next_virtual_addr : Nat
deriving DecidableEq

namespace MMU

/-- The write-back phase of MMU::evict_page: a dirty file-backed victim
    goes back to its disk page; a dirty anonymous victim goes to its
    swap slot (allocating one first if it has none); a clean anonymous
    victim that has never been swapped also gets a slot and a swap
    write; a clean file-backed (or clean already-swapped) victim needs
    no write. -/
def evictWriteBack (disk : Disk) (swap : SwapSpace) (meta : PageMetadata)
    (buffer : Page) : PageMetadata × Disk × SwapSpace :=
  if meta.dirty then
    if meta.file_backed then
      (meta, disk.write_page meta.disk_page buffer, swap)
    else
      let (meta', sw') :=
        if !meta.swapped then
          let (slot, sw) := swap.allocate_slot
          ({ meta with swap_slot := slot, swapped := true }, sw)
        else (meta, swap)
      (meta', disk, sw'.write_page meta'.swap_slot buffer)
  else
    if !meta.file_backed && !meta.swapped then
      let (slot, sw) := swap.allocate_slot
      ({ meta with swap_slot := slot, swapped := true }, disk,
        sw.write_page slot buffer)
    else (meta, disk, swap)

/-- The success path of MMU::evict_page once the victim (frame, owning
    vpn, metadata) is known: write back, clear the entry, free the
    frame. -/
def evictVictim (s : Sys) (victim_frame v : Nat) (meta : PageMetadata) : Sys :=
  let buffer := s.ram.read_page victim_frame uninitPage
  let out := evictWriteBack s.disk s.swap_space meta buffer
  let meta2 := { out.1 with present := false, dirty := false, physical_page := 0 }
  { s with page_table := ptSet s.page_table v meta2,
           ram := s.ram.free_page victim_frame,
           disk := out.2.1,
           swap_space := out.2.2 }

/-- MMU::evict_page.  Selects the LRU frame, dereferences its
    back-pointer, writes the page out, clears the entry and frees the
    frame.  Returns the freed frame or (pfn_t)-1. -/
def evict_page (s : Sys) : Nat × Sys :=
  let victim_frame := s.ram.find_lru_page s.page_table
  if victim_frame = NO_FRAME then (NO_FRAME, s)
  else
    match (s.ram.get_page_metadata victim_frame).bind
        (fun v => (ptGet s.page_table v).map (fun m => (v, m))) with
    | none => (NO_FRAME, s)
    | some (v, meta) => (victim_frame, evictVictim s victim_frame v meta)

/-- The tail of MMU::handle_page_fault after a frame has been secured:
    load the page content (swap / disk / zero-fill), store it into the
    frame and update the entry.  The C++ code works through a reference
    into the page table, so the entry is re-read here. -/
def loadAndFinish (s : Sys) (virtual_page phys_page : Nat) : Bool × Sys :=
  match ptGet s.page_table virtual_page with
  | none => (true, s)   -- unreachable: the entry exists whenever this runs
  | some pte =>
    let (buffer, swap1, pte1) :=
      if pte.swapped then
        (s.swap_space.read_page pte.swap_slot uninitPage,
         s.swap_space.free_slot pte.swap_slot,
         { pte with swapped := false })
      else if pte.file_backed then
        (s.disk.read_page pte.disk_page uninitPage, s.swap_space, pte)
      else
        (zeroPage, s.swap_space, pte)
    let ram1 := s.ram.write_page phys_page buffer
    let t := s.current_time + 1
    let pte2 := { pte1 with physical_page := phys_page, present := true,
                            last_access := t }
    (true, { s with page_table := ptSet s.page_table virtual_page pte2,
                    ram := ram1, swap_space := swap1, current_time := t })

/-- MMU::handle_page_fault. -/
def handle_page_fault (s : Sys) (virtual_page : Nat) : Bool × Sys :=
  match ptGet s.page_table virtual_page with
  | none => (false, s)
  | some _ =>
    let (phys0, ram0) := s.ram.allocate_page (some virtual_page)
    if phys0 = NO_FRAME then
      let (vf, sE) := evict_page { s with ram := ram0 }
      if vf = NO_FRAME then (false, sE)
      else
        let ramF := sE.ram.free_page vf
        let (phys1, ram1) := ramF.allocate_page (some virtual_page)
        loadAndFinish { sE with ram := ram1 } virtual_page phys1
    else
      loadAndFinish { s with ram := ram0 } virtual_page phys0

/-- MMU::translate_address: returns the physical location (frame, byte
    offset) or none, and the updated state. -/
def translate_address (s : Sys) (vaddr : Nat) (write_access : Bool) :
    Option (Nat × Nat) × Sys :=
  let virtual_page := vaddr / PAGE_SIZE
  let page_offset := vaddr % PAGE_SIZE
  match ptGet s.page_table virtual_page with
  | none => (none, s)
  | some pte0 =>
    let (ok, s1) :=
      if !pte0.present then handle_page_fault s virtual_page else (true, s)
    if !ok then (none, s1)
    else
      match ptGet s1.page_table virtual_page with
      | none => (none, s1)  -- unreachable: faulting never erases the entry
      | some pte =>
        let t := s1.current_time + 1
        let pte' := { pte with last_access := t, accessed := true,
                               dirty := pte.dirty || write_access }
        (some (pte'.physical_page, page_offset),
         { s1 with page_table := ptSet s1.page_table virtual_page pte',
                   current_time := t })

/-- The body of the i-loop of MMU::map_pages: install a fresh
    PageMetadata for each page (operator[] assignment: an existing entry
    is silently overwritten). -/
def mapLoop (s : Sys) : Nat → Nat → Bool → Nat → Sys
  | _, 0, _, _ => s
  | start_page, num + 1, file_backed, disk_start =>
    let pte := { PageMetadata.init with
                   file_backed := file_backed,
                   virtual_page := start_page,
                   disk_page := if file_backed then disk_start else 0 }
    mapLoop { s with page_table := ptSet s.page_table start_page pte }
      (start_page + 1) num file_backed (disk_start + 1)

/-- MMU::map_pages.  Always returns true. -/
def map_pages (s : Sys) (start_page num_pages : Nat) (file_backed : Bool)
    (disk_start : Nat) : Bool × Sys :=
  (true, mapLoop s start_page num_pages file_backed disk_start)

/-- The body of the i-loop of MMU::unmap_pages for one page. -/
def unmapOne (s : Sys) (virtual_page : Nat) : Sys :=
  match ptGet s.page_table virtual_page with
  | none => s
  | some pte =>
    let s1 :=
      if pte.present then
        let s0 :=
          if pte.dirty && pte.file_backed then
            let buffer := s.ram.read_page pte.physical_page uninitPage
            { s with disk := s.disk.write_page pte.disk_page buffer }
          else s
        { s0 with ram := s0.ram.free_page pte.physical_page }
      else s
    let s2 :=
      if pte.swapped then
        { s1 with swap_space := s1.swap_space.free_slot pte.swap_slot }
      else s1
    { s2 with page_table := ptErase s2.page_table virtual_page }

/-- The i-loop of MMU::unmap_pages. -/
def unmapLoop (s : Sys) : Nat → Nat → Sys
  | _, 0 => s
  | start_page, num + 1 =>
    unmapLoop (unmapOne s start_page) (start_page + 1) num

/-- MMU::unmap_pages.  Always returns true: pages without an entry are
    silently skipped. -/
def unmap_pages (s : Sys) (start_page num_pages : Nat) : Bool × Sys :=
  (true, unmapLoop s start_page num_pages)

end MMU

namespace VM

/-- VirtualMemorySystem::mmap: round the length up to whole pages, place
    the region at the monotone cursor, register the pages.  fd = -1
    means anonymous.  Returns the virtual address. -/
def mmap (s : Sys) (length : Nat) (fd : Int) (offset : Nat) : Option Nat × Sys :=
  let pages_needed := (length + PAGE_SIZE - 1) / PAGE_SIZE
  let virtual_addr := s.next_virtual_addr
  let start_page := virtual_addr / PAGE_SIZE
  let file_backed : Bool := fd ≠ -1
  let disk_start := if file_backed then offset / PAGE_SIZE else 0
  let (ok, s1) := MMU.map_pages s start_page pages_needed file_backed disk_start
  if ok then
    (some virtual_addr,
     { s1 with next_virtual_addr := virtual_addr + pages_needed * PAGE_SIZE })
  else (none, s1)

/-- VirtualMemorySystem::munmap: 0 on success, -1 on failure. -/
def munmap (s : Sys) (addr length : Nat) : Int × Sys :=
  let start_page := addr / PAGE_SIZE
  let pages_needed := (length + PAGE_SIZE - 1) / PAGE_SIZE
  let (ok, s1) := MMU.unmap_pages s start_page pages_needed
  if ok then (0, s1) else (-1, s1)

/-- VirtualMemorySystem::write_memory: translate with write access, then
    memcpy the bytes into the frame at the returned offset (in-page
    modelling; see header). -/
def write_memory (s : Sys) (addr : Nat) (data : List Nat) : Bool × Sys :=
  match MMU.translate_address s addr true with
  | (none, s1) => (false, s1)
  | (some (frame, off), s1) =>
    if frame < s1.ram.memory.length then
      let page := s1.ram.memory.getD frame zeroPage
      (true, { s1 with ram :=
        { s1.ram with memory := s1.ram.memory.set frame (pageWrite page off data) } })
    else (true, s1)

/-- VirtualMemorySystem::read_memory: translate without write access and
    memcpy `size` bytes out of the frame. -/
def read_memory (s : Sys) (addr size : Nat) : Option (List Nat) × Sys :=
  match MMU.translate_address s addr false with
  | (none, s1) => (none, s1)
  | (some (frame, off), s1) =>
    (some (pageRead (s1.ram.memory.getD frame zeroPage) off size), s1)

end VM

/-- MMU-level operations (the claim vocabulary: map, translate/fault,
    evict, unmap).  evict_page is private in the C++ class and is driven
    by handle_page_fault; it is still included as an explicit operation. -/
inductive MMUOp where
  | mapPages (start_page num_pages : Nat) (file_backed : Bool) (disk_start : Nat)
  | translateA (vaddr : Nat) (write_access : Bool)
  | evictA
  | unmapPages (start_page num_pages : Nat)
deriving DecidableEq

/-- Execute one MMU-level operation (return values are dropped). -/
def execM (s : Sys) : MMUOp → Sys
  | .mapPages a n fb ds => (MMU.map_pages s a n fb ds).2
  | .translateA a w => (MMU.translate_address s a w).2
  | .evictA => (MMU.evict_page s).2
  | .unmapPages a n => (MMU.unmap_pages s a n).2

/-- Execute a list of MMU-level operations. -/
def execMList (s : Sys) (ops : List MMUOp) : Sys := ops.foldl execM s

/-- VirtualMemorySystem-level operations. -/
inductive VMOp where
  | mmapA (length : Nat) (fd : Int) (offset : Nat)
  | munmapA (addr length : Nat)
  | writeA (addr : Nat) (data : List Nat)
  | readA (addr size : Nat)
deriving DecidableEq

/-- Execute one VirtualMemorySystem-level operation. -/
def execV (s : Sys) : VMOp → Sys
  | .mmapA l fd off => (VM.mmap s l fd off).2
  | .munmapA a l => (VM.munmap s a l).2
  | .writeA a d => (VM.write_memory s a d).2
  | .readA a n => (VM.read_memory s a n).2

/-- Execute a list of VirtualMemorySystem-level operations. -/
def execVList (s : Sys) (ops : List VMOp) : Sys := ops.foldl execV s

/-- The freshly constructed VirtualMemorySystem state. -/
def initSys : Sys :=
  { page_table := []
    ram := { memory := List.replicate NUM_FRAMES zeroPage,
             frame_to_page := List.replicate NUM_FRAMES none,
             allocated := List.replicate NUM_FRAMES false }
    disk := { storage := List.replicate NUM_DISK_PAGES zeroPage, log := [] }
    swap_space := { swap_storage := List.replicate NUM_SLOTS zeroPage,
                    allocated_slots := List.replicate NUM_SLOTS false,
                    log := [] }
    next_disk_page := 0
    current_time := 0
    next_virtual_addr := 0x10000000 }

/- ------------------------------------------------------------------
   Invariants and trace guards (properties of the embedded program).
   ------------------------------------------------------------------ -/

/-- Decidability of a property of the value inside an Option equation. -/
instance {α : Type} (o : Option α) (p : α → Prop) [∀ a, Decidable (p a)] :
    Decidable (∃ a, o = some a ∧ p a) :=
  match o with
  | none => isFalse (fun ⟨_, h, _⟩ => Option.noConfusion h)
  | some x =>
    if h : p x then isTrue ⟨x, rfl, h⟩
    else isFalse (fun ⟨a, ha, hpa⟩ => h (Option.some_inj.mp ha ▸ hpa))

instance {α : Type} (o : Option α) (p : α → Prop) [∀ a, Decidable (p a)] :
    Decidable (∀ a, o = some a → p a) :=
  match o with
  | none => isTrue (fun _ h => Option.noConfusion h)
  | some x =>
    if h : p x then isTrue (fun a ha => Option.some_inj.mp ha ▸ h)
    else isFalse (fun hall => h (hall x rfl))

/-- The RAM vectors have their constructed sizes. -/
def FramesLen (s : Sys) : Prop :=
  s.ram.allocated.length = NUM_FRAMES ∧
  s.ram.frame_to_page.length = NUM_FRAMES ∧
  s.ram.memory.length = NUM_FRAMES

/-- Weak frame invariant: page-table keys are unique and every present
    entry sits in an in-range, allocated frame whose back-pointer names
    that entry.  (Robust even against MMU::map_pages remaps.) -/
def WInv (s : Sys) : Prop :=
  FramesLen s ∧
  (assocKeys s.page_table).Nodup ∧
  ∀ e ∈ s.page_table, e.2.present = true →
    e.2.physical_page < NUM_FRAMES ∧
    s.ram.allocated.getD e.2.physical_page false = true ∧
    s.ram.frame_to_page.getD e.2.physical_page none = some e.1

/-- Strong invariant: WInv plus store sizes, entry-flag consistency,
    frame-ownership bijectivity, timestamp bounds, and swap-slot
    validity/uniqueness/ownership. -/
def SInv (s : Sys) : Prop :=
  WInv s ∧
  s.swap_space.allocated_slots.length = NUM_SLOTS ∧
  s.swap_space.swap_storage.length = NUM_SLOTS ∧
  s.disk.storage.length = NUM_DISK_PAGES ∧
  (∀ e ∈ s.page_table, e.2.virtual_page = e.1) ∧
  (∀ e ∈ s.page_table, ¬(e.2.present = true ∧ e.2.swapped = true)) ∧
  (∀ e ∈ s.page_table, e.2.file_backed = true → e.2.swapped = false) ∧
  (∀ e ∈ s.page_table, e.2.last_access ≤ s.current_time) ∧
  (∀ i < NUM_FRAMES, ∀ v, s.ram.frame_to_page.getD i none = some v →
     ∃ m, ptGet s.page_table v = some m ∧ m.present = true ∧ m.physical_page = i) ∧
  (∀ i < NUM_FRAMES, s.ram.frame_to_page.getD i none = none →
     s.ram.allocated.getD i false = false) ∧
  (∀ e ∈ s.page_table, e.2.swapped = true →
     e.2.swap_slot < NUM_SLOTS ∧
     s.swap_space.allocated_slots.getD e.2.swap_slot false = true) ∧
  (∀ e ∈ s.page_table, ∀ f ∈ s.page_table, e.1 ≠ f.1 →
     e.2.swapped = true → f.2.swapped = true → e.2.swap_slot ≠ f.2.swap_slot) ∧
  (∀ j < NUM_SLOTS, s.swap_space.allocated_slots.getD j false = true →
     ∃ e ∈ s.page_table, e.2.swapped = true ∧ e.2.swap_slot = j)

/-- The mmap cursor is page-aligned and strictly above every mapped
    page, so a VirtualMemorySystem-level mmap can never remap. -/
def CursorInv (s : Sys) : Prop :=
  s.next_virtual_addr % PAGE_SIZE = 0 ∧
  ∀ e ∈ s.page_table, e.1 < s.next_virtual_addr / PAGE_SIZE

/-- Timestamp headroom: the logical clock is below UINT64_MAX, so the
    strict comparison in RAM::find_lru_page cannot discard a candidate.
    (The C++ uint64 clock would need 2^64 - 1 accesses to get here.) -/
def TimeOK (s : Sys) : Prop := s.current_time < UINT64_MAX

/-- A free swap slot is available, so an eviction in the next operation
    cannot suffer the unchecked allocate_slot failure. -/
def SlotAvail (s : Sys) : Prop := (firstFree s.swap_space.allocated_slots).isSome = true

/-- Round-trip content invariant for an anonymous page `v` whose logical
    content is the page `P`: present means the frame holds `P`, swapped
    means the swap slot holds `P`, neither means `P` is the zero page. -/
def GoodAnon (s : Sys) (v : Nat) (P : Page) : Prop :=
  ∃ m, ptGet s.page_table v = some m ∧ m.file_backed = false ∧
    (m.present = true → s.ram.memory.getD m.physical_page zeroPage = P) ∧
    (m.present = false → m.swapped = true →
       s.swap_space.swap_storage.getD m.swap_slot zeroPage = P) ∧
    (m.present = false → m.swapped = false → P = zeroPage)

/-- Operations that leave page `v` alone: no write into it, no unmap
    covering it (mmap never remaps thanks to the cursor, and reads are
    free to fault `v` in and out). Writes are also required to stay
    inside their own page, matching the in-page modelling of memcpy. -/
def avoids (v : Nat) : VMOp → Prop
  | .mmapA _ _ _ => True
  | .munmapA a l => ∀ k < (l + PAGE_SIZE - 1) / PAGE_SIZE, a / PAGE_SIZE + k ≠ v
  | .writeA a d => a / PAGE_SIZE ≠ v ∧ a % PAGE_SIZE + d.length ≤ PAGE_SIZE
  | .readA _ _ => True

/-- Per-step guard for the round-trip and swap theorems. -/
def SafeStep (v : Nat) (s : Sys) (op : VMOp) : Prop :=
  TimeOK s ∧ SlotAvail s ∧ avoids v op

/-- The whole trace is guarded: every prefix state satisfies the
    per-step guard for the operation that runs next. -/
def SafeTrace (v : Nat) : Sys → List VMOp → Prop
  | _, [] => True
  | s, op :: ops => SafeStep v s op ∧ SafeTrace v (execV s op) ops

instance (s : Sys) : Decidable (FramesLen s) := by unfold FramesLen; infer_instance

instance (s : Sys) : Decidable (WInv s) := by unfold WInv; infer_instance

instance (s : Sys) : Decidable (SInv s) := by unfold SInv; infer_instance

instance (s : Sys) : Decidable (CursorInv s) := by unfold CursorInv; infer_instance

instance (s : Sys) : Decidable (TimeOK s) := by unfold TimeOK; infer_instance

instance (s : Sys) : Decidable (SlotAvail s) := by unfold SlotAvail; infer_instance

instance (s : Sys) (v : Nat) (P : Page) : Decidable (GoodAnon s v P) := by
  unfold GoodAnon; infer_instance

instance (v : Nat) : (op : VMOp) → Decidable (avoids v op)
  | .mmapA _ _ _ => isTrue trivial
  | .munmapA a l =>
    inferInstanceAs (Decidable (∀ k < (l + PAGE_SIZE - 1) / PAGE_SIZE,
      a / PAGE_SIZE + k ≠ v))
  | .writeA a d =>
    inferInstanceAs (Decidable (a / PAGE_SIZE ≠ v ∧ a % PAGE_SIZE + d.length ≤ PAGE_SIZE))
  | .readA _ _ => isTrue trivial

instance (v : Nat) (s : Sys) (op : VMOp) : Decidable (SafeStep v s op) := by
  unfold SafeStep; infer_instance

/-- SafeTrace is decidable (by running the trace). -/
def safeTraceDec (v : Nat) : (s : Sys) → (ops : List VMOp) → Decidable (SafeTrace v s ops)
  | _, [] => isTrue trivial
  | s, op :: ops => @instDecidableAnd _ _ _ (safeTraceDec v (execV s op) ops)

instance (v : Nat) (s : Sys) (ops : List VMOp) : Decidable (SafeTrace v s ops) :=
  safeTraceDec v s ops

/- ------------------------------------------------------------------
   allocvm_and_loadvm_sim.cpp: PhysicalMemory and PageTableManager
   (two-level page table with explicit remap rejection).
   ------------------------------------------------------------------ -/

namespace PTSim

/-- PTE_PRESENT flag. -/
def PTE_PRESENT : Nat := 0x001

/-- PTE_WRITE flag. -/
def PTE_WRITE : Nat := 0x002

/-- PTE_USER flag. -/
def PTE_USER : Nat := 0x004

/-- PDX(va) = (va >> 22) & 0x3FF. -/
def PDX (va : Nat) : Nat := (va >>> 22) &&& 0x3FF

/-- PTX(va) = (va >> 12) & 0x3FF. -/
def PTX (va : Nat) : Nat := (va >>> 12) &&& 0x3FF

/-- PTE_ADDR(pte) = pte & ~0xFFF (on uint32). -/
def PTE_ADDR (pte : Nat) : Nat := pte &&& 0xFFFFF000

/-- PGROUNDDOWN(sz) = sz & ~(PAGE_SIZE-1) (on uint32). -/
def PGROUNDDOWN (sz : Nat) : Nat := sz &&& 0xFFFFF000

/-- class PhysicalMemory: a std::map from page-aligned physical address
    to page contents, plus the bump allocator cursor. -/
structure PhysicalMemory where
  pages : List (Nat × Page)
  next_free_page : Nat
deriving DecidableEq

namespace PhysicalMemory

/-- PhysicalMemory::kalloc: bump-allocate a zero page. -/
def kalloc (pm : PhysicalMemory) : Nat × PhysicalMemory :=
  (pm.next_free_page,
   { pages := assocSet pm.pages pm.next_free_page zeroPage,
     next_free_page := pm.next_free_page + PAGE_SIZE })

/-- PhysicalMemory::kfree. -/
def kfree (pm : PhysicalMemory) (page_addr : Nat) : PhysicalMemory :=
  match assocGet pm.pages page_addr with
  | some _ => { pm with pages := assocErase pm.pages page_addr }
  | none => pm

/-- PhysicalMemory::read_byte: 0 when the page is not allocated. -/
def read_byte (pm : PhysicalMemory) (phys_addr : Nat) : Nat :=
  let page_addr := phys_addr &&& 0xFFFFF000
  let offset := phys_addr &&& 0xFFF
  match assocGet pm.pages page_addr with
  | some p => p.getD offset 0
  | none => 0

/-- PhysicalMemory::write_byte: no-op when the page is not allocated. -/
def write_byte (pm : PhysicalMemory) (phys_addr value : Nat) : PhysicalMemory :=
  let page_addr := phys_addr &&& 0xFFFFF000
  let offset := phys_addr &&& 0xFFF
  match assocGet pm.pages page_addr with
  | some p => { pm with pages := assocSet pm.pages page_addr (p.set offset value) }
  | none => pm

/-- PhysicalMemory::read_uint32 (little-endian). -/
def read_uint32 (pm : PhysicalMemory) (phys_addr : Nat) : Nat :=
  pm.read_byte phys_addr +
  pm.read_byte (phys_addr + 1) * 0x100 +
  pm.read_byte (phys_addr + 2) * 0x10000 +
  pm.read_byte (phys_addr + 3) * 0x1000000

/-- PhysicalMemory::write_uint32 (little-endian). -/
def write_uint32 (pm : PhysicalMemory) (phys_addr value : Nat) : PhysicalMemory :=
  (((pm.write_byte phys_addr (value &&& 0xFF)).write_byte
      (phys_addr + 1) ((value >>> 8) &&& 0xFF)).write_byte
      (phys_addr + 2) ((value >>> 16) &&& 0xFF)).write_byte
      (phys_addr + 3) ((value >>> 24) &&& 0xFF)

end PhysicalMemory

/-- One iteration of the page loop of PageTableManager::mappages for
    virtual page `a` mapping to physical `pa`: get-or-create the page
    table, reject a present PTE (`-1`, "Remap attempted"), otherwise
    install the PTE; recurse until `a = last`.  `fuel` counts the
    remaining pages. -/
def mappagesLoop (pd : Nat) :
    Nat → PhysicalMemory → Nat → Nat → Nat → Nat → Int × PhysicalMemory
  | 0, pm, _, _, _, _ => (0, pm)
  | fuel + 1, pm, a, pa, perm, last =>
    let dir_index := PDX a
    let table_index := PTX a
    let pde_addr := pd + dir_index * 4
    let pde := pm.read_uint32 pde_addr
    let (page_table_phys, pm1) :=
      if pde &&& PTE_PRESENT = 0 then
        let (pt, pmA) := pm.kalloc
        (pt, pmA.write_uint32 pde_addr (pt ||| PTE_PRESENT ||| PTE_WRITE ||| PTE_USER))
      else (PTE_ADDR pde, pm)
    let pte_addr := page_table_phys + table_index * 4
    let pte := pm1.read_uint32 pte_addr
    if pte &&& PTE_PRESENT ≠ 0 then (-1, pm1)
    else
      let pm2 := pm1.write_uint32 pte_addr (pa ||| perm ||| PTE_PRESENT)
      if a = last then (0, pm2)
      else mappagesLoop pd fuel pm2 (a + PAGE_SIZE) (pa + PAGE_SIZE) perm last

/-- PageTableManager::mappages (pd is the page-directory physical
    address held by the manager). -/
def mappages (pm : PhysicalMemory) (pd va size pa perm : Nat) :
    Int × PhysicalMemory :=
  let a := PGROUNDDOWN va
  let last := PGROUNDDOWN (va + size - 1)
  mappagesLoop pd ((last - a) / PAGE_SIZE + 1) pm a pa perm last

end PTSim

/- ------------------------------------------------------------------
   mmap.cpp: its RAM class (no frame_to_page array, 16 frames).
   ------------------------------------------------------------------ -/

namespace MmapSim

/-- class RAM of mmap.cpp. -/
structure RAM where
  memory : List Page
  allocated : List Bool
deriving DecidableEq

/-- mmap.cpp RAM::free_page: bounds-checked clear of the allocation
    bit. -/
def RAM.free_page (r : RAM) (page_num : Nat) : RAM :=
  if page_num < r.allocated.length then
    { r with allocated := r.allocated.set page_num false }
  else r

end MmapSim

/-- A range of pages is unmapped. -/
def freshRange (s : Sys) (a n : Nat) : Prop :=
  ∀ k < n, ptGet s.page_table (a + k) = none

instance (s : Sys) (a n : Nat) : Decidable (freshRange s a n) := by
  unfold freshRange; infer_instance

/-- All page-table keys lie below a bound (used with the mmap cursor). -/
def KeysBelow (s : Sys) (B : Nat) : Prop := ∀ e ∈ s.page_table, e.1 < B

/-- The MMU trace that exhausts the swap bitmap: map 41 anonymous pages
    and touch each once; the first 8 touches fill the frames, the next
    32 evictions fill every swap slot, and the 41st touch evicts a page
    into the unchecked failed allocation. -/
def c4trace : List MMUOp :=
  (MMUOp.mapPages 0 41 false 0) ::
  ((List.range 41).map (fun i => MMUOp.translateA (4096 * i) true))

/-- A state whose swap bitmap is completely allocated. -/
def c4full : Sys :=
  { initSys with swap_space :=
      { initSys.swap_space with
          allocated_slots := List.replicate NUM_SLOTS true } }

/-- The MMU trace for the C3 witness: map three anonymous pages and
    touch them in order, so their timestamps are strictly increasing. -/
def c3ops : List MMUOp :=
  [MMUOp.mapPages 0 3 false 0, MMUOp.translateA 0 false,
   MMUOp.translateA 4096 false, MMUOp.translateA 8192 false]

/-- The state reached by c3ops. -/
def c3s : Sys := execMList initSys c3ops

/-- Per-step guard for MMU-level traces: clock headroom, a free swap
    slot, and map_pages only over unmapped ranges (no remap). -/
def SafeMStep (s : Sys) (op : MMUOp) : Prop :=
  TimeOK s ∧ SlotAvail s ∧
  match op with
  | MMUOp.mapPages a n _ _ => freshRange s a n
  | _ => True

instance (s : Sys) (op : MMUOp) : Decidable (SafeMStep s op) := by
  unfold SafeMStep
  cases op <;> infer_instance

/-- A guarded MMU-level trace. -/
def SafeMTrace : Sys → List MMUOp → Prop
  | _, [] => True
  | s, op :: ops => SafeMStep s op ∧ SafeMTrace (execM s op) ops

/-- Decidability of SafeMTrace, by recursion on the trace. -/
def safeMTraceDec : (s : Sys) → (ops : List MMUOp) → Decidable (SafeMTrace s ops)
  | _, [] => isTrue trivial
  | s, op :: ops =>
    match inferInstanceAs (Decidable (SafeMStep s op)),
        safeMTraceDec (execM s op) ops with
    | isTrue h1, isTrue h2 => isTrue ⟨h1, h2⟩
    | isFalse h1, _ => isFalse (fun h => h1 h.1)
    | _, isFalse h2 => isFalse (fun h => h2 h.2)

instance (s : Sys) (ops : List MMUOp) : Decidable (SafeMTrace s ops) :=
  safeMTraceDec s ops

/-- The MMU trace showing the swap-slot leak: map pages 0..8, touch all
    nine (the ninth touch evicts page 0 into slot 0), then remap page 0
    with MMU::map_pages. -/
def c6trace : List MMUOp :=
  (MMUOp.mapPages 0 9 false 0) ::
  ((List.range 9).map (fun i => MMUOp.translateA (4096 * i) true)) ++
  [MMUOp.mapPages 0 1 false 0]

/-- A remap-free guarded MMU trace that swaps page 0 out: map pages
    0..8 and touch all nine. -/
def c6safe : List MMUOp :=
  (MMUOp.mapPages 0 9 false 0) ::
  ((List.range 9).map (fun i => MMUOp.translateA (4096 * i) true))

/-- A VirtualMemorySystem trace that refutes the unconditional
    round-trip claim: mmap one file-backed page whose backing offset
    (64 * 4096) lies outside the 64-page disk, write two bytes, then
    mmap eight anonymous pages and touch each, forcing the file-backed
    page's eviction; its dirty write-back is silently dropped by
    Disk::write_page's bounds check. -/
def c1trace : List VMOp :=
  (VMOp.mmapA 4096 1 (64 * 4096)) ::
  (VMOp.writeA 0x10000000 [65, 66]) ::
  (VMOp.mmapA (8 * 4096) (-1) 0) ::
  ((List.range 8).map (fun i => VMOp.writeA (0x10000000 + 4096 * (1 + i)) [1 + i]))

/-- The guarded trace used by the C1 witness: mmap eight further
    anonymous pages and write each once, forcing the original page
    through an eviction and a swap round trip. -/
def c1wops : List VMOp :=
  (VMOp.mmapA (8 * 4096) (-1) 0) ::
  ((List.range 8).map (fun i => VMOp.writeA (0x10000000 + 4096 * (1 + i)) [1 + i]))

/- ==================================================================
   Lemmas.  First: generic list and association-list facts.
   ================================================================== -/

theorem getD_set_self {α : Type} (l : List α) (i : Nat) (a d : α)
    (h : i < l.length) : (l.set i a).getD i d = a := by
  induction l generalizing i with
  | nil => simp at h
  | cons x xs ih =>
    cases i with
    | zero => rfl
    | succ n => simpa using ih n (by simpa using h)

theorem getD_set_ne {α : Type} (l : List α) (i j : Nat) (a d : α)
    (h : i ≠ j) : (l.set i a).getD j d = l.getD j d := by
  induction l generalizing i j with
  | nil => rfl
  | cons x xs ih =>
    cases i with
    | zero =>
      cases j with
      | zero => exact absurd rfl h
      | succ n => rfl
    | succ m =>
      cases j with
      | zero => rfl
      | succ n => simpa using ih m n (by omega)

theorem getD_replicate {α : Type} (n i : Nat) (a d : α) (h : i < n) :
    (List.replicate n a).getD i d = a := by
  induction n generalizing i with
  | zero => omega
  | succ k ih =>
    cases i with
    | zero => rfl
    | succ m =>
      rw [List.replicate_succ]
      simpa using ih m (by omega)

theorem assocGet_set_self {α : Type} (l : List (Nat × α)) (v : Nat) (m : α) :
    assocGet (assocSet l v m) v = some m := by
  induction l with
  | nil => simp [assocSet, assocGet]
  | cons e rest ih =>
    by_cases h : e.1 = v
    · simp [assocSet, h, assocGet]
    · simp [assocSet, h, assocGet, ih]

theorem assocGet_set_ne {α : Type} (l : List (Nat × α)) (v w : Nat) (m : α)
    (h : v ≠ w) : assocGet (assocSet l v m) w = assocGet l w := by
  induction l with
  | nil => simp [assocSet, assocGet, h]
  | cons e rest ih =>
    by_cases he : e.1 = v
    · simp [assocSet, he, assocGet, h]
    · simp only [assocSet, if_neg he]
      by_cases hw : e.1 = w
      · simp [assocGet, hw]
      · simp [assocGet, hw, ih]

theorem assocGet_eq_none_iff {α : Type} (l : List (Nat × α)) (v : Nat) :
    assocGet l v = none ↔ v ∉ assocKeys l := by
  induction l with
  | nil => simp [assocGet, assocKeys]
  | cons e rest ih =>
    by_cases h : e.1 = v
    · simp [assocGet, h, assocKeys]
    · simp [assocGet, h, assocKeys, ih]
      omega

theorem mem_of_assocGet {α : Type} {l : List (Nat × α)} {v : Nat} {m : α}
    (h : assocGet l v = some m) : (v, m) ∈ l := by
  induction l with
  | nil => simp [assocGet] at h
  | cons e rest ih =>
    by_cases he : e.1 = v
    · simp only [assocGet, if_pos he] at h
      have hm : m = e.2 := (Option.some_inj.mp h).symm
      subst hm
      refine List.mem_cons.mpr (Or.inl ?_)
      rw [← he]
    · simp only [assocGet, if_neg he] at h
      exact List.mem_cons_of_mem _ (ih h)

theorem assocGet_of_mem {α : Type} {l : List (Nat × α)} {v : Nat} {m : α}
    (hn : (assocKeys l).Nodup) (h : (v, m) ∈ l) : assocGet l v = some m := by
  induction l with
  | nil => simp at h
  | cons e rest ih =>
    simp only [assocKeys, List.map_cons, List.nodup_cons] at hn
    rcases List.mem_cons.mp h with h1 | h1
    · rw [← h1]
      simp [assocGet]
    · have hne : e.1 ≠ v := by
        intro he
        exact hn.1 (he ▸ (by simpa [assocKeys] using List.mem_map_of_mem Prod.fst h1))
      simp only [assocGet, if_neg hne]
      exact ih hn.2 h1

theorem mem_keys_of_mem {α : Type} {e : Nat × α} {l : List (Nat × α)}
    (h : e ∈ l) : e.1 ∈ assocKeys l := List.mem_map_of_mem Prod.fst h

theorem mem_assocSet {α : Type} {e : Nat × α} {l : List (Nat × α)} {v : Nat}
    {m : α} (hn : (assocKeys l).Nodup) (h : e ∈ assocSet l v m) :
    e = (v, m) ∨ (e ∈ l ∧ e.1 ≠ v) := by
  induction l with
  | nil => simp [assocSet] at h; simp [h]
  | cons f rest ih =>
    simp only [assocKeys, List.map_cons, List.nodup_cons] at hn
    by_cases hf : f.1 = v
    · simp only [assocSet, if_pos hf] at h
      rcases List.mem_cons.mp h with h1 | h1
      · exact Or.inl h1
      · refine Or.inr ⟨List.mem_cons_of_mem _ h1, fun hev => ?_⟩
        exact hn.1 (hf ▸ hev ▸ mem_keys_of_mem h1)
    · simp only [assocSet, if_neg hf] at h
      rcases List.mem_cons.mp h with h1 | h1
      · subst h1
        exact Or.inr ⟨List.mem_cons_self _ _, hf⟩
      · rcases ih hn.2 h1 with h2 | h2
        · exact Or.inl h2
        · exact Or.inr ⟨List.mem_cons_of_mem _ h2.1, h2.2⟩

theorem assocErase_sublist {α : Type} (l : List (Nat × α)) (v : Nat) :
    (assocErase l v).Sublist l := by
  induction l with
  | nil => simp [assocErase]
  | cons e rest ih =>
    by_cases h : e.1 = v
    · simp only [assocErase, if_pos h]
      exact (List.sublist_cons_self e rest)
    · simp only [assocErase, if_neg h]
      exact ih.cons₂ e

theorem mem_assocErase {α : Type} {e : Nat × α} {l : List (Nat × α)} {v : Nat}
    (h : e ∈ assocErase l v) : e ∈ l :=
  (assocErase_sublist l v).mem h

theorem mem_assocErase_ne {α : Type} {e : Nat × α} {l : List (Nat × α)} {v : Nat}
    (hn : (assocKeys l).Nodup) (h : e ∈ assocErase l v) : e ∈ l ∧ e.1 ≠ v := by
  induction l with
  | nil => simp [assocErase] at h
  | cons f rest ih =>
    simp only [assocKeys, List.map_cons, List.nodup_cons] at hn
    by_cases hf : f.1 = v
    · simp only [assocErase, if_pos hf] at h
      refine ⟨List.mem_cons_of_mem _ h, fun hev => ?_⟩
      have : f.1 ∈ assocKeys rest := by
        rw [hf, ← hev]
        exact mem_keys_of_mem h
      exact hn.1 this
    · simp only [assocErase, if_neg hf] at h
      rcases List.mem_cons.mp h with h1 | h1
      · subst h1
        exact ⟨List.mem_cons_self _ _, hf⟩
      · rcases ih hn.2 h1 with ⟨h2, h3⟩
        exact ⟨List.mem_cons_of_mem _ h2, h3⟩

theorem assocGet_erase_ne {α : Type} (l : List (Nat × α)) (v w : Nat)
    (h : v ≠ w) : assocGet (assocErase l v) w = assocGet l w := by
  induction l with
  | nil => rfl
  | cons e rest ih =>
    by_cases he : e.1 = v
    · simp only [assocErase, if_pos he, assocGet]
      rw [if_neg (by omega)]
    · simp only [assocErase, if_neg he, assocGet]
      by_cases hw : e.1 = w
      · simp [hw]
      · simp [hw, ih]

theorem assocGet_erase_self {α : Type} (l : List (Nat × α)) (v : Nat)
    (hn : (assocKeys l).Nodup) : assocGet (assocErase l v) v = none := by
  induction l with
  | nil => rfl
  | cons e rest ih =>
    simp only [assocKeys, List.map_cons, List.nodup_cons] at hn
    by_cases he : e.1 = v
    · simp only [assocErase, if_pos he]
      rw [assocGet_eq_none_iff]
      rw [← he]
      exact hn.1
    · simp only [assocErase, if_neg he, assocGet, if_neg he]
      exact ih hn.2

theorem mem_keys_assocSet {α : Type} {l : List (Nat × α)} {v w : Nat} {m : α}
    (h : w ∈ assocKeys (assocSet l v m)) : w = v ∨ w ∈ assocKeys l := by
  induction l with
  | nil => simpa [assocSet, assocKeys] using h
  | cons e rest ih =>
    by_cases he : e.1 = v
    · simp only [assocSet, if_pos he, assocKeys, List.map_cons, List.mem_cons] at h ⊢
      rcases h with h1 | h1
      · exact Or.inl h1
      · exact Or.inr (Or.inr h1)
    · simp only [assocSet, if_neg he, assocKeys, List.map_cons, List.mem_cons] at h ⊢
      rcases h with h1 | h1
      · exact Or.inr (Or.inl h1)
      · rcases ih h1 with h2 | h2
        · exact Or.inl h2
        · exact Or.inr (Or.inr h2)

theorem nodup_keys_assocSet {α : Type} (l : List (Nat × α)) (v : Nat) (m : α)
    (hn : (assocKeys l).Nodup) : (assocKeys (assocSet l v m)).Nodup := by
  induction l with
  | nil => simp [assocSet, assocKeys]
  | cons e rest ih =>
    simp only [assocKeys, List.map_cons, List.nodup_cons] at hn
    by_cases he : e.1 = v
    · simp only [assocSet, if_pos he, assocKeys, List.map_cons, List.nodup_cons]
      exact ⟨fun hv => hn.1 (he ▸ hv), hn.2⟩
    · simp only [assocSet, if_neg he, assocKeys, List.map_cons, List.nodup_cons]
      refine ⟨fun hv => ?_, ih hn.2⟩
      rcases mem_keys_assocSet hv with h1 | h1
      · exact he h1
      · exact hn.1 h1

theorem nodup_keys_assocErase {α : Type} (l : List (Nat × α)) (v : Nat)
    (hn : (assocKeys l).Nodup) : (assocKeys (assocErase l v)).Nodup := by
  have hs : (assocKeys (assocErase l v)).Sublist (assocKeys l) :=
    List.Sublist.map Prod.fst (assocErase_sublist l v)
  exact hn.sublist hs

/- firstFree facts. -/

theorem firstFree_some {l : List Bool} {i : Nat} (h : firstFree l = some i) :
    i < l.length ∧ l.getD i true = false := by
  induction l generalizing i with
  | nil => simp [firstFree] at h
  | cons b rest ih =>
    by_cases hb : b
    · simp only [firstFree, if_pos hb, Option.map_eq_some'] at h
      obtain ⟨j, hj, hji⟩ := h
      rcases ih hj with ⟨h1, h2⟩
      subst hji
      exact ⟨by simpa using h1, by simpa using h2⟩
    · simp only [firstFree, if_neg hb] at h
      cases h
      refine ⟨by simp, ?_⟩
      simp only [Bool.not_eq_true] at hb
      simp [hb]

theorem firstFree_none {l : List Bool} (h : firstFree l = none) :
    ∀ j < l.length, l.getD j false = true := by
  induction l with
  | nil => intro j hj; simp at hj
  | cons b rest ih =>
    by_cases hb : b
    · simp only [firstFree, if_pos hb, Option.map_eq_none'] at h
      intro j hj
      cases j with
      | zero => simpa using hb
      | succ n => simpa using ih h n (by simpa using hj)
    · simp [firstFree, if_neg hb] at h

/- Small numeric facts about the constants. -/

theorem num_frames_val : NUM_FRAMES = 8 := by decide

theorem num_slots_val : NUM_SLOTS = 32 := by decide

theorem no_frame_ge : ¬(NO_FRAME < NUM_FRAMES) := by decide

/- Component-level unfolding lemmas. -/

theorem RAM.allocate_page_none (r : RAM) (meta : Option Nat)
    (h : firstFree r.allocated = none) : r.allocate_page meta = (NO_FRAME, r) := by
  simp [RAM.allocate_page, h]

theorem RAM.allocate_page_some (r : RAM) (meta : Option Nat) (i : Nat)
    (h : firstFree r.allocated = some i) :
    r.allocate_page meta =
      (i, { r with allocated := r.allocated.set i true,
                   frame_to_page := r.frame_to_page.set i meta }) := by
  simp [RAM.allocate_page, h]

/- Characterization of the RAM::find_lru_page loop. -/

theorem lruStep_acc (r : RAM) (pt : PageTable) (k : Nat) (acc : Nat × Nat)
    (h : LruAcc r pt k acc) : LruAcc r pt (k + 1) (lruStep r pt k acc) := by
  unfold lruStep
  rcases h with ⟨hacc, hnone⟩ | ⟨mb, hmb, hk, heq, hUB, hmin, hfirst⟩
  · subst hacc
    cases hc : lruCand r pt k with
    | none =>
      left
      refine ⟨rfl, fun j hj m hm => ?_⟩
      rcases Nat.lt_succ_iff_lt_or_eq.mp hj with hj1 | rfl
      · exact hnone j hj1 m hm
      · rw [hc] at hm
        cases hm
    | some m =>
      by_cases hlt : m.last_access < UINT64_MAX
      · simp only [if_pos hlt]
        right
        refine ⟨m, by simpa using hc, Nat.lt_succ_self k, rfl, hlt, ?_, ?_⟩
        · intro j hj m' hm'
          rcases Nat.lt_succ_iff_lt_or_eq.mp hj with hj1 | rfl
          · have := hnone j hj1 m' hm'
            omega
          · rw [hc] at hm'
            cases hm'
            exact Nat.le_refl _
        · intro j hj m' hm'
          have := hnone j hj m' hm'
          omega
      · simp only [if_neg hlt]
        left
        refine ⟨rfl, fun j hj m' hm' => ?_⟩
        rcases Nat.lt_succ_iff_lt_or_eq.mp hj with hj1 | rfl
        · exact hnone j hj1 m' hm'
        · rw [hc] at hm'
          cases hm'
          exact hlt
  · cases hc : lruCand r pt k with
    | none =>
      right
      refine ⟨mb, hmb, Nat.lt_succ_of_lt hk, heq, hUB, ?_, hfirst⟩
      intro j hj m' hm'
      rcases Nat.lt_succ_iff_lt_or_eq.mp hj with hj1 | rfl
      · exact hmin j hj1 m' hm'
      · rw [hc] at hm'
        cases hm'
    | some m =>
      by_cases hlt : m.last_access < acc.1
      · simp only [if_pos hlt]
        right
        refine ⟨m, by simpa using hc, Nat.lt_succ_self k, rfl, by omega, ?_, ?_⟩
        · intro j hj m' hm'
          rcases Nat.lt_succ_iff_lt_or_eq.mp hj with hj1 | rfl
          · have := hmin j hj1 m' hm'
            omega
          · rw [hc] at hm'
            cases hm'
            exact Nat.le_refl _
        · intro j hj m' hm'
          have := hmin j (by omega) m' hm'
          omega
      · simp only [if_neg hlt]
        right
        refine ⟨mb, hmb, Nat.lt_succ_of_lt hk, heq, hUB, ?_, hfirst⟩
        intro j hj m' hm'
        rcases Nat.lt_succ_iff_lt_or_eq.mp hj with hj1 | rfl
        · exact hmin j hj1 m' hm'
        · rw [hc] at hm'
          cases hm'
          omega

theorem lruLoop_acc (r : RAM) (pt : PageTable) :
    ∀ (fuel k : Nat) (acc : Nat × Nat), LruAcc r pt k acc →
      LruAcc r pt (k + fuel) (lruLoop r pt fuel k acc) := by
  intro fuel
  induction fuel with
  | zero => intro k acc h; simpa using h
  | succ f ih =>
    intro k acc h
    have h1 := ih (k + 1) (lruStep r pt k acc) (lruStep_acc r pt k acc h)
    have hk : k + 1 + f = k + (f + 1) := by omega
    rw [hk] at h1
    exact h1

theorem find_lru_acc (r : RAM) (pt : PageTable) :
    LruAcc r pt r.frame_to_page.length
      (lruLoop r pt r.frame_to_page.length 0 (UINT64_MAX, NO_FRAME)) := by
  have h0 : LruAcc r pt 0 (UINT64_MAX, NO_FRAME) :=
    Or.inl ⟨rfl, fun j hj => by omega⟩
  simpa using lruLoop_acc r pt r.frame_to_page.length 0 _ h0

theorem find_lru_none {r : RAM} {pt : PageTable}
    (hlen : r.frame_to_page.length = NUM_FRAMES)
    (h : r.find_lru_page pt = NO_FRAME) :
    ∀ j < NUM_FRAMES, ∀ m, lruCand r pt j = some m →
      ¬(m.last_access < UINT64_MAX) := by
  have hacc := find_lru_acc r pt
  rw [hlen] at hacc
  rcases hacc with ⟨_, hnone⟩ | ⟨mb, _, hk, _, _, _, _⟩
  · exact hnone
  · rw [RAM.find_lru_page, hlen] at h
    rw [h] at hk
    exact absurd hk no_frame_ge

theorem find_lru_found {r : RAM} {pt : PageTable}
    (hlen : r.frame_to_page.length = NUM_FRAMES)
    (h : r.find_lru_page pt ≠ NO_FRAME) :
    ∃ mb, lruCand r pt (r.find_lru_page pt) = some mb ∧
      r.find_lru_page pt < NUM_FRAMES ∧ mb.last_access < UINT64_MAX ∧
      (∀ j < NUM_FRAMES, ∀ m, lruCand r pt j = some m →
        mb.last_access ≤ m.last_access) ∧
      (∀ j < r.find_lru_page pt, ∀ m, lruCand r pt j = some m →
        mb.last_access < m.last_access) := by
  have hacc := find_lru_acc r pt
  rw [hlen] at hacc
  rw [RAM.find_lru_page, hlen]
  rcases hacc with ⟨hpair, _⟩ | ⟨mb, hmb, hk, heq, hUB, hmin, hfirst⟩
  · rw [RAM.find_lru_page, hlen, hpair] at h
    exact absurd rfl h
  · refine ⟨mb, hmb, hk, by omega, ?_, ?_⟩
    · intro j hj m hm
      have := hmin j hj m hm
      omega
    · intro j hj m hm
      have := hfirst j hj m hm
      omega

theorem find_lru_success {r : RAM} {pt : PageTable}
    (hlen : r.frame_to_page.length = NUM_FRAMES) {j : Nat} {m : PageMetadata}
    (hj : j < NUM_FRAMES) (hc : lruCand r pt j = some m)
    (hm : m.last_access < UINT64_MAX) :
    r.find_lru_page pt ≠ NO_FRAME := by
  intro h
  exact find_lru_none hlen h j hj m hc hm

theorem find_lru_unique {r : RAM} {pt : PageTable}
    (hlen : r.frame_to_page.length = NUM_FRAMES) {iStar : Nat}
    {mStar : PageMetadata} (hi : iStar < NUM_FRAMES)
    (hc : lruCand r pt iStar = some mStar)
    (hm : mStar.last_access < UINT64_MAX)
    (huniq : ∀ j < NUM_FRAMES, ∀ m, lruCand r pt j = some m → j ≠ iStar →
      mStar.last_access < m.last_access) :
    r.find_lru_page pt = iStar := by
  have hne := find_lru_success hlen hi hc hm
  obtain ⟨mb, hmb, hfk, _, hmin, _⟩ := find_lru_found hlen hne
  by_contra hne2
  have h1 := huniq _ hfk mb hmb hne2
  have h2 := hmin iStar hi mStar hc
  omega

/- Weak invariant: preservation by every MMU-level operation. -/

theorem firstFree_isSome {l : List Bool} {j : Nat} (hj : j < l.length)
    (h : l.getD j false = false) : ∃ i, firstFree l = some i := by
  cases hf : firstFree l with
  | some i => exact ⟨i, rfl⟩
  | none =>
    have := firstFree_none hf j hj
    rw [h] at this
    cases this

theorem WInv_ptSet_not_present {s : Sys} (hW : WInv s) (v : Nat)
    {m : PageMetadata} (hm : m.present = false) :
    WInv { s with page_table := ptSet s.page_table v m } := by
  obtain ⟨hlen, hnd, hent⟩ := hW
  refine ⟨hlen, nodup_keys_assocSet _ _ _ hnd, ?_⟩
  intro e he hp
  rcases mem_assocSet hnd he with rfl | ⟨he1, _⟩
  · simp [hm] at hp
  · exact hent e he1 hp

theorem WInv_mapLoop (n : Nat) : ∀ (s : Sys) (a : Nat) (fb : Bool) (ds : Nat),
    WInv s → WInv (MMU.mapLoop s a n fb ds) := by
  induction n with
  | zero => intro s a fb ds h; exact h
  | succ k ih =>
    intro s a fb ds h
    exact ih _ (a + 1) fb (ds + 1) (WInv_ptSet_not_present h a rfl)

theorem evict_page_cases (s : Sys) :
    MMU.evict_page s = (NO_FRAME, s) ∨
    ∃ v meta,
      s.ram.get_page_metadata (s.ram.find_lru_page s.page_table) = some v ∧
      ptGet s.page_table v = some meta ∧
      s.ram.find_lru_page s.page_table ≠ NO_FRAME ∧
      MMU.evict_page s =
        (s.ram.find_lru_page s.page_table,
         MMU.evictVictim s (s.ram.find_lru_page s.page_table) v meta) := by
  by_cases h : s.ram.find_lru_page s.page_table = NO_FRAME
  · left
    simp [MMU.evict_page, h]
  · cases hg : s.ram.get_page_metadata (s.ram.find_lru_page s.page_table) with
    | none =>
      left
      simp [MMU.evict_page, h, hg]
    | some v =>
      cases hp : ptGet s.page_table v with
      | none =>
        left
        simp [MMU.evict_page, h, hg, hp]
      | some meta =>
        right
        exact ⟨v, meta, rfl, hp, h, by simp [MMU.evict_page, h, hg, hp]⟩

theorem get_page_metadata_some {r : RAM} {vf v : Nat}
    (hg : r.get_page_metadata vf = some v) :
    vf < r.frame_to_page.length ∧ r.frame_to_page.getD vf none = some v := by
  by_cases hlt : vf < r.frame_to_page.length
  · refine ⟨hlt, ?_⟩
    simpa [RAM.get_page_metadata, hlt] using hg
  · simp [RAM.get_page_metadata, hlt] at hg

theorem WInv_evictVictim {s : Sys} (hW : WInv s) {vf v : Nat}
    {meta : PageMetadata} (hg : s.ram.get_page_metadata vf = some v) :
    WInv (MMU.evictVictim s vf v meta) := by
  obtain ⟨⟨hal, hfl, hml⟩, hnd, hent⟩ := hW
  obtain ⟨hvlt, hf2p⟩ := get_page_metadata_some hg
  have hvf : vf < s.ram.allocated.length := by rw [hal, ← hfl]; exact hvlt
  have hfree : s.ram.free_page vf =
      { s.ram with allocated := s.ram.allocated.set vf false,
                   frame_to_page := s.ram.frame_to_page.set vf none } := by
    simp [RAM.free_page, hvf]
  refine ⟨⟨?_, ?_, ?_⟩, nodup_keys_assocSet _ _ _ hnd, ?_⟩
  · simp [MMU.evictVictim, hfree, hal]
  · simp [MMU.evictVictim, hfree, hfl]
  · simp [MMU.evictVictim, hfree, hml]
  · intro e he hp
    simp only [MMU.evictVictim, hfree] at he ⊢
    rcases mem_assocSet hnd he with rfl | ⟨he1, hnev⟩
    · simp at hp
    · obtain ⟨h1, h2, h3⟩ := hent e he1 hp
      have hne : e.2.physical_page ≠ vf := by
        intro heq
        rw [heq, hf2p] at h3
        exact hnev (Option.some_inj.mp h3).symm
      exact ⟨h1,
        by rw [getD_set_ne _ _ _ _ _ (fun h => hne h.symm)]; exact h2,
        by rw [getD_set_ne _ _ _ _ _ (fun h => hne h.symm)]; exact h3⟩

theorem WInv_evict (s : Sys) (hW : WInv s) : WInv (MMU.evict_page s).2 := by
  rcases evict_page_cases s with h | ⟨v, meta, hg, _, _, heq⟩
  · rw [h]; exact hW
  · rw [heq]; exact WInv_evictVictim hW hg

theorem WInv_install {s : Sys} (hW : WInv s) {vpn phys : Nat}
    {pte2 : PageMetadata} (hp : phys < NUM_FRAMES)
    (ha : s.ram.allocated.getD phys false = true)
    (hf : s.ram.frame_to_page.getD phys none = some vpn)
    (hpp : pte2.physical_page = phys) (ram' : RAM) (sw : SwapSpace) (t : Nat)
    (hra : ram'.allocated = s.ram.allocated)
    (hrf : ram'.frame_to_page = s.ram.frame_to_page)
    (hrm : ram'.memory.length = s.ram.memory.length) :
    WInv { s with page_table := ptSet s.page_table vpn pte2, ram := ram',
                  swap_space := sw, current_time := t } := by
  obtain ⟨⟨hal, hfl, hml⟩, hnd, hent⟩ := hW
  refine ⟨⟨by rw [hra]; exact hal, by rw [hrf]; exact hfl, by rw [hrm]; exact hml⟩,
    nodup_keys_assocSet _ _ _ hnd, ?_⟩
  intro e he hpres
  rcases mem_assocSet hnd he with rfl | ⟨he1, _⟩
  · simp only [hpp, hra, hrf]
    exact ⟨hp, ha, hf⟩
  · obtain ⟨h1, h2, h3⟩ := hent e he1 hpres
    rw [hra, hrf]
    exact ⟨h1, h2, h3⟩

theorem WInv_loadAndFinish {s : Sys} (hW : WInv s) {vpn phys : Nat}
    (hp : phys < NUM_FRAMES)
    (ha : s.ram.allocated.getD phys false = true)
    (hf : s.ram.frame_to_page.getD phys none = some vpn) :
    WInv (MMU.loadAndFinish s vpn phys).2 := by
  unfold MMU.loadAndFinish
  cases hpte : ptGet s.page_table vpn with
  | none => exact hW
  | some pte =>
    by_cases hsw : pte.swapped <;> by_cases hfb : pte.file_backed <;>
      simp only [hsw, hfb, Bool.false_eq_true, if_true, if_false,
        Bool.true_eq_false, ite_true, ite_false] <;>
      exact WInv_install hW hp ha hf rfl _ _ _
        (by simp [RAM.write_page]; split <;> rfl)
        (by simp [RAM.write_page]; split <;> rfl)
        (by simp [RAM.write_page]; split <;> simp)

theorem getD_default_irrel {α : Type} {l : List α} {i : Nat} (h : i < l.length)
    (d d' : α) : l.getD i d = l.getD i d' := by
  induction l generalizing i with
  | nil => simp at h
  | cons x xs ih =>
    cases i with
    | zero => rfl
    | succ n => simpa using ih (by simpa using h) 

theorem WInv_ram_compat {s : Sys} (hW : WInv s) (ram' : RAM)
    (h1 : ram'.allocated.length = NUM_FRAMES)
    (h2 : ram'.frame_to_page.length = NUM_FRAMES)
    (h3 : ram'.memory.length = NUM_FRAMES)
    (hpres : ∀ e ∈ s.page_table, e.2.present = true →
       ram'.allocated.getD e.2.physical_page false = true ∧
       ram'.frame_to_page.getD e.2.physical_page none = some e.1) :
    WInv { s with ram := ram' } := by
  obtain ⟨_, hnd, hent⟩ := hW
  refine ⟨⟨h1, h2, h3⟩, hnd, ?_⟩
  intro e he hp
  exact ⟨(hent e he hp).1, (hpres e he hp).1, (hpres e he hp).2⟩

theorem WInv_alloc_load {s : Sys} (hW : WInv s) (vpn : Nat) {i : Nat}
    (hff : firstFree s.ram.allocated = some i) :
    WInv (MMU.loadAndFinish
      { s with ram :=
          { s.ram with
              allocated := s.ram.allocated.set i true,
              frame_to_page := s.ram.frame_to_page.set i (some vpn) } }
      vpn i).2 := by
  obtain ⟨hilt, hbit⟩ := firstFree_some hff
  have hi8 : i < NUM_FRAMES := by rw [← hW.1.1]; exact hilt
  have hif : i < s.ram.frame_to_page.length := by rw [hW.1.2.1]; exact hi8
  have hW0 : WInv { s with ram :=
      { s.ram with
          allocated := s.ram.allocated.set i true,
          frame_to_page := s.ram.frame_to_page.set i (some vpn) } } := by
    refine WInv_ram_compat hW _ (by simpa using hW.1.1) (by simpa using hW.1.2.1)
      (hW.1.2.2) ?_
    intro e he hp
    obtain ⟨f1, f2, f3⟩ := hW.2.2 e he hp
    have hne : e.2.physical_page ≠ i := by
      intro heq
      rw [heq] at f2
      rw [getD_default_irrel hilt false true] at f2
      rw [hbit] at f2
      cases f2
    constructor
    · rw [getD_set_ne _ _ _ _ _ (fun h => hne h.symm)]; exact f2
    · rw [getD_set_ne _ _ _ _ _ (fun h => hne h.symm)]; exact f3
  refine WInv_loadAndFinish hW0 hi8 ?_ ?_
  · exact getD_set_self _ _ _ _ hilt
  · exact getD_set_self _ _ _ _ hif

theorem WInv_fault (s : Sys) (vpn : Nat) (hW : WInv s) :
    WInv (MMU.handle_page_fault s vpn).2 := by
  unfold MMU.handle_page_fault
  cases hpte : ptGet s.page_table vpn with
  | none => exact hW
  | some pte0 =>
    cases hff : firstFree s.ram.allocated with
    | some i =>
      obtain ⟨hilt, _⟩ := firstFree_some hff
      have hi8 : i < NUM_FRAMES := by rw [← hW.1.1]; exact hilt
      have hne : ¬(i = NO_FRAME) := by
        intro h
        rw [h] at hi8
        exact no_frame_ge hi8
      rw [RAM.allocate_page_some _ _ _ hff]
      simp only [hne, if_false, ite_false]
      exact WInv_alloc_load hW vpn hff
    | none =>
      rw [RAM.allocate_page_none _ _ hff]
      simp only [if_pos rfl, ite_true]
      rcases evict_page_cases s with hcase | ⟨v, meta, hg, hp2, hvfne, heq⟩
      · rw [show ({ s with ram := s.ram } : Sys) = s from rfl, hcase]
        simp only [if_pos rfl, ite_true]
        exact hW
      · rw [show ({ s with ram := s.ram } : Sys) = s from rfl, heq]
        simp only [hvfne, if_false, ite_false]
        -- state after eviction: the victim frame is free again, so the
        -- second allocate_page succeeds and installs the faulting page
        have hWE : WInv (MMU.evictVictim s
            (s.ram.find_lru_page s.page_table) v meta) :=
          WInv_evictVictim hW hg
        obtain ⟨hvlt, _⟩ := get_page_metadata_some hg
        set vf := s.ram.find_lru_page s.page_table with hvf
        set sE := MMU.evictVictim s vf v meta with hse
        have hvfaS : vf < s.ram.allocated.length := by
          rw [hW.1.1, ← hW.1.2.1]; exact hvlt
        have hbitE : sE.ram.allocated.getD vf false = false := by
          rw [hse]
          simp only [MMU.evictVictim, RAM.free_page, if_pos hvfaS]
          exact getD_set_self _ _ _ _ (by simpa using hvfaS)
        have hvfaE : vf < sE.ram.allocated.length := by
          rw [hWE.1.1, ← hW.1.1]; exact hvfaS
        have hfreeE : sE.ram.free_page vf =
            { sE.ram with
                allocated := sE.ram.allocated.set vf false,
                frame_to_page := sE.ram.frame_to_page.set vf none } := by
          simp [RAM.free_page, hvfaE]
        have hWF : WInv { sE with ram := sE.ram.free_page vf } := by
          refine WInv_ram_compat hWE _ ?_ ?_ ?_ ?_
          · simp [hfreeE, hWE.1.1]
          · simp [hfreeE, hWE.1.2.1]
          · simp [hfreeE, hWE.1.2.2]
          · intro e he hp
            obtain ⟨f1, f2, f3⟩ := hWE.2.2 e he hp
            have hnevf : e.2.physical_page ≠ vf := by
              intro hq
              rw [hq, hbitE] at f2
              cases f2
            rw [hfreeE]
            constructor
            · rw [getD_set_ne _ _ _ _ _ (fun h => hnevf h.symm)]; exact f2
            · rw [getD_set_ne _ _ _ _ _ (fun h => hnevf h.symm)]; exact f3
        have hbitF : (sE.ram.free_page vf).allocated.getD vf false = false := by
          rw [hfreeE]
          exact getD_set_self _ _ _ _ (by simpa using hvfaE)
        have hvfaF : vf < (sE.ram.free_page vf).allocated.length := by
          rw [hfreeE]
          simpa using hvfaE
        obtain ⟨j, hj⟩ := firstFree_isSome hvfaF hbitF
        rw [RAM.allocate_page_some _ _ _ hj]
        exact WInv_alloc_load hWF vpn hj

theorem WInv_update_same_frame {s : Sys} (hW : WInv s) {vpn : Nat}
    {pte pte' : PageMetadata} (hpte : ptGet s.page_table vpn = some pte)
    (hpp : pte'.physical_page = pte.physical_page)
    (hpr : pte'.present = pte.present) (t : Nat) :
    WInv { s with page_table := ptSet s.page_table vpn pte',
                  current_time := t } := by
  obtain ⟨hlen, hnd, hent⟩ := hW
  refine ⟨hlen, nodup_keys_assocSet _ _ _ hnd, ?_⟩
  intro e he hp
  rcases mem_assocSet hnd he with rfl | ⟨he1, _⟩
  · have hbase := hent (vpn, pte) (mem_of_assocGet hpte)
      (by rw [← hpr]; exact hp)
    simpa [hpp] using hbase
  · exact hent e he1 hp

theorem translate_none {s : Sys} {va : Nat} {w : Bool}
    (h : ptGet s.page_table (va / PAGE_SIZE) = none) :
    MMU.translate_address s va w = (none, s) := by
  simp [MMU.translate_address, h]

theorem translate_present {s : Sys} {va : Nat} {w : Bool} {pte0 : PageMetadata}
    (hpte : ptGet s.page_table (va / PAGE_SIZE) = some pte0)
    (hp : pte0.present = true) :
    MMU.translate_address s va w =
      (some (pte0.physical_page, va % PAGE_SIZE),
       { s with
           page_table := ptSet s.page_table (va / PAGE_SIZE)
             { pte0 with last_access := s.current_time + 1, accessed := true,
                         dirty := pte0.dirty || w },
           current_time := s.current_time + 1 }) := by
  simp [MMU.translate_address, hpte, hp]

theorem translate_fault_fail {s s1 : Sys} {va : Nat} {w : Bool}
    {pte0 : PageMetadata}
    (hpte : ptGet s.page_table (va / PAGE_SIZE) = some pte0)
    (hp : pte0.present = false)
    (hf : MMU.handle_page_fault s (va / PAGE_SIZE) = (false, s1)) :
    MMU.translate_address s va w = (none, s1) := by
  simp [MMU.translate_address, hpte, hp, hf]

theorem translate_fault_ok {s s1 : Sys} {va : Nat} {w : Bool}
    {pte0 pte : PageMetadata}
    (hpte : ptGet s.page_table (va / PAGE_SIZE) = some pte0)
    (hp : pte0.present = false)
    (hf : MMU.handle_page_fault s (va / PAGE_SIZE) = (true, s1))
    (hpte1 : ptGet s1.page_table (va / PAGE_SIZE) = some pte) :
    MMU.translate_address s va w =
      (some (pte.physical_page, va % PAGE_SIZE),
       { s1 with
           page_table := ptSet s1.page_table (va / PAGE_SIZE)
             { pte with last_access := s1.current_time + 1, accessed := true,
                        dirty := pte.dirty || w },
           current_time := s1.current_time + 1 }) := by
  simp [MMU.translate_address, hpte, hp, hf, hpte1]

theorem translate_fault_ok_none {s s1 : Sys} {va : Nat} {w : Bool}
    {pte0 : PageMetadata}
    (hpte : ptGet s.page_table (va / PAGE_SIZE) = some pte0)
    (hp : pte0.present = false)
    (hf : MMU.handle_page_fault s (va / PAGE_SIZE) = (true, s1))
    (hpte1 : ptGet s1.page_table (va / PAGE_SIZE) = none) :
    MMU.translate_address s va w = (none, s1) := by
  simp [MMU.translate_address, hpte, hp, hf, hpte1]

theorem WInv_translate (s : Sys) (va : Nat) (w : Bool) (hW : WInv s) :
    WInv (MMU.translate_address s va w).2 := by
  cases hpte : ptGet s.page_table (va / PAGE_SIZE) with
  | none => rw [translate_none hpte]; exact hW
  | some pte0 =>
    by_cases hp : pte0.present
    · rw [translate_present hpte hp]
      refine WInv_update_same_frame hW hpte ?_ ?_ _ <;> rfl
    · have hnp : pte0.present = false := by simpa using hp
      rcases hfe : MMU.handle_page_fault s (va / PAGE_SIZE) with ⟨ok, s1⟩
      have hW1 : WInv s1 := by
        have h := WInv_fault s (va / PAGE_SIZE) hW
        rw [hfe] at h
        exact h
      cases ok with
      | false => rw [translate_fault_fail hpte hnp hfe]; exact hW1
      | true =>
        cases hpte1 : ptGet s1.page_table (va / PAGE_SIZE) with
        | none => rw [translate_fault_ok_none hpte hnp hfe hpte1]; exact hW1
        | some pte =>
          rw [translate_fault_ok hpte hnp hfe hpte1]
          refine WInv_update_same_frame hW1 hpte1 ?_ ?_ _ <;> rfl

theorem unmapOne_none {s : Sys} {vp : Nat}
    (h : ptGet s.page_table vp = none) : MMU.unmapOne s vp = s := by
  simp [MMU.unmapOne, h]

theorem unmapOne_present {s : Sys} {vp : Nat} {pte : PageMetadata}
    (hpte : ptGet s.page_table vp = some pte) (hp : pte.present = true) :
    MMU.unmapOne s vp =
      { s with page_table := ptErase s.page_table vp,
               ram := s.ram.free_page pte.physical_page,
               disk := if pte.dirty && pte.file_backed then
                   s.disk.write_page pte.disk_page
                     (s.ram.read_page pte.physical_page uninitPage)
                 else s.disk,
               swap_space := if pte.swapped then
                   s.swap_space.free_slot pte.swap_slot
                 else s.swap_space } := by
  by_cases hdf : pte.dirty && pte.file_backed <;> by_cases hsw : pte.swapped <;>
    simp [MMU.unmapOne, hpte, hp, hdf, hsw]

theorem unmapOne_absent {s : Sys} {vp : Nat} {pte : PageMetadata}
    (hpte : ptGet s.page_table vp = some pte) (hp : pte.present = false) :
    MMU.unmapOne s vp =
      { s with page_table := ptErase s.page_table vp,
               swap_space := if pte.swapped then
                   s.swap_space.free_slot pte.swap_slot
                 else s.swap_space } := by
  by_cases hsw : pte.swapped <;> simp [MMU.unmapOne, hpte, hp, hsw]

theorem WInv_unmapOne (s : Sys) (vp : Nat) (hW : WInv s) :
    WInv (MMU.unmapOne s vp) := by
  cases hpte : ptGet s.page_table vp with
  | none => rw [unmapOne_none hpte]; exact hW
  | some pte =>
    obtain ⟨⟨hal, hfl, hml⟩, hnd, hent⟩ := hW
    by_cases hp : pte.present
    · rw [unmapOne_present hpte hp]
      obtain ⟨g1, g2, g3⟩ := hent (vp, pte) (mem_of_assocGet hpte) hp
      have hplt : pte.physical_page < s.ram.allocated.length := by
        rw [hal]; exact g1
      have hfree : s.ram.free_page pte.physical_page =
          { s.ram with
              allocated := s.ram.allocated.set pte.physical_page false,
              frame_to_page := s.ram.frame_to_page.set pte.physical_page none } := by
        simp [RAM.free_page, hplt]
      refine ⟨⟨?_, ?_, ?_⟩, nodup_keys_assocErase _ _ hnd, ?_⟩
      · simp [hfree, hal]
      · simp [hfree, hfl]
      · simp [hfree, hml]
      · intro e he hep
        obtain ⟨he1, hne⟩ := mem_assocErase_ne hnd he
        obtain ⟨f1, f2, f3⟩ := hent e he1 hep
        have hnef : e.2.physical_page ≠ pte.physical_page := by
          intro hq
          rw [hq] at f3
          have hvv := f3.symm.trans g3
          exact hne (Option.some_inj.mp hvv)
        rw [hfree]
        refine ⟨f1, ?_, ?_⟩
        · rw [getD_set_ne _ _ _ _ _ (fun h => hnef h.symm)]; exact f2
        · rw [getD_set_ne _ _ _ _ _ (fun h => hnef h.symm)]; exact f3
    · have hnp : pte.present = false := by simpa using hp
      rw [unmapOne_absent hpte hnp]
      refine ⟨⟨hal, hfl, hml⟩, nodup_keys_assocErase _ _ hnd, ?_⟩
      intro e he hep
      exact hent e (mem_assocErase he) hep

theorem WInv_unmapLoop (n : Nat) : ∀ (s : Sys) (a : Nat), WInv s →
    WInv (MMU.unmapLoop s a n) := by
  induction n with
  | zero => intro s a h; exact h
  | succ k ih => intro s a h; exact ih _ (a + 1) (WInv_unmapOne s a h)

theorem WInv_execM (s : Sys) (op : MMUOp) (hW : WInv s) : WInv (execM s op) := by
  cases op with
  | mapPages a n fb ds => exact WInv_mapLoop n s a fb ds hW
  | translateA a w => exact WInv_translate s a w hW
  | evictA => exact WInv_evict s hW
  | unmapPages a n => exact WInv_unmapLoop n s a hW

theorem WInv_execMList (ops : List MMUOp) : ∀ s, WInv s →
    WInv (execMList s ops) := by
  induction ops with
  | nil => intro s h; exact h
  | cons op rest ih => intro s h; exact ih _ (WInv_execM s op h)

theorem WInv_initSys : WInv initSys := by decide

/- Equation lemmas for handle_page_fault. -/

theorem fault_invalid {s : Sys} {vpn : Nat}
    (h : ptGet s.page_table vpn = none) :
    MMU.handle_page_fault s vpn = (false, s) := by
  simp [MMU.handle_page_fault, h]

theorem fault_alloc {s : Sys} {vpn : Nat} {pte0 : PageMetadata} {i : Nat}
    (hpte : ptGet s.page_table vpn = some pte0)
    (hff : firstFree s.ram.allocated = some i) (hi : i ≠ NO_FRAME) :
    MMU.handle_page_fault s vpn =
      MMU.loadAndFinish
        { s with ram :=
            { s.ram with
                allocated := s.ram.allocated.set i true,
                frame_to_page := s.ram.frame_to_page.set i (some vpn) } }
        vpn i := by
  simp [MMU.handle_page_fault, hpte, RAM.allocate_page_some _ _ _ hff, hi]

theorem fault_oom {s : Sys} {vpn : Nat} {pte0 : PageMetadata}
    (hpte : ptGet s.page_table vpn = some pte0)
    (hff : firstFree s.ram.allocated = none)
    (hev : MMU.evict_page s = (NO_FRAME, s)) :
    MMU.handle_page_fault s vpn = (false, s) := by
  simp [MMU.handle_page_fault, hpte, RAM.allocate_page_none _ _ hff,
    show ({ s with ram := s.ram } : Sys) = s from rfl, hev]

theorem fault_evict {s sE : Sys} {vpn vf : Nat} {pte0 : PageMetadata}
    (hpte : ptGet s.page_table vpn = some pte0)
    (hff : firstFree s.ram.allocated = none)
    (hev : MMU.evict_page s = (vf, sE)) (hvf : vf ≠ NO_FRAME)
    {j : Nat} {ram1 : RAM}
    (hal : (sE.ram.free_page vf).allocate_page (some vpn) = (j, ram1)) :
    MMU.handle_page_fault s vpn =
      MMU.loadAndFinish { sE with ram := ram1 } vpn j := by
  simp [MMU.handle_page_fault, hpte, RAM.allocate_page_none _ _ hff,
    show ({ s with ram := s.ram } : Sys) = s from rfl, hev, hvf, hal]

/-- C2: at every state reachable by map, translate/fault, evict and unmap
    operations, no two distinct present page-table entries reference the
    same physical frame; a frame handed out by RAM::allocate_page always
    had a clear allocation bit; and a successful eviction clears the
    victim's entry (present := false) and frees its frame before the
    frame can be reused. -/
theorem c2_frame_uniqueness :
    (∀ (ops : List MMUOp) (v w : Nat) (m mw : PageMetadata),
       v ≠ w →
       ptGet (execMList initSys ops).page_table v = some m →
       ptGet (execMList initSys ops).page_table w = some mw →
       m.present = true → mw.present = true →
       m.physical_page ≠ mw.physical_page) ∧
    (∀ (r : RAM) (meta : Option Nat) (i : Nat) (r' : RAM),
       r.allocate_page meta = (i, r') → i ≠ NO_FRAME →
       r.allocated.getD i true = false) ∧
    (∀ (s s' : Sys) (vf : Nat), WInv s →
       MMU.evict_page s = (vf, s') → vf ≠ NO_FRAME →
       ∃ v meta, s.ram.get_page_metadata vf = some v ∧
         ptGet s.page_table v = some meta ∧
         (∃ m', ptGet s'.page_table v = some m' ∧ m'.present = false) ∧
         s'.ram.allocated.getD vf false = false) := by
  refine ⟨?_, ?_, ?_⟩
  · intro ops v w m mw hvw hv hw hmp hwp
    have hW := WInv_execMList ops initSys WInv_initSys
    obtain ⟨_, _, hent⟩ := hW
    obtain ⟨_, _, h3v⟩ := hent (v, m) (mem_of_assocGet hv) hmp
    obtain ⟨_, _, h3w⟩ := hent (w, mw) (mem_of_assocGet hw) hwp
    intro heq
    rw [heq] at h3v
    rw [h3v] at h3w
    exact hvw (Option.some_inj.mp h3w)
  · intro r meta i r' hal hi
    cases hff : firstFree r.allocated with
    | none =>
      rw [RAM.allocate_page_none _ _ hff] at hal
      exact absurd (congrArg Prod.fst hal).symm hi
    | some j =>
      rw [RAM.allocate_page_some _ _ _ hff] at hal
      have hij : i = j := (congrArg Prod.fst hal).symm
      obtain ⟨_, hbit⟩ := firstFree_some hff
      rw [hij]
      exact hbit
  · intro s s' vf hW hev hvf
    rcases evict_page_cases s with hfail | ⟨v, meta, hg, hp, hne, heq⟩
    · rw [hev] at hfail
      exact absurd (congrArg Prod.fst hfail) hvf
    · rw [hev] at heq
      have hvfe : vf = s.ram.find_lru_page s.page_table := congrArg Prod.fst heq
      have hse : s' = MMU.evictVictim s (s.ram.find_lru_page s.page_table) v meta :=
        congrArg Prod.snd heq
      rw [← hvfe] at hg hse
      refine ⟨v, meta, hg, hp, ?_, ?_⟩
      · rw [hse]
        exact ⟨_, assocGet_set_self _ _ _, rfl⟩
      · rw [hse]
        obtain ⟨hvlt, _⟩ := get_page_metadata_some hg
        have hvfa : vf < s.ram.allocated.length := by
          rw [hW.1.1, ← hW.1.2.1]; exact hvlt
        simp only [MMU.evictVictim, RAM.free_page, if_pos hvfa]
        exact getD_set_self _ _ _ _ (by simpa using hvfa)

theorem loadAndFinish_fst (s : Sys) (vpn phys : Nat) :
    (MMU.loadAndFinish s vpn phys).1 = true := by
  unfold MMU.loadAndFinish
  cases hpte : ptGet s.page_table vpn with
  | none => rfl
  | some pte =>
    by_cases hsw : pte.swapped <;> by_cases hfb : pte.file_backed <;>
      simp [hsw, hfb]

/-- C7: whenever MMU::handle_page_fault fails (in particular in the
    out-of-memory case, when no frame can be allocated and no victim can
    be evicted), the returned state is exactly the pre-fault state: the
    faulting entry and all shared state (frame bitmap, swap bitmap,
    stores) are untouched. -/
theorem c7_failed_fault_preserves_state (s : Sys) (vpn : Nat)
    (hlen : FramesLen s)
    (h : (MMU.handle_page_fault s vpn).1 = false) :
    (MMU.handle_page_fault s vpn).2 = s := by
  cases hpte : ptGet s.page_table vpn with
  | none => rw [fault_invalid hpte]
  | some pte0 =>
    cases hff : firstFree s.ram.allocated with
    | some i =>
      obtain ⟨hilt, _⟩ := firstFree_some hff
      have hi : i ≠ NO_FRAME := by
        intro hq
        rw [hlen.1, hq] at hilt
        exact no_frame_ge hilt
      rw [fault_alloc hpte hff hi, loadAndFinish_fst] at h
      cases h
    | none =>
      rcases evict_page_cases s with hfail | ⟨v, meta, hg, hp, hne, heq⟩
      · rw [fault_oom hpte hff hfail]
      · rcases hal : (MMU.evictVictim s (s.ram.find_lru_page s.page_table) v
            meta).ram.free_page (s.ram.find_lru_page s.page_table)
            |>.allocate_page (some vpn) with ⟨j, ram1⟩
        rw [fault_evict hpte hff heq hne hal, loadAndFinish_fst] at h
        cases h

/-- Witness for C7 at a concrete state: eight allocated frames with no
    owning metadata, so allocation and eviction both fail. -/
theorem c7_failed_fault_preserves_state_witness :
    (MMU.handle_page_fault
      { page_table := [(0, PageMetadata.init)]
        ram := { memory := List.replicate 8 zeroPage,
                 frame_to_page := List.replicate 8 none,
                 allocated := List.replicate 8 true }
        disk := { storage := [], log := [] }
        swap_space := { swap_storage := [], allocated_slots := [], log := [] }
        next_disk_page := 0
        current_time := 0
        next_virtual_addr := 0 } 0).2 =
      { page_table := [(0, PageMetadata.init)]
        ram := { memory := List.replicate 8 zeroPage,
                 frame_to_page := List.replicate 8 none,
                 allocated := List.replicate 8 true }
        disk := { storage := [], log := [] }
        swap_space := { swap_storage := [], allocated_slots := [], log := [] }
        next_disk_page := 0
        current_time := 0
        next_virtual_addr := 0 } :=
  c7_failed_fault_preserves_state _ 0 (by decide) (by decide)

theorem unmapLoop_skip (n : Nat) : ∀ (s : Sys) (a : Nat),
    (∀ k < n, ptGet s.page_table (a + k) = none) →
    MMU.unmapLoop s a n = s := by
  induction n with
  | zero => intro s a _; rfl
  | succ m ih =>
    intro s a h
    have h0 : ptGet s.page_table a = none := by
      simpa using h 0 (Nat.succ_pos m)
    show MMU.unmapLoop (MMU.unmapOne s a) (a + 1) m = s
    rw [unmapOne_none h0]
    refine ih s (a + 1) ?_
    intro k hk
    have := h (k + 1) (by omega)
    simpa [Nat.add_assoc, Nat.add_comm 1 k] using this

/-- C8 (amended): VirtualMemorySystem::munmap on a range none of whose
    pages is mapped silently succeeds: it returns 0 (not an error) and
    leaves the whole state - every other region, frame, swap slot and
    store - unchanged. -/
theorem c8_unmap_unmapped_range (s : Sys) (addr len : Nat)
    (h : ∀ k < (len + PAGE_SIZE - 1) / PAGE_SIZE,
       ptGet s.page_table (addr / PAGE_SIZE + k) = none) :
    VM.munmap s addr len = (0, s) := by
  have hloop := unmapLoop_skip ((len + PAGE_SIZE - 1) / PAGE_SIZE) s
    (addr / PAGE_SIZE) h
  simp [VM.munmap, MMU.unmap_pages, hloop]

/-- Counterexample for C8 as frozen: munmap of a never-mapped range does
    not return a NotMapped error; it returns 0, the success code. -/
theorem c8_counterexample :
    VM.munmap initSys 0x10000000 4096 = (0, initSys) := by
  rfl

/-- Witness for C8: a concrete unmapped range on the initial state. -/
theorem c8_unmap_unmapped_range_witness :
    VM.munmap initSys 0x20000000 8192 = (0, initSys) :=
  c8_unmap_unmapped_range initSys 0x20000000 8192 (by decide)

/-- C9 (amended): Disk::read_page / Disk::write_page and
    SwapSpace::read_page / SwapSpace::write_page silently ignore an
    out-of-range page id - the store and the caller's buffer are left
    unchanged and no error of any kind is signalled - while an in-range
    write followed by a read transfers the page intact. -/
theorem c9_store_bounds :
    (∀ (d : Disk) (p : Nat) (buf : Page), NUM_DISK_PAGES ≤ p →
       d.read_page p buf = buf) ∧
    (∀ (d : Disk) (p : Nat) (buf : Page), NUM_DISK_PAGES ≤ p →
       (d.write_page p buf).storage = d.storage) ∧
    (∀ (d : Disk) (p : Nat) (buf junk : Page), p < NUM_DISK_PAGES →
       d.storage.length = NUM_DISK_PAGES →
       (d.write_page p buf).read_page p junk = buf) ∧
    (∀ (sw : SwapSpace) (slot : Nat) (buf : Page),
       sw.allocated_slots.length ≤ slot → sw.read_page slot buf = buf) ∧
    (∀ (sw : SwapSpace) (slot : Nat) (buf : Page),
       sw.allocated_slots.length ≤ slot →
       (sw.write_page slot buf).swap_storage = sw.swap_storage) ∧
    (∀ (sw : SwapSpace) (slot : Nat) (buf junk : Page),
       slot < sw.allocated_slots.length →
       sw.swap_storage.length = sw.allocated_slots.length →
       (sw.write_page slot buf).read_page slot junk = buf) := by
  have hb : ∀ p : Nat, (p * PAGE_SIZE + PAGE_SIZE ≤ DISK_SIZE) ↔ p < NUM_DISK_PAGES := by
    intro p
    simp only [PAGE_SIZE, DISK_SIZE, NUM_DISK_PAGES, RAM_SIZE]
    omega
  refine ⟨?_, ?_, ?_, ?_, ?_, ?_⟩
  · intro d p buf hp
    have : ¬(p * PAGE_SIZE + PAGE_SIZE ≤ DISK_SIZE) := by rw [hb]; omega
    simp [Disk.read_page, this]
  · intro d p buf hp
    have : ¬(p * PAGE_SIZE + PAGE_SIZE ≤ DISK_SIZE) := by rw [hb]; omega
    simp [Disk.write_page, this]
  · intro d p buf junk hp hlen
    have hin : p * PAGE_SIZE + PAGE_SIZE ≤ DISK_SIZE := by rw [hb]; omega
    simp only [Disk.write_page, Disk.read_page, if_pos hin]
    exact getD_set_self _ _ _ _ (by rw [hlen]; omega)
  · intro sw slot buf hs
    simp [SwapSpace.read_page, Nat.not_lt.mpr hs]
  · intro sw slot buf hs
    simp [SwapSpace.write_page, Nat.not_lt.mpr hs]
  · intro sw slot buf junk hs hlen
    have hlen2 : (sw.write_page slot buf).allocated_slots.length =
        sw.allocated_slots.length := by
      simp [SwapSpace.write_page, hs]
    simp only [SwapSpace.write_page, SwapSpace.read_page, if_pos hs, hlen2]
    exact getD_set_self _ _ _ _ (by rw [hlen]; omega)

/-- Counterexample for C9 as frozen: an access one page beyond the end of
    either store is silently ignored - no StoreBoundsError (no error at
    all) is produced, the caller's buffer and the store keep their
    contents. -/
theorem c9_counterexample :
    Disk.read_page initSys.disk 64 [9, 9] = [9, 9] ∧
    (Disk.write_page initSys.disk 64 zeroPage).storage = initSys.disk.storage ∧
    SwapSpace.read_page initSys.swap_space 32 [7] = [7] ∧
    (SwapSpace.write_page initSys.swap_space 32 zeroPage).swap_storage =
      initSys.swap_space.swap_storage := by
  refine ⟨rfl, rfl, rfl, rfl⟩

/-- Witness for C9 at concrete stores. -/
theorem c9_store_bounds_witness :
    Disk.read_page initSys.disk 100 [1] = [1] ∧
    (SwapSpace.write_page initSys.swap_space 40 [2]).swap_storage =
      initSys.swap_space.swap_storage ∧
    (Disk.write_page initSys.disk 3 [5]).read_page 3 [0] = [5] := by
  refine ⟨c9_store_bounds.1 initSys.disk 100 [1] (by decide),
    c9_store_bounds.2.2.2.2.1 initSys.swap_space 40 [2] (by decide),
    c9_store_bounds.2.2.1 initSys.disk 3 [5] [0] (by decide) (by decide)⟩

theorem set_eq_self_of_le {α : Type} (l : List α) (n : Nat) (a : α)
    (h : l.length ≤ n) : l.set n a = l := by
  induction l generalizing n with
  | nil => rfl
  | cons x xs ih =>
    cases n with
    | zero => simp at h
    | succ m =>
      simp only [List.set_cons_succ, List.cons.injEq, true_and]
      exact ih m (by simpa using h)

theorem set_getD_eq_self {α : Type} (l : List α) (n : Nat) (a d : α)
    (hn : n < l.length) (h : l.getD n d = a) : l.set n a = l := by
  induction l generalizing n with
  | nil => simp at hn
  | cons x xs ih =>
    cases n with
    | zero =>
      simp only [List.getD_cons_zero] at h
      simp [← h]
    | succ m =>
      simp only [List.getD_cons_succ] at h
      simp only [List.set_cons_succ, List.cons.injEq, true_and]
      exact ih m (by simpa using hn) h

/-- C10: RAM::free_page (both in page_swapping_simulate.cpp and in
    mmap.cpp) and SwapSpace::free_slot are total and idempotent: an
    out-of-range index changes nothing, freeing twice equals freeing
    once, freeing an already-free frame/slot leaves the state unchanged,
    no error is ever signalled (the functions return the updated
    structure unconditionally), and only the allocation bit and
    back-reference of the single named frame/slot are ever touched. -/
theorem c10_free_total_idempotent :
    (∀ (r : RAM) (n : Nat), r.allocated.length ≤ n → r.free_page n = r) ∧
    (∀ (r : RAM) (n : Nat), (r.free_page n).free_page n = r.free_page n) ∧
    (∀ (r : RAM) (n : Nat), n < r.allocated.length →
       r.allocated.getD n false = false → r.frame_to_page.getD n none = none →
       r.free_page n = r) ∧
    (∀ (r : RAM) (n m : Nat), n ≠ m →
       (r.free_page n).allocated.getD m false = r.allocated.getD m false ∧
       (r.free_page n).frame_to_page.getD m none = r.frame_to_page.getD m none) ∧
    (∀ (r : RAM) (n : Nat), (r.free_page n).memory = r.memory) ∧
    (∀ (sw : SwapSpace) (n : Nat), sw.allocated_slots.length ≤ n →
       sw.free_slot n = sw) ∧
    (∀ (sw : SwapSpace) (n : Nat), (sw.free_slot n).free_slot n = sw.free_slot n) ∧
    (∀ (sw : SwapSpace) (n : Nat), n < sw.allocated_slots.length →
       sw.allocated_slots.getD n false = false → sw.free_slot n = sw) ∧
    (∀ (sw : SwapSpace) (n m : Nat), n ≠ m →
       (sw.free_slot n).allocated_slots.getD m false =
         sw.allocated_slots.getD m false) ∧
    (∀ (sw : SwapSpace) (n : Nat),
       (sw.free_slot n).swap_storage = sw.swap_storage ∧
       (sw.free_slot n).log = sw.log) ∧
    (∀ (r : MmapSim.RAM) (n : Nat), r.allocated.length ≤ n → r.free_page n = r) ∧
    (∀ (r : MmapSim.RAM) (n : Nat),
       (r.free_page n).free_page n = r.free_page n) ∧
    (∀ (r : MmapSim.RAM) (n : Nat), (r.free_page n).memory = r.memory) := by
  refine ⟨?_, ?_, ?_, ?_, ?_, ?_, ?_, ?_, ?_, ?_, ?_, ?_, ?_⟩
  · intro r n h
    simp [RAM.free_page, Nat.not_lt.mpr h]
  · intro r n
    by_cases h : n < r.allocated.length
    · simp [RAM.free_page, h, List.set_set]
    · simp [RAM.free_page, h]
  · intro r n h hb hf
    have h1 := set_getD_eq_self r.allocated n false false h hb
    have h2 : r.frame_to_page.set n none = r.frame_to_page := by
      by_cases hn2 : n < r.frame_to_page.length
      · exact set_getD_eq_self r.frame_to_page n none none hn2 hf
      · exact set_eq_self_of_le _ _ _ (Nat.not_lt.mp hn2)
    have he : r.free_page n =
        { r with allocated := r.allocated.set n false,
                 frame_to_page := r.frame_to_page.set n none } := by
      simp [RAM.free_page, h]
    rw [he, h1, h2]
  · intro r n m hnm
    by_cases h : n < r.allocated.length
    · have e1 : (r.free_page n).allocated = r.allocated.set n false := by
        simp [RAM.free_page, h]
      have e2 : (r.free_page n).frame_to_page = r.frame_to_page.set n none := by
        simp [RAM.free_page, h]
      rw [e1, e2, getD_set_ne _ _ _ _ _ hnm, getD_set_ne _ _ _ _ _ hnm]
      exact ⟨rfl, rfl⟩
    · simp [RAM.free_page, h]
  · intro r n
    by_cases h : n < r.allocated.length <;> simp [RAM.free_page, h]
  · intro sw n h
    simp [SwapSpace.free_slot, Nat.not_lt.mpr h]
  · intro sw n
    by_cases h : n < sw.allocated_slots.length
    · simp [SwapSpace.free_slot, h, List.set_set]
    · simp [SwapSpace.free_slot, h]
  · intro sw n h hb
    have h1 := set_getD_eq_self sw.allocated_slots n false false h hb
    have he : sw.free_slot n =
        { sw with allocated_slots := sw.allocated_slots.set n false } := by
      simp [SwapSpace.free_slot, h]
    rw [he, h1]
  · intro sw n m hnm
    by_cases h : n < sw.allocated_slots.length
    · have e1 : (sw.free_slot n).allocated_slots = sw.allocated_slots.set n false := by
        simp [SwapSpace.free_slot, h]
      rw [e1, getD_set_ne _ _ _ _ _ hnm]
    · simp [SwapSpace.free_slot, h]
  · intro sw n
    by_cases h : n < sw.allocated_slots.length <;> simp [SwapSpace.free_slot, h]
  · intro r n h
    simp [MmapSim.RAM.free_page, Nat.not_lt.mpr h]
  · intro r n
    by_cases h : n < r.allocated.length
    · simp [MmapSim.RAM.free_page, h, List.set_set]
    · simp [MmapSim.RAM.free_page, h]
  · intro r n
    by_cases h : n < r.allocated.length <;> simp [MmapSim.RAM.free_page, h]

/-- Counterexample for C5 as frozen, against MMU::map_pages of
    page_swapping_simulate.cpp: mapping an already-mapped virtual page
    again is not rejected - map_pages returns true (success) and
    silently replaces the existing entry (here a file-backed mapping of
    disk page 7 becomes a fresh anonymous one). -/
theorem c5_counterexample :
    (MMU.map_pages (MMU.map_pages initSys 5 1 true 7).2 5 1 false 0).1 = true ∧
    ptGet (MMU.map_pages (MMU.map_pages initSys 5 1 true 7).2
        5 1 false 0).2.page_table 5 ≠
      ptGet (MMU.map_pages initSys 5 1 true 7).2.page_table 5 := by
  decide

/-- C5 (amended): MMU::map_pages never rejects a remap - it always
    returns true and unconditionally installs a fresh entry over any
    existing one - whereas PageTableManager::mappages of
    allocvm_and_loadvm_sim.cpp does reject a remap: when the page-table
    entry for the first page of the range is already present it returns
    -1 ("Remap attempted") and leaves the physical memory (and hence the
    existing mapping) completely unchanged. -/
theorem c5_remap_behavior :
    (∀ (s : Sys) (start n : Nat) (fb : Bool) (ds : Nat),
       (MMU.map_pages s start n fb ds).1 = true) ∧
    (∀ (s : Sys) (v : Nat) (fb : Bool) (ds : Nat),
       ptGet (MMU.map_pages s v 1 fb ds).2.page_table v =
         some { PageMetadata.init with
                  file_backed := fb, virtual_page := v,
                  disk_page := if fb then ds else 0 }) ∧
    (∀ (pm : PTSim.PhysicalMemory) (pd va size pa perm : Nat),
       (pm.read_uint32 (pd + PTSim.PDX (PTSim.PGROUNDDOWN va) * 4)) &&&
           PTSim.PTE_PRESENT ≠ 0 →
       (pm.read_uint32 (PTSim.PTE_ADDR
           (pm.read_uint32 (pd + PTSim.PDX (PTSim.PGROUNDDOWN va) * 4)) +
           PTSim.PTX (PTSim.PGROUNDDOWN va) * 4)) &&& PTSim.PTE_PRESENT ≠ 0 →
       PTSim.mappages pm pd va size pa perm = (-1, pm)) := by
  refine ⟨?_, ?_, ?_⟩
  · intro s start n fb ds
    rfl
  · intro s v fb ds
    show ptGet (MMU.mapLoop s v 1 fb ds).page_table v = _
    simp only [MMU.mapLoop]
    exact assocGet_set_self _ _ _
  · intro pm pd va size pa perm h1 h2
    unfold PTSim.mappages
    simp only [PTSim.mappagesLoop]
    simp [h1, h2]

/-- Witness for C5's amended theorem: a concrete two-level table where a
    page is mapped and a remap of the same page is attempted. -/
theorem c5_remap_behavior_witness :
    PTSim.mappages
      (PTSim.mappages
        (({ pages := [], next_free_page := 0x100000 } :
            PTSim.PhysicalMemory).kalloc).2
        0x100000 0x08048000 4096 0x200000 PTSim.PTE_WRITE).2
      0x100000 0x08048000 4096 0x300000 PTSim.PTE_WRITE =
    (-1,
     (PTSim.mappages
        (({ pages := [], next_free_page := 0x100000 } :
            PTSim.PhysicalMemory).kalloc).2
        0x100000 0x08048000 4096 0x200000 PTSim.PTE_WRITE).2) :=
  c5_remap_behavior.2.2 _ 0x100000 0x08048000 4096 0x300000 PTSim.PTE_WRITE
    (by decide) (by decide)

/-- Witness for C2: after mapping two pages and touching both, their
    entries occupy distinct frames; a concrete allocation hands out a
    frame whose bit was clear; a concrete eviction clears the victim
    entry and frees its frame. -/
theorem c2_frame_uniqueness_witness :
    (((ptGet (execMList initSys [MMUOp.mapPages 0 2 false 0,
         MMUOp.translateA 0 false, MMUOp.translateA 4096 false]).page_table
         0).getD PageMetadata.init).physical_page ≠
     ((ptGet (execMList initSys [MMUOp.mapPages 0 2 false 0,
         MMUOp.translateA 0 false, MMUOp.translateA 4096 false]).page_table
         1).getD PageMetadata.init).physical_page) ∧
    initSys.ram.allocated.getD 0 true = false ∧
    (∃ v meta,
      (execMList initSys [MMUOp.mapPages 0 2 false 0, MMUOp.translateA 0 false,
        MMUOp.translateA 4096 false]).ram.get_page_metadata
        ((MMU.evict_page (execMList initSys [MMUOp.mapPages 0 2 false 0,
          MMUOp.translateA 0 false, MMUOp.translateA 4096 false])).1) = some v ∧
      ptGet (execMList initSys [MMUOp.mapPages 0 2 false 0,
        MMUOp.translateA 0 false,
        MMUOp.translateA 4096 false]).page_table v = some meta ∧
      (∃ m', ptGet ((MMU.evict_page (execMList initSys
          [MMUOp.mapPages 0 2 false 0, MMUOp.translateA 0 false,
           MMUOp.translateA 4096 false])).2).page_table v = some m' ∧
        m'.present = false) ∧
      ((MMU.evict_page (execMList initSys [MMUOp.mapPages 0 2 false 0,
        MMUOp.translateA 0 false,
        MMUOp.translateA 4096 false])).2).ram.allocated.getD
        ((MMU.evict_page (execMList initSys [MMUOp.mapPages 0 2 false 0,
          MMUOp.translateA 0 false,
          MMUOp.translateA 4096 false])).1) false = false) := by
  refine ⟨?_, ?_, ?_⟩
  · exact c2_frame_uniqueness.1
      [MMUOp.mapPages 0 2 false 0, MMUOp.translateA 0 false,
       MMUOp.translateA 4096 false] 0 1 _ _
      (by decide) (by decide) (by decide) (by decide) (by decide)
  · have h1 : (initSys.ram.allocate_page (some 0)).1 = 0 := by decide
    exact c2_frame_uniqueness.2.1 initSys.ram (some 0) 0
      (initSys.ram.allocate_page (some 0)).2
      (by rw [← h1]; exact Prod.mk.eta.symm) (by decide)
  · exact c2_frame_uniqueness.2.2 _ _ _ (by decide) Prod.mk.eta.symm (by decide)

/-- Witness for C10 at concrete inputs: out-of-range frees are no-ops,
    an already-free frame stays untouched, and a double free equals a
    single free. -/
theorem c10_free_total_idempotent_witness :
    initSys.ram.free_page 100 = initSys.ram ∧
    initSys.swap_space.free_slot 32 = initSys.swap_space ∧
    initSys.ram.free_page 3 = initSys.ram ∧
    initSys.swap_space.free_slot 5 = initSys.swap_space ∧
    ({ memory := [[]], allocated := [false] } : MmapSim.RAM).free_page 5 =
      { memory := [[]], allocated := [false] } := by
  refine ⟨c10_free_total_idempotent.1 initSys.ram 100 (by decide),
    c10_free_total_idempotent.2.2.2.2.2.1 initSys.swap_space 32 (by decide),
    c10_free_total_idempotent.2.2.1 initSys.ram 3 (by decide) (by decide)
      (by decide),
    c10_free_total_idempotent.2.2.2.2.2.2.2.1 initSys.swap_space 5 (by decide)
      (by decide),
    c10_free_total_idempotent.2.2.2.2.2.2.2.2.2.2.1 _ 5 (by decide)⟩

/- Strong invariant: helper membership lemmas. -/

theorem mem_assocSet_self {α : Type} (l : List (Nat × α)) (v : Nat) (m : α) :
    (v, m) ∈ assocSet l v m := by
  induction l with
  | nil => simp [assocSet]
  | cons e rest ih =>
    by_cases h : e.1 = v
    · simp [assocSet, h]
    · simp only [assocSet, if_neg h]
      exact List.mem_cons_of_mem _ ih

theorem mem_assocSet_of_mem {α : Type} {e : Nat × α} {l : List (Nat × α)}
    {v : Nat} {m : α} (he : e ∈ l) (hne : e.1 ≠ v) : e ∈ assocSet l v m := by
  induction l with
  | nil => simp at he
  | cons f rest ih =>
    by_cases h : f.1 = v
    · simp only [assocSet, if_pos h]
      rcases List.mem_cons.mp he with rfl | h1
      · exact absurd h hne
      · exact List.mem_cons_of_mem _ h1
    · simp only [assocSet, if_neg h]
      rcases List.mem_cons.mp he with rfl | h1
      · exact List.mem_cons_self _ _
      · exact List.mem_cons_of_mem _ (ih h1)

theorem mem_assocErase_of_mem {α : Type} {e : Nat × α} {l : List (Nat × α)}
    {v : Nat} (he : e ∈ l) (hne : e.1 ≠ v) : e ∈ assocErase l v := by
  induction l with
  | nil => simp at he
  | cons f rest ih =>
    by_cases h : f.1 = v
    · simp only [assocErase, if_pos h]
      rcases List.mem_cons.mp he with rfl | h1
      · exact absurd h hne
      · exact h1
    · simp only [assocErase, if_neg h]
      rcases List.mem_cons.mp he with rfl | h1
      · exact List.mem_cons_self _ _
      · exact List.mem_cons_of_mem _ (ih h1)

/-- Inserting a fresh, non-present, non-swapped entry preserves SInv. -/
theorem SInv_ptSet_fresh {s : Sys} (hS : SInv s) {v : Nat}
    (hfresh : ptGet s.page_table v = none) {m : PageMetadata}
    (hm : m.present = false) (hsw : m.swapped = false)
    (hvp : m.virtual_page = v) (hla : m.last_access ≤ s.current_time) :
    SInv { s with page_table := ptSet s.page_table v m } := by
  obtain ⟨hW, hsl, hss, hdl, hbr, hps, hfbs, htb, hfo, hfn, hsv, hsu, hso⟩ := hS
  have hnd := hW.2.1
  have hmem : ∀ e ∈ ptSet s.page_table v m, e = (v, m) ∨ (e ∈ s.page_table ∧ e.1 ≠ v) :=
    fun e he => mem_assocSet hnd he
  refine ⟨WInv_ptSet_not_present hW v hm, hsl, hss, hdl, ?_, ?_, ?_, ?_, ?_, hfn,
    ?_, ?_, ?_⟩
  · intro e he
    rcases hmem e he with rfl | ⟨h1, _⟩
    · exact hvp
    · exact hbr e h1
  · intro e he
    rcases hmem e he with rfl | ⟨h1, _⟩
    · simp [hm]
    · exact hps e h1
  · intro e he
    rcases hmem e he with rfl | ⟨h1, _⟩
    · intro _; exact hsw
    · exact hfbs e h1
  · intro e he
    rcases hmem e he with rfl | ⟨h1, _⟩
    · exact hla
    · exact htb e h1
  · intro i hi u hu
    obtain ⟨mo, hmo, hmp, hmi⟩ := hfo i hi u hu
    have hne : u ≠ v := by
      intro hq
      rw [hq, hfresh] at hmo
      cases hmo
    refine ⟨mo, ?_, hmp, hmi⟩
    show assocGet (assocSet s.page_table v m) u = some mo
    rw [assocGet_set_ne _ _ _ _ (fun hq => hne hq.symm)]
    exact hmo
  · intro e he
    rcases hmem e he with rfl | ⟨h1, _⟩
    · intro hq; rw [hsw] at hq; cases hq
    · exact hsv e h1
  · intro e he f hf hne hes hfs
    rcases hmem e he with rfl | ⟨h1, hne1⟩
    · rw [hsw] at hes; cases hes
    · rcases hmem f hf with rfl | ⟨h2, hne2⟩
      · rw [hsw] at hfs; cases hfs
      · exact hsu e h1 f h2 hne hes hfs
  · intro j hj hb
    obtain ⟨⟨k, em⟩, he, hes, hesl⟩ := hso j hj hb
    have hne : k ≠ v := by
      intro hq
      have hg := assocGet_of_mem hnd he
      rw [hq, show assocGet s.page_table v = none from hfresh] at hg
      cases hg
    exact ⟨(k, em), mem_assocSet_of_mem he hne, hes, hesl⟩

/-- Rewriting an existing entry with one agreeing on present, swapped,
    file_backed, physical_page, swap_slot and virtual_page, whose
    last_access is the advanced clock, preserves SInv when the clock
    advances by one (the translate bookkeeping update). -/
theorem SInv_update_touch {s : Sys} (hS : SInv s) {vpn : Nat}
    {pte pte' : PageMetadata} (hpte : ptGet s.page_table vpn = some pte)
    (hp : pte'.present = pte.present) (hsw : pte'.swapped = pte.swapped)
    (hfb : pte'.file_backed = pte.file_backed)
    (hph : pte'.physical_page = pte.physical_page)
    (hslt : pte'.swap_slot = pte.swap_slot)
    (hvp : pte'.virtual_page = pte.virtual_page)
    (hla : pte'.last_access = s.current_time + 1) :
    SInv { s with page_table := ptSet s.page_table vpn pte',
                  current_time := s.current_time + 1 } := by
  obtain ⟨hW, hsl, hss, hdl, hbr, hps, hfbs, htb, hfo, hfn, hsv, hsu, hso⟩ := hS
  have hnd := hW.2.1
  have hmemv : (vpn, pte) ∈ s.page_table := mem_of_assocGet hpte
  have hmem : ∀ e ∈ ptSet s.page_table vpn pte',
      e = (vpn, pte') ∨ (e ∈ s.page_table ∧ e.1 ≠ vpn) :=
    fun e he => mem_assocSet hnd he
  refine ⟨WInv_update_same_frame hW hpte hph hp _, hsl, hss, hdl, ?_, ?_, ?_, ?_,
    ?_, hfn, ?_, ?_, ?_⟩
  · intro e he
    rcases hmem e he with rfl | ⟨h1, _⟩
    · rw [hvp]; exact hbr (vpn, pte) hmemv
    · exact hbr e h1
  · intro e he
    rcases hmem e he with rfl | ⟨h1, _⟩
    · rw [hp, hsw]; exact hps (vpn, pte) hmemv
    · exact hps e h1
  · intro e he
    rcases hmem e he with rfl | ⟨h1, _⟩
    · rw [hfb, hsw]; exact hfbs (vpn, pte) hmemv
    · exact hfbs e h1
  · intro e he
    rcases hmem e he with rfl | ⟨h1, _⟩
    · rw [hla]
    · exact Nat.le_trans (htb e h1) (Nat.le_succ _)
  · intro i hi u hu
    obtain ⟨mo, hmo, hmp, hmi⟩ := hfo i hi u hu
    by_cases hq : u = vpn
    · subst hq
      rw [hpte] at hmo
      cases hmo
      refine ⟨pte', assocGet_set_self _ _ _, ?_, ?_⟩
      · rw [hp]; exact hmp
      · rw [hph]; exact hmi
    · refine ⟨mo, ?_, hmp, hmi⟩
      show assocGet (assocSet s.page_table vpn pte') u = some mo
      rw [assocGet_set_ne _ _ _ _ (fun h => hq h.symm)]
      exact hmo
  · intro e he
    rcases hmem e he with rfl | ⟨h1, _⟩
    · intro hq
      rw [hsw] at hq
      rw [hslt]
      exact hsv (vpn, pte) hmemv hq
    · exact hsv e h1
  · intro e he f hf hne hes hfs
    rcases hmem e he with rfl | ⟨h1, hne1⟩
    · rcases hmem f hf with rfl | ⟨h2, hne2⟩
      · exact absurd rfl hne
      · rw [hsw] at hes
        rw [hslt]
        exact hsu (vpn, pte) hmemv f h2 hne hes hfs
    · rcases hmem f hf with rfl | ⟨h2, hne2⟩
      · rw [hsw] at hfs
        rw [hslt]
        exact hsu e h1 (vpn, pte) hmemv hne hes hfs
      · exact hsu e h1 f h2 hne hes hfs
  · intro j hj hb
    obtain ⟨⟨k, em⟩, he, hes, hesl⟩ := hso j hj hb
    by_cases hq : k = vpn
    · rw [hq] at he
      have hg := assocGet_of_mem hnd he
      rw [show assocGet s.page_table vpn = some pte from hpte] at hg
      cases hg
      refine ⟨_, mem_assocSet_self _ _ _, ?_, ?_⟩
      · rw [hsw]; exact hes
      · rw [hslt]; exact hesl
    · exact ⟨(k, em), mem_assocSet_of_mem he hq, hes, hesl⟩

/-- MMU::map_pages over an unmapped range preserves SInv. -/
theorem SInv_mapLoop (n : Nat) : ∀ (s : Sys) (a : Nat) (fb : Bool) (ds : Nat),
    SInv s → freshRange s a n → SInv (MMU.mapLoop s a n fb ds) := by
  induction n with
  | zero => intro s a fb ds h _; exact h
  | succ k ih =>
    intro s a fb ds h hfresh
    have h0 : ptGet s.page_table a = none := by
      have := hfresh 0 (Nat.succ_pos k)
      simpa using this
    have hstep : SInv { s with
        page_table := ptSet s.page_table a
          { PageMetadata.init with
              file_backed := fb,
              virtual_page := a,
              disk_page := if fb then ds else 0 } } :=
      SInv_ptSet_fresh h h0 rfl rfl rfl (Nat.zero_le _)
    refine ih _ (a + 1) fb (ds + 1) hstep ?_
    intro k2 hk2
    show assocGet (assocSet s.page_table a
      { PageMetadata.init with
          file_backed := fb,
          virtual_page := a,
          disk_page := if fb then ds else 0 }) (a + 1 + k2) = none
    rw [assocGet_set_ne _ _ _ _ (by omega)]
    have h2 : a + 1 + k2 = a + (k2 + 1) := by omega
    rw [h2]
    exact hfresh (k2 + 1) (by omega)

/-- Characterization of the write-back phase for a victim that is not
    currently swapped (the only case reachable from a present victim
    under SInv): a file-backed victim goes to disk iff dirty and keeps
    its metadata; an anonymous victim always gets a fresh slot and a
    swap write. -/
theorem evictWriteBack_not_swapped (disk : Disk) (swap : SwapSpace)
    (meta : PageMetadata) (buffer : Page) (hsw : meta.swapped = false) :
    (meta.file_backed = true ∧
       MMU.evictWriteBack disk swap meta buffer =
         (meta,
          if meta.dirty then disk.write_page meta.disk_page buffer else disk,
          swap)) ∨
    (meta.file_backed = false ∧
       MMU.evictWriteBack disk swap meta buffer =
         ({ meta with swap_slot := swap.allocate_slot.1, swapped := true },
          disk,
          swap.allocate_slot.2.write_page swap.allocate_slot.1 buffer)) := by
  by_cases hfb : meta.file_backed
  · left
    refine ⟨hfb, ?_⟩
    by_cases hd : meta.dirty <;> simp [MMU.evictWriteBack, hfb, hd, hsw]
  · right
    have hfb2 : meta.file_backed = false := by simpa using hfb
    refine ⟨hfb2, ?_⟩
    by_cases hd : meta.dirty <;> simp [MMU.evictWriteBack, hfb2, hd, hsw]

/-- MMU::evict_page success path for a non-swapped file-backed victim:
    disk write-back iff dirty, entry cleared, frame freed. -/
theorem evictVictim_fb {s : Sys} {vf v : Nat} {meta : PageMetadata}
    (hsw : meta.swapped = false) (hfb : meta.file_backed = true) :
    MMU.evictVictim s vf v meta =
      { s with
          page_table := ptSet s.page_table v
            { meta with present := false, dirty := false, physical_page := 0 },
          ram := s.ram.free_page vf,
          disk := if meta.dirty then
              s.disk.write_page meta.disk_page (s.ram.read_page vf uninitPage)
            else s.disk } := by
  by_cases hd : meta.dirty <;>
    simp [MMU.evictVictim, MMU.evictWriteBack, hsw, hfb, hd]

/-- MMU::evict_page success path for a non-swapped anonymous victim:
    a fresh swap slot is allocated and the page written to it
    (regardless of the dirty bit), the entry is marked swapped, the
    frame freed. -/
theorem evictVictim_anon {s : Sys} {vf v : Nat} {meta : PageMetadata} {j : Nat}
    (hsw : meta.swapped = false) (hfb : meta.file_backed = false)
    (hj : firstFree s.swap_space.allocated_slots = some j)
    (hjl : j < s.swap_space.allocated_slots.length) :
    MMU.evictVictim s vf v meta =
      { s with
          page_table := ptSet s.page_table v
            { meta with
                present := false,
                dirty := false,
                physical_page := 0,
                swapped := true,
                swap_slot := j },
          ram := s.ram.free_page vf,
          swap_space :=
            { s.swap_space with
                swap_storage := s.swap_space.swap_storage.set j
                  (s.ram.read_page vf uninitPage),
                allocated_slots := s.swap_space.allocated_slots.set j true,
                log := s.swap_space.log ++ [j] } } := by
  have hjl2 : j < (s.swap_space.allocated_slots.set j true).length := by
    rw [List.length_set]; exact hjl
  by_cases hd : meta.dirty <;>
    simp [MMU.evictVictim, MMU.evictWriteBack, hsw, hfb, hd,
      SwapSpace.allocate_slot, hj, SwapSpace.write_page, hjl2]
  all_goals (intro h; omega)

/-- SInv is preserved by the success path of MMU::evict_page whenever a
    free swap slot is available. -/
theorem SInv_evictVictim {s : Sys} (hS : SInv s) {vf v : Nat}
    {meta : PageMetadata}
    (hg : s.ram.get_page_metadata vf = some v)
    (hpte : ptGet s.page_table v = some meta)
    (hSA : SlotAvail s) :
    SInv (MMU.evictVictim s vf v meta) := by
  obtain ⟨hW, hsl, hss, hdl, hbr, hps, hfbs, htb, hfo, hfn, hsv, hsu, hso⟩ := hS
  have hnd := hW.2.1
  have hWE : WInv (MMU.evictVictim s vf v meta) := WInv_evictVictim hW hg
  obtain ⟨hvlt, hf2p⟩ := get_page_metadata_some hg
  have hvf8 : vf < NUM_FRAMES := by rw [← hW.1.2.1]; exact hvlt
  obtain ⟨m0, hm0, hm0p, hm0i⟩ := hfo vf hvf8 v hf2p
  have hmeq : m0 = meta := Option.some_inj.mp (hm0.symm.trans hpte)
  subst hmeq
  have hmemv : (v, m0) ∈ s.page_table := mem_of_assocGet hpte
  have hmsw : m0.swapped = false := by
    cases hq : m0.swapped
    · rfl
    · exact absurd ⟨hm0p, hq⟩ (hps (v, m0) hmemv)
  have hvfa : vf < s.ram.allocated.length := by rw [hW.1.1]; exact hvf8
  have hfree : s.ram.free_page vf =
      { s.ram with allocated := s.ram.allocated.set vf false,
                   frame_to_page := s.ram.frame_to_page.set vf none } := by
    simp [RAM.free_page, hvfa]
  cases hfbq : m0.file_backed with
  | true =>
    rw [evictVictim_fb hmsw hfbq] at hWE ⊢
    have hmem : ∀ e ∈ ptSet s.page_table v { m0 with present := false, dirty := false, physical_page := 0 }, e = (v, { m0 with present := false, dirty := false, physical_page := 0 }) ∨ (e ∈ s.page_table ∧ e.1 ≠ v) :=
      fun e he => mem_assocSet hnd he
    refine ⟨hWE, hsl, hss, ?_, ?_, ?_, ?_, ?_, ?_, ?_, ?_, ?_, ?_⟩
    · show (if m0.dirty then
          s.disk.write_page m0.disk_page (s.ram.read_page vf uninitPage)
        else s.disk).storage.length = NUM_DISK_PAGES
      by_cases hd : m0.dirty
      · simp only [if_pos hd, Disk.write_page]
        split
        · simpa using hdl
        · exact hdl
      · simpa [hd] using hdl
    · intro e he
      rcases hmem e he with rfl | ⟨h1, _⟩
      · exact hbr (v, m0) hmemv
      · exact hbr e h1
    · intro e he
      rcases hmem e he with rfl | ⟨h1, _⟩
      · intro hc
        cases hc.1
      · exact hps e h1
    · intro e he
      rcases hmem e he with rfl | ⟨h1, _⟩
      · intro _
        exact hmsw
      · exact hfbs e h1
    · intro e he
      rcases hmem e he with rfl | ⟨h1, _⟩
      · exact htb (v, m0) hmemv
      · exact htb e h1
    · intro i hi u hu
      rw [hfree] at hu
      by_cases hq : i = vf
      · subst hq
        rw [getD_set_self _ _ _ _ hvlt] at hu
        cases hu
      · rw [getD_set_ne _ _ _ _ _ (fun h => hq h.symm)] at hu
        obtain ⟨mo, hmo, hmop, hmoi⟩ := hfo i hi u hu
        have hune : u ≠ v := by
          intro h
          subst h
          have := Option.some_inj.mp (hmo.symm.trans hpte)
          subst this
          exact hq (hmoi.symm.trans hm0i)
        refine ⟨mo, ?_, hmop, hmoi⟩
        show assocGet (assocSet s.page_table v { m0 with present := false, dirty := false, physical_page := 0 }) u = some mo
        rw [assocGet_set_ne _ _ _ _ (fun h => hune h.symm)]
        exact hmo
    · intro i hi hnone
      rw [hfree] at hnone
      show ((s.ram.free_page vf).allocated.getD i false) = false
      rw [hfree]
      by_cases hq : i = vf
      · subst hq
        exact getD_set_self _ _ _ _ hvfa
      · rw [getD_set_ne _ _ _ _ _ (fun h => hq h.symm)] at hnone
        rw [getD_set_ne _ _ _ _ _ (fun h => hq h.symm)]
        exact hfn i hi hnone
    · intro e he hes
      rcases hmem e he with rfl | ⟨h1, _⟩
      · have h := (hes : m0.swapped = true)
        rw [hmsw] at h
        cases h
      · exact hsv e h1 hes
    · intro e he f hf hne hes hfs
      rcases hmem e he with rfl | ⟨h1, hne1⟩
      · have h := (hes : m0.swapped = true)
        rw [hmsw] at h
        cases h
      · rcases hmem f hf with rfl | ⟨h2, hne2⟩
        · have h := (hfs : m0.swapped = true)
          rw [hmsw] at h
          cases h
        · exact hsu e h1 f h2 hne hes hfs
    · intro j hj hb
      obtain ⟨⟨k, em⟩, he, hes, hesl⟩ := hso j hj hb
      have hkne : k ≠ v := by
        intro hq
        rw [hq] at he
        have hg2 := assocGet_of_mem hnd he
        have := Option.some_inj.mp (hg2.symm.trans hpte)
        subst this
        rw [hmsw] at hes
        cases hes
      exact ⟨(k, em), mem_assocSet_of_mem he hkne, hes, hesl⟩
  | false =>
    obtain ⟨j, hj⟩ := Option.isSome_iff_exists.mp hSA
    have hjlS : j < NUM_SLOTS := by rw [← hsl]; exact (firstFree_some hj).1
    have hjl : j < s.swap_space.allocated_slots.length := by
      rw [hsl]; exact hjlS
    have hbitj : s.swap_space.allocated_slots.getD j false = false := by
      rw [getD_default_irrel hjl false true]
      exact (firstFree_some hj).2
    rw [evictVictim_anon hmsw hfbq hj hjl] at hWE ⊢
    have hmem : ∀ e ∈ ptSet s.page_table v { m0 with present := false, dirty := false, physical_page := 0, swapped := true, swap_slot := j }, e = (v, { m0 with present := false, dirty := false, physical_page := 0, swapped := true, swap_slot := j }) ∨ (e ∈ s.page_table ∧ e.1 ≠ v) :=
      fun e he => mem_assocSet hnd he
    refine ⟨hWE, ?_, ?_, hdl, ?_, ?_, ?_, ?_, ?_, ?_, ?_, ?_, ?_⟩
    · show (s.swap_space.allocated_slots.set j true).length = NUM_SLOTS
      rw [List.length_set]
      exact hsl
    · show (s.swap_space.swap_storage.set j
        (s.ram.read_page vf uninitPage)).length = NUM_SLOTS
      rw [List.length_set]
      exact hss
    · intro e he
      rcases hmem e he with rfl | ⟨h1, _⟩
      · exact hbr (v, m0) hmemv
      · exact hbr e h1
    · intro e he
      rcases hmem e he with rfl | ⟨h1, _⟩
      · intro hc
        cases hc.1
      · exact hps e h1
    · intro e he
      rcases hmem e he with rfl | ⟨h1, _⟩
      · intro hc
        have h := (hc : m0.file_backed = true)
        rw [hfbq] at h
        cases h
      · exact hfbs e h1
    · intro e he
      rcases hmem e he with rfl | ⟨h1, _⟩
      · exact htb (v, m0) hmemv
      · exact htb e h1
    · intro i hi u hu
      rw [hfree] at hu
      by_cases hq : i = vf
      · subst hq
        rw [getD_set_self _ _ _ _ hvlt] at hu
        cases hu
      · rw [getD_set_ne _ _ _ _ _ (fun h => hq h.symm)] at hu
        obtain ⟨mo, hmo, hmop, hmoi⟩ := hfo i hi u hu
        have hune : u ≠ v := by
          intro h
          subst h
          have := Option.some_inj.mp (hmo.symm.trans hpte)
          subst this
          exact hq (hmoi.symm.trans hm0i)
        refine ⟨mo, ?_, hmop, hmoi⟩
        show assocGet (assocSet s.page_table v { m0 with present := false, dirty := false, physical_page := 0, swapped := true, swap_slot := j }) u = some mo
        rw [assocGet_set_ne _ _ _ _ (fun h => hune h.symm)]
        exact hmo
    · intro i hi hnone
      rw [hfree] at hnone
      show ((s.ram.free_page vf).allocated.getD i false) = false
      rw [hfree]
      by_cases hq : i = vf
      · subst hq
        exact getD_set_self _ _ _ _ hvfa
      · rw [getD_set_ne _ _ _ _ _ (fun h => hq h.symm)] at hnone
        rw [getD_set_ne _ _ _ _ _ (fun h => hq h.symm)]
        exact hfn i hi hnone
    · intro e he hes
      rcases hmem e he with rfl | ⟨h1, _⟩
      · refine ⟨hjlS, ?_⟩
        show (s.swap_space.allocated_slots.set j true).getD j false = true
        exact getD_set_self _ _ _ _ hjl
      · obtain ⟨hl1, hl2⟩ := hsv e h1 hes
        refine ⟨hl1, ?_⟩
        have hslne : e.2.swap_slot ≠ j := by
          intro hq
          rw [hq, hbitj] at hl2
          cases hl2
        show (s.swap_space.allocated_slots.set j true).getD e.2.swap_slot false
          = true
        rw [getD_set_ne _ _ _ _ _ (fun h => hslne h.symm)]
        exact hl2
    · intro e he f hf hne hes hfs
      rcases hmem e he with rfl | ⟨h1, hne1⟩
      · rcases hmem f hf with rfl | ⟨h2, hne2⟩
        · exact absurd rfl hne
        · obtain ⟨_, hl2⟩ := hsv f h2 hfs
          show j ≠ f.2.swap_slot
          intro hq
          rw [← hq, hbitj] at hl2
          cases hl2
      · rcases hmem f hf with rfl | ⟨h2, hne2⟩
        · obtain ⟨_, hl2⟩ := hsv e h1 hes
          show e.2.swap_slot ≠ j
          intro hq
          rw [hq, hbitj] at hl2
          cases hl2
        · exact hsu e h1 f h2 hne hes hfs
    · intro j2 hj2 hb
      by_cases hq : j2 = j
      · subst hq
        refine ⟨(v, { m0 with present := false, dirty := false, physical_page := 0, swapped := true, swap_slot := j2 }), mem_assocSet_self _ _ _, rfl, rfl⟩
      · have hb2 : s.swap_space.allocated_slots.getD j2 false = true := by
          have hb' := (hb : (s.swap_space.allocated_slots.set j true).getD j2
            false = true)
          rw [getD_set_ne _ _ _ _ _ (fun h => hq h.symm)] at hb'
          exact hb'
        obtain ⟨⟨k, em⟩, he, hes, hesl⟩ := hso j2 hj2 hb2
        have hkne : k ≠ v := by
          intro hq2
          rw [hq2] at he
          have hg2 := assocGet_of_mem hnd he
          have := Option.some_inj.mp (hg2.symm.trans hpte)
          subst this
          rw [hmsw] at hes
          cases hes
        exact ⟨(k, em), mem_assocSet_of_mem he hkne, hes, hesl⟩

/-- SInv after installing a faulted-in page: the target state of
    handle_page_fault's load phase, with the frame freshly allocated,
    the entry marked present/non-swapped, and the swap slot freed iff
    the page came from swap. -/
theorem SInv_install_gen {s : Sys} (hS : SInv s) {vpn : Nat}
    {pte0 : PageMetadata}
    (hpte : ptGet s.page_table vpn = some pte0) (hnp : pte0.present = false)
    {i : Nat} (hff : firstFree s.ram.allocated = some i)
    {pte2 : PageMetadata} {M : List Page} {sw1 : SwapSpace}
    (h2p : pte2.present = true) (h2s : pte2.swapped = false)
    (h2fb : pte2.file_backed = pte0.file_backed)
    (h2i : pte2.physical_page = i)
    (h2v : pte2.virtual_page = pte0.virtual_page)
    (h2t : pte2.last_access = s.current_time + 1)
    (hM : M.length = NUM_FRAMES)
    (hswcase : (pte0.swapped = true ∧
                  sw1 = s.swap_space.free_slot pte0.swap_slot) ∨
               (pte0.swapped = false ∧ sw1 = s.swap_space)) :
    SInv { s with
        page_table := ptSet s.page_table vpn pte2,
        ram := { memory := M,
                 frame_to_page := s.ram.frame_to_page.set i (some vpn),
                 allocated := s.ram.allocated.set i true },
        swap_space := sw1,
        current_time := s.current_time + 1 } := by
  obtain ⟨hW, hsl, hss, hdl, hbr, hps, hfbs, htb, hfo, hfn, hsv, hsu, hso⟩ := hS
  have hnd := hW.2.1
  have hmemv : (vpn, pte0) ∈ s.page_table := mem_of_assocGet hpte
  obtain ⟨hil, hbitUp⟩ := firstFree_some hff
  have hbit : s.ram.allocated.getD i false = false := by
    rw [getD_default_irrel hil false true]
    exact hbitUp
  have hi8 : i < NUM_FRAMES := by rw [← hW.1.1]; exact hil
  have hif : i < s.ram.frame_to_page.length := by rw [hW.1.2.1]; exact hi8
  have hf2pi : s.ram.frame_to_page.getD i none = none := by
    cases hfi : s.ram.frame_to_page.getD i none with
    | none => rfl
    | some u =>
      obtain ⟨mo, hmo, hmop, hmoi⟩ := hfo i hi8 u hfi
      obtain ⟨_, hobit, _⟩ := hW.2.2 (u, mo) (mem_of_assocGet hmo) hmop
      rw [hmoi, hbit] at hobit
      cases hobit
  have hmem : ∀ e ∈ ptSet s.page_table vpn pte2,
      e = (vpn, pte2) ∨ (e ∈ s.page_table ∧ e.1 ≠ vpn) :=
    fun e he => mem_assocSet hnd he
  -- swap-space facts, by case on where the page came from
  have hswfacts : sw1.allocated_slots.length = NUM_SLOTS ∧
      sw1.swap_storage.length = NUM_SLOTS := by
    rcases hswcase with ⟨hsw0, hsw1⟩ | ⟨hsw0, hsw1⟩
    · obtain ⟨hslt0, _⟩ := hsv (vpn, pte0) hmemv hsw0
      have hsl0 : pte0.swap_slot < s.swap_space.allocated_slots.length := by
        rw [hsl]; exact hslt0
      have hfs_eq : s.swap_space.free_slot pte0.swap_slot =
          { s.swap_space with allocated_slots :=
              s.swap_space.allocated_slots.set pte0.swap_slot false } := by
        simp [SwapSpace.free_slot, hsl0]
      rw [hsw1, hfs_eq]
      simp [List.length_set, hsl, hss]
    · rw [hsw1]; exact ⟨hsl, hss⟩
  refine ⟨⟨⟨?_, ?_, hM⟩, nodup_keys_assocSet _ _ _ hnd, ?_⟩,
    hswfacts.1, hswfacts.2, hdl, ?_, ?_, ?_, ?_, ?_, ?_, ?_, ?_, ?_⟩
  · show (s.ram.allocated.set i true).length = NUM_FRAMES
    rw [List.length_set]; exact hW.1.1
  · show (s.ram.frame_to_page.set i (some vpn)).length = NUM_FRAMES
    rw [List.length_set]; exact hW.1.2.1
  · -- WInv present-entry conjunct
    intro e he hp
    rcases hmem e he with rfl | ⟨h1, hne1⟩
    · rw [h2i]
      refine ⟨hi8, getD_set_self _ _ _ _ hil, getD_set_self _ _ _ _ hif⟩
    · obtain ⟨f1, f2, f3⟩ := hW.2.2 e h1 hp
      have hnei : e.2.physical_page ≠ i := by
        intro hq
        rw [hq, hbit] at f2
        cases f2
      refine ⟨f1, ?_, ?_⟩
      · rw [getD_set_ne _ _ _ _ _ (fun h => hnei h.symm)]; exact f2
      · rw [getD_set_ne _ _ _ _ _ (fun h => hnei h.symm)]; exact f3
  · -- backref
    intro e he
    rcases hmem e he with rfl | ⟨h1, _⟩
    · rw [h2v]; exact hbr (vpn, pte0) hmemv
    · exact hbr e h1
  · -- not (present and swapped)
    intro e he
    rcases hmem e he with rfl | ⟨h1, _⟩
    · intro hc
      rw [h2s] at hc
      cases hc.2
    · exact hps e h1
  · -- file_backed implies not swapped
    intro e he
    rcases hmem e he with rfl | ⟨h1, _⟩
    · intro _; exact h2s
    · exact hfbs e h1
  · -- timestamps
    intro e he
    rcases hmem e he with rfl | ⟨h1, _⟩
    · rw [h2t]
    · exact Nat.le_trans (htb e h1) (Nat.le_succ _)
  · -- frame ownership
    intro i2 hi2 u hu
    have hu' := (hu : (s.ram.frame_to_page.set i (some vpn)).getD i2 none = some u)
    by_cases hq : i2 = i
    · subst hq
      rw [getD_set_self _ _ _ _ hif] at hu'
      cases hu'
      refine ⟨pte2, assocGet_set_self _ _ _, h2p, h2i.symm ▸ rfl⟩
    · rw [getD_set_ne _ _ _ _ _ (fun h => hq h.symm)] at hu'
      obtain ⟨mo, hmo, hmop, hmoi⟩ := hfo i2 hi2 u hu'
      have hune : u ≠ vpn := by
        intro h
        subst h
        have := Option.some_inj.mp (hmo.symm.trans hpte)
        subst this
        rw [hnp] at hmop
        cases hmop
      refine ⟨mo, ?_, hmop, hmoi⟩
      show assocGet (assocSet s.page_table vpn pte2) u = some mo
      rw [assocGet_set_ne _ _ _ _ (fun h => hune h.symm)]
      exact hmo
  · -- unreferenced frames are unallocated
    intro i2 hi2 hnone
    have hn' := (hnone :
      (s.ram.frame_to_page.set i (some vpn)).getD i2 none = none)
    by_cases hq : i2 = i
    · subst hq
      rw [getD_set_self _ _ _ _ hif] at hn'
      cases hn'
    · rw [getD_set_ne _ _ _ _ _ (fun h => hq h.symm)] at hn'
      show (s.ram.allocated.set i true).getD i2 false = false
      rw [getD_set_ne _ _ _ _ _ (fun h => hq h.symm)]
      exact hfn i2 hi2 hn'
  · -- slot validity
    intro e he hes
    rcases hmem e he with rfl | ⟨h1, hne1⟩
    · rw [h2s] at hes
      cases hes
    · obtain ⟨hl1, hl2⟩ := hsv e h1 hes
      refine ⟨hl1, ?_⟩
      rcases hswcase with ⟨hsw0, hsw1⟩ | ⟨hsw0, hsw1⟩
      · obtain ⟨hslt0, _⟩ := hsv (vpn, pte0) hmemv hsw0
        have hsl0 : pte0.swap_slot < s.swap_space.allocated_slots.length := by
          rw [hsl]; exact hslt0
        have hslne : e.2.swap_slot ≠ pte0.swap_slot :=
          hsu e h1 (vpn, pte0) hmemv hne1 hes hsw0
        have hfs_eq : s.swap_space.free_slot pte0.swap_slot =
            { s.swap_space with allocated_slots :=
                s.swap_space.allocated_slots.set pte0.swap_slot false } := by
          simp [SwapSpace.free_slot, hsl0]
        show sw1.allocated_slots.getD e.2.swap_slot false = true
        rw [hsw1, hfs_eq]
        show (s.swap_space.allocated_slots.set pte0.swap_slot false).getD
          e.2.swap_slot false = true
        rw [getD_set_ne _ _ _ _ _ (fun h => hslne h.symm)]
        exact hl2
      · rw [hsw1]; exact hl2
  · -- slot uniqueness
    intro e he f hf hne hes hfs
    rcases hmem e he with rfl | ⟨h1, hne1⟩
    · rw [h2s] at hes
      cases hes
    · rcases hmem f hf with rfl | ⟨h2, hne2⟩
      · rw [h2s] at hfs
        cases hfs
      · exact hsu e h1 f h2 hne hes hfs
  · -- slot ownership
    intro j hj hb
    rcases hswcase with ⟨hsw0, hsw1⟩ | ⟨hsw0, hsw1⟩
    · obtain ⟨hslt0, _⟩ := hsv (vpn, pte0) hmemv hsw0
      have hsl0 : pte0.swap_slot < s.swap_space.allocated_slots.length := by
        rw [hsl]; exact hslt0
      have hfs_eq : s.swap_space.free_slot pte0.swap_slot =
          { s.swap_space with allocated_slots :=
              s.swap_space.allocated_slots.set pte0.swap_slot false } := by
        simp [SwapSpace.free_slot, hsl0]
      have hb0 : sw1.allocated_slots.getD j false = true := hb
      rw [hsw1, hfs_eq] at hb0
      have hb' := (hb0 : (s.swap_space.allocated_slots.set pte0.swap_slot
        false).getD j false = true)
      have hjne : j ≠ pte0.swap_slot := by
        intro hq
        rw [hq, getD_set_self _ _ _ _ hsl0] at hb'
        cases hb'
      rw [getD_set_ne _ _ _ _ _ (fun h => hjne h.symm)] at hb'
      obtain ⟨⟨k, em⟩, hke, hkes, hkesl⟩ := hso j hj hb'
      have hkne : k ≠ vpn := by
        intro hq
        rw [hq] at hke
        have hg2 := assocGet_of_mem hnd hke
        have := Option.some_inj.mp (hg2.symm.trans hpte)
        subst this
        exact hjne (hkesl.symm)
      exact ⟨(k, em), mem_assocSet_of_mem hke hkne, hkes, hkesl⟩
    · have hb0 : sw1.allocated_slots.getD j false = true := hb
      rw [hsw1] at hb0
      obtain ⟨⟨k, em⟩, hke, hkes, hkesl⟩ := hso j hj hb0
      have hkne : k ≠ vpn := by
        intro hq
        rw [hq] at hke
        have hg2 := assocGet_of_mem hnd hke
        have := Option.some_inj.mp (hg2.symm.trans hpte)
        subst this
        rw [hsw0] at hkes
        cases hkes
      exact ⟨(k, em), mem_assocSet_of_mem hke hkne, hkes, hkesl⟩

/-- SInv is preserved by the allocate-then-load tail of
    handle_page_fault when the faulting entry exists and is not
    present. -/
theorem SInv_alloc_load {s : Sys} (hS : SInv s) {vpn : Nat}
    {pte0 : PageMetadata}
    (hpte : ptGet s.page_table vpn = some pte0) (hnp : pte0.present = false)
    {i : Nat} (hff : firstFree s.ram.allocated = some i) :
    SInv (MMU.loadAndFinish
      { s with ram :=
          { s.ram with
              allocated := s.ram.allocated.set i true,
              frame_to_page := s.ram.frame_to_page.set i (some vpn) } }
      vpn i).2 := by
  have hil : i < s.ram.allocated.length := (firstFree_some hff).1
  have hilA : i < (s.ram.allocated.set i true).length := by
    rw [List.length_set]; exact hil
  by_cases hswq : pte0.swapped
  · have hEQ : (MMU.loadAndFinish
        { s with ram :=
            { s.ram with
                allocated := s.ram.allocated.set i true,
                frame_to_page := s.ram.frame_to_page.set i (some vpn) } }
        vpn i).2 =
        { s with
            page_table := ptSet s.page_table vpn { pte0 with swapped := false, physical_page := i, present := true, last_access := s.current_time + 1 },
            ram := { memory := s.ram.memory.set i (s.swap_space.read_page pte0.swap_slot uninitPage),
                     frame_to_page := s.ram.frame_to_page.set i (some vpn),
                     allocated := s.ram.allocated.set i true },
            swap_space := s.swap_space.free_slot pte0.swap_slot,
            current_time := s.current_time + 1 } := by
      simp [MMU.loadAndFinish, hpte, hswq, RAM.write_page, hilA]
      intro h
      omega
    rw [hEQ]
    exact SInv_install_gen hS hpte hnp hff rfl rfl rfl rfl rfl rfl
      (by rw [List.length_set]; exact hS.1.1.2.2) (Or.inl ⟨hswq, rfl⟩)
  · have hsw0 : pte0.swapped = false := by simpa using hswq
    by_cases hfbq : pte0.file_backed
    · have hEQ : (MMU.loadAndFinish
          { s with ram :=
              { s.ram with
                  allocated := s.ram.allocated.set i true,
                  frame_to_page := s.ram.frame_to_page.set i (some vpn) } }
          vpn i).2 =
          { s with
              page_table := ptSet s.page_table vpn { pte0 with physical_page := i, present := true, last_access := s.current_time + 1 },
              ram := { memory := s.ram.memory.set i (s.disk.read_page pte0.disk_page uninitPage),
                       frame_to_page := s.ram.frame_to_page.set i (some vpn),
                       allocated := s.ram.allocated.set i true },
              current_time := s.current_time + 1 } := by
        simp [MMU.loadAndFinish, hpte, hsw0, hfbq, RAM.write_page, hilA]
        intro h
        omega
      rw [hEQ]
      exact SInv_install_gen hS hpte hnp hff rfl hsw0 rfl rfl rfl rfl
        (by rw [List.length_set]; exact hS.1.1.2.2) (Or.inr ⟨hsw0, rfl⟩)
    · have hfb0 : pte0.file_backed = false := by simpa using hfbq
      have hEQ : (MMU.loadAndFinish
          { s with ram :=
              { s.ram with
                  allocated := s.ram.allocated.set i true,
                  frame_to_page := s.ram.frame_to_page.set i (some vpn) } }
          vpn i).2 =
          { s with
              page_table := ptSet s.page_table vpn { pte0 with physical_page := i, present := true, last_access := s.current_time + 1 },
              ram := { memory := s.ram.memory.set i zeroPage,
                       frame_to_page := s.ram.frame_to_page.set i (some vpn),
                       allocated := s.ram.allocated.set i true },
              current_time := s.current_time + 1 } := by
        simp [MMU.loadAndFinish, hpte, hsw0, hfb0, RAM.write_page, hilA]
        intro h
        omega
      rw [hEQ]
      exact SInv_install_gen hS hpte hnp hff rfl hsw0 rfl rfl rfl rfl
        (by rw [List.length_set]; exact hS.1.1.2.2) (Or.inr ⟨hsw0, rfl⟩)

/-- Decomposition of a successful LRU candidate: the frame is allocated,
    back-pointed, and the owner entry exists. -/
theorem lruCand_some {r : RAM} {pt : PageTable} {i : Nat} {m : PageMetadata}
    (h : lruCand r pt i = some m) :
    r.allocated.getD i false = true ∧
    ∃ v, r.frame_to_page.getD i none = some v ∧ ptGet pt v = some m := by
  unfold lruCand at h
  by_cases hb : r.allocated.getD i false
  · rw [if_pos hb] at h
    cases hf : r.frame_to_page.getD i none with
    | none =>
      rw [hf] at h
      cases h
    | some v =>
      rw [hf] at h
      exact ⟨hb, v, rfl, h⟩
  · rw [if_neg hb] at h
    cases h

/-- Composition of an LRU candidate from its parts. -/
theorem lruCand_eq {r : RAM} {pt : PageTable} {i v : Nat} {m : PageMetadata}
    (hb : r.allocated.getD i false = true)
    (hf : r.frame_to_page.getD i none = some v)
    (hm : ptGet pt v = some m) :
    lruCand r pt i = some m := by
  unfold lruCand
  rw [if_pos hb, hf]
  exact hm

/-- The page table of the evict-success state is an update of the old
    one at the victim's key. -/
theorem evictVictim_page_table (s : Sys) (vf v : Nat) (meta : PageMetadata) :
    ∃ meta2, (MMU.evictVictim s vf v meta).page_table =
      ptSet s.page_table v meta2 :=
  ⟨_, rfl⟩

/-- Under SInv, with time headroom and a free swap slot, a page fault on
    an existing non-present entry always succeeds and preserves SInv. -/
theorem SInv_fault {s : Sys} (hS : SInv s) (hT : TimeOK s) (hSA : SlotAvail s)
    {vpn : Nat} {pte0 : PageMetadata}
    (hpte : ptGet s.page_table vpn = some pte0) (hnp : pte0.present = false) :
    (MMU.handle_page_fault s vpn).1 = true ∧
    SInv (MMU.handle_page_fault s vpn).2 := by
  cases hff : firstFree s.ram.allocated with
  | some i =>
    have hi8 : i < NUM_FRAMES := by rw [← hS.1.1.1]; exact (firstFree_some hff).1
    have hiNF : i ≠ NO_FRAME := fun h => no_frame_ge (h ▸ hi8)
    rw [fault_alloc hpte hff hiNF]
    exact ⟨loadAndFinish_fst _ _ _, SInv_alloc_load hS hpte hnp hff⟩
  | none =>
    have hSkeep := hS
    obtain ⟨hW, hsl, hss, hdl, hbr, hps, hfbs, htb, hfo, hfn, hsv, hsu, hso⟩ :=
      hSkeep
    have hfull := firstFree_none hff
    have hflen : s.ram.frame_to_page.length = NUM_FRAMES := hW.1.2.1
    have halen : s.ram.allocated.length = NUM_FRAMES := hW.1.1
    have h08 : (0 : Nat) < NUM_FRAMES := by decide
    have hbit0 : s.ram.allocated.getD 0 false = true := by
      rw [getD_default_irrel (by rw [halen]; exact h08) false true]
      exact (getD_default_irrel (by rw [halen]; exact h08) true false) ▸
        hfull 0 (by rw [halen]; exact h08)
    cases hf0 : s.ram.frame_to_page.getD 0 none with
    | none =>
      have hc := hfn 0 h08 hf0
      rw [hbit0] at hc
      cases hc
    | some v0 =>
      obtain ⟨m0c, hm0c, _, _⟩ := hfo 0 h08 v0 hf0
      have hcand : lruCand s.ram s.page_table 0 = some m0c :=
        lruCand_eq hbit0 hf0 hm0c
      have hlast : m0c.last_access < UINT64_MAX :=
        lt_of_le_of_lt (htb (v0, m0c) (mem_of_assocGet hm0c)) hT
      have hvfne := find_lru_success hflen h08 hcand hlast
      obtain ⟨mb, hmb, hfk, _, _, _⟩ := find_lru_found hflen hvfne
      obtain ⟨hbvf, v, hfvf, hptv⟩ := lruCand_some hmb
      have hg : s.ram.get_page_metadata (s.ram.find_lru_page s.page_table)
          = some v := by
        have hlt : s.ram.find_lru_page s.page_table
            < s.ram.frame_to_page.length := by
          rw [hflen]; exact hfk
        unfold RAM.get_page_metadata
        rw [if_pos hlt]
        exact hfvf
      have hev : MMU.evict_page s =
          (s.ram.find_lru_page s.page_table,
           MMU.evictVictim s (s.ram.find_lru_page s.page_table) v mb) := by
        simp [MMU.evict_page, hvfne, hg, hptv]
      have hSE := SInv_evictVictim hS hg hptv hSA
      have hmbp : mb.present = true := by
        obtain ⟨m2, hm2, hm2p, _⟩ :=
          hfo (s.ram.find_lru_page s.page_table) hfk v hfvf
        have := Option.some_inj.mp (hm2.symm.trans hptv)
        subst this
        exact hm2p
      have hvne : v ≠ vpn := by
        intro hq
        subst hq
        have := Option.some_inj.mp (hptv.symm.trans hpte)
        subst this
        rw [hnp] at hmbp
        cases hmbp
      obtain ⟨meta2, hptE⟩ := evictVictim_page_table s
        (s.ram.find_lru_page s.page_table) v mb
      have hptesE : ptGet (MMU.evictVictim s
          (s.ram.find_lru_page s.page_table) v mb).page_table vpn
          = some pte0 := by
        rw [hptE]
        show assocGet (assocSet s.page_table v meta2) vpn = some pte0
        rw [assocGet_set_ne _ _ _ _ hvne]
        exact hpte
      have hramE : (MMU.evictVictim s
          (s.ram.find_lru_page s.page_table) v mb).ram
          = s.ram.free_page (s.ram.find_lru_page s.page_table) := rfl
      have hvfaS : s.ram.find_lru_page s.page_table
          < s.ram.allocated.length := by
        rw [halen]; exact hfk
      have hfreeS : s.ram.free_page (s.ram.find_lru_page s.page_table) =
          { s.ram with
              allocated := s.ram.allocated.set
                (s.ram.find_lru_page s.page_table) false,
              frame_to_page := s.ram.frame_to_page.set
                (s.ram.find_lru_page s.page_table) none } := by
        simp [RAM.free_page, hvfaS]
      have hbitE : (MMU.evictVictim s
          (s.ram.find_lru_page s.page_table) v mb).ram.allocated.getD
          (s.ram.find_lru_page s.page_table) false = false := by
        rw [hramE, hfreeS]
        exact getD_set_self _ _ _ _ hvfaS
      have hf2pE : (MMU.evictVictim s
          (s.ram.find_lru_page s.page_table) v mb).ram.frame_to_page.getD
          (s.ram.find_lru_page s.page_table) none = none := by
        rw [hramE, hfreeS]
        exact getD_set_self _ _ _ _ (by rw [hflen]; exact hfk)
      have hvfaE : s.ram.find_lru_page s.page_table
          < (MMU.evictVictim s
              (s.ram.find_lru_page s.page_table) v mb).ram.allocated.length := by
        rw [hSE.1.1.1]; exact hfk
      have hvfaF : s.ram.find_lru_page s.page_table
          < (MMU.evictVictim s
              (s.ram.find_lru_page s.page_table)
              v mb).ram.frame_to_page.length := by
        rw [hSE.1.1.2.1]; exact hfk
      have hramF : (MMU.evictVictim s
          (s.ram.find_lru_page s.page_table) v mb).ram.free_page
            (s.ram.find_lru_page s.page_table)
          = (MMU.evictVictim s (s.ram.find_lru_page s.page_table) v mb).ram := by
        simp [RAM.free_page, hvfaE,
          set_getD_eq_self _ _ _ _ hvfaE hbitE,
          set_getD_eq_self _ _ _ _ hvfaF hf2pE]
      obtain ⟨j, hj⟩ := firstFree_isSome hvfaE hbitE
      have halloc : ((MMU.evictVictim s
          (s.ram.find_lru_page s.page_table) v mb).ram.free_page
            (s.ram.find_lru_page s.page_table)).allocate_page (some vpn)
          = (j, { (MMU.evictVictim s
                (s.ram.find_lru_page s.page_table) v mb).ram with
              allocated := (MMU.evictVictim s
                (s.ram.find_lru_page s.page_table)
                v mb).ram.allocated.set j true,
              frame_to_page := (MMU.evictVictim s
                (s.ram.find_lru_page s.page_table)
                v mb).ram.frame_to_page.set j (some vpn) }) := by
        rw [hramF]
        exact RAM.allocate_page_some _ _ _ hj
      rw [fault_evict hpte hff hev hvfne halloc]
      exact ⟨loadAndFinish_fst _ _ _, SInv_alloc_load hSE hptesE hnp hj⟩

/-- SInv is preserved by MMU::translate_address under the time and
    swap-slot guards. -/
theorem SInv_translate (s : Sys) (va : Nat) (w : Bool) (hS : SInv s)
    (hT : TimeOK s) (hSA : SlotAvail s) :
    SInv (MMU.translate_address s va w).2 := by
  cases hpte : ptGet s.page_table (va / PAGE_SIZE) with
  | none => rw [translate_none hpte]; exact hS
  | some pte0 =>
    by_cases hp : pte0.present
    · rw [translate_present hpte hp]
      refine SInv_update_touch hS hpte ?_ ?_ ?_ ?_ ?_ ?_ ?_ <;> rfl
    · have hnp : pte0.present = false := by simpa using hp
      obtain ⟨hok, hS1⟩ := SInv_fault hS hT hSA hpte hnp
      rcases hfe : MMU.handle_page_fault s (va / PAGE_SIZE) with ⟨ok, s1⟩
      rw [hfe] at hok hS1
      cases ok with
      | false => cases hok
      | true =>
        cases hpte1 : ptGet s1.page_table (va / PAGE_SIZE) with
        | none =>
          rw [translate_fault_ok_none hpte hnp hfe hpte1]
          exact hS1
        | some pte =>
          rw [translate_fault_ok hpte hnp hfe hpte1]
          refine SInv_update_touch hS1 hpte1 ?_ ?_ ?_ ?_ ?_ ?_ ?_ <;> rfl

/-- SInv is preserved by MMU::evict_page when a swap slot is free. -/
theorem SInv_evict_page (s : Sys) (hS : SInv s) (hSA : SlotAvail s) :
    SInv (MMU.evict_page s).2 := by
  rcases evict_page_cases s with h | ⟨v, meta, hg, hp2, _, heq⟩
  · rw [h]; exact hS
  · rw [heq]; exact SInv_evictVictim hS hg hp2 hSA

/-- unmapOne on a present, non-swapped entry (the only present shape
    under SInv): erase the entry, free the frame, write back a dirty
    file-backed page. -/
theorem unmapOne_present_ns {s : Sys} {vp : Nat} {pte : PageMetadata}
    (hpte : ptGet s.page_table vp = some pte) (hp : pte.present = true)
    (hsw : pte.swapped = false) :
    MMU.unmapOne s vp =
      { s with page_table := ptErase s.page_table vp,
               ram := s.ram.free_page pte.physical_page,
               disk := if pte.dirty && pte.file_backed then
                   s.disk.write_page pte.disk_page
                     (s.ram.read_page pte.physical_page uninitPage)
                 else s.disk } := by
  by_cases hdf : pte.dirty && pte.file_backed <;>
    simp [MMU.unmapOne, hpte, hp, hdf, hsw]

/-- SInv is preserved by one iteration of MMU::unmap_pages. -/
theorem SInv_unmapOne (s : Sys) (vp : Nat) (hS : SInv s) :
    SInv (MMU.unmapOne s vp) := by
  cases hpte : ptGet s.page_table vp with
  | none => rw [unmapOne_none hpte]; exact hS
  | some pte =>
    have hSkeep := hS
    obtain ⟨hW, hsl, hss, hdl, hbr, hps, hfbs, htb, hfo, hfn, hsv, hsu, hso⟩ :=
      hSkeep
    have hnd := hW.2.1
    have hmemv : (vp, pte) ∈ s.page_table := mem_of_assocGet hpte
    by_cases hp : pte.present
    · have hpsw : pte.swapped = false := by
        cases hq : pte.swapped
        · rfl
        · exact absurd ⟨hp, hq⟩ (hps (vp, pte) hmemv)
      rw [unmapOne_present_ns hpte hp hpsw]
      obtain ⟨g1, g2, g3⟩ := hW.2.2 (vp, pte) hmemv hp
      have hplt : pte.physical_page < s.ram.allocated.length := by
        rw [hW.1.1]; exact g1
      have hplf : pte.physical_page < s.ram.frame_to_page.length := by
        rw [hW.1.2.1]; exact g1
      have hfree : s.ram.free_page pte.physical_page =
          { s.ram with
              allocated := s.ram.allocated.set pte.physical_page false,
              frame_to_page :=
                s.ram.frame_to_page.set pte.physical_page none } := by
        simp [RAM.free_page, hplt]
      have hW1 := WInv_unmapOne s vp hS.1
      rw [unmapOne_present_ns hpte hp hpsw] at hW1
      refine ⟨hW1, hsl, hss, ?_, ?_, ?_, ?_, ?_, ?_, ?_, ?_, ?_, ?_⟩
      · show (if pte.dirty && pte.file_backed then
            s.disk.write_page pte.disk_page
              (s.ram.read_page pte.physical_page uninitPage)
          else s.disk).storage.length = NUM_DISK_PAGES
        by_cases hdf : pte.dirty && pte.file_backed
        · simp only [if_pos hdf, Disk.write_page]
          split
          · simpa using hdl
          · exact hdl
        · simpa [hdf] using hdl
      · intro e he
        exact hbr e (mem_assocErase he)
      · intro e he
        exact hps e (mem_assocErase he)
      · intro e he
        exact hfbs e (mem_assocErase he)
      · intro e he
        exact htb e (mem_assocErase he)
      · intro i hi u hu
        rw [hfree] at hu
        by_cases hq : i = pte.physical_page
        · subst hq
          rw [getD_set_self _ _ _ _ hplf] at hu
          cases hu
        · rw [getD_set_ne _ _ _ _ _ (fun h => hq h.symm)] at hu
          obtain ⟨mo, hmo, hmop, hmoi⟩ := hfo i hi u hu
          have hune : u ≠ vp := by
            intro h
            subst h
            have := Option.some_inj.mp (hmo.symm.trans hpte)
            subst this
            exact hq hmoi.symm
          refine ⟨mo, ?_, hmop, hmoi⟩
          show assocGet (assocErase s.page_table vp) u = some mo
          rw [assocGet_erase_ne _ _ _ (fun h => hune h.symm)]
          exact hmo
      · intro i hi hnone
        rw [hfree] at hnone
        show ((s.ram.free_page pte.physical_page).allocated.getD i false)
          = false
        rw [hfree]
        by_cases hq : i = pte.physical_page
        · subst hq
          exact getD_set_self _ _ _ _ hplt
        · rw [getD_set_ne _ _ _ _ _ (fun h => hq h.symm)] at hnone
          rw [getD_set_ne _ _ _ _ _ (fun h => hq h.symm)]
          exact hfn i hi hnone
      · intro e he hes
        exact hsv e (mem_assocErase he) hes
      · intro e he f hf hne hes hfs
        exact hsu e (mem_assocErase he) f (mem_assocErase hf) hne hes hfs
      · intro j hj hb
        obtain ⟨⟨k, em⟩, hke, hkes, hkesl⟩ := hso j hj hb
        have hkne : k ≠ vp := by
          intro hq
          rw [hq] at hke
          have hg2 := assocGet_of_mem hnd hke
          have := Option.some_inj.mp (hg2.symm.trans hpte)
          subst this
          rw [hpsw] at hkes
          cases hkes
        exact ⟨(k, em), mem_assocErase_of_mem hke hkne, hkes, hkesl⟩
    · have hnp : pte.present = false := by simpa using hp
      rw [unmapOne_absent hpte hnp]
      have hW1 := WInv_unmapOne s vp hS.1
      rw [unmapOne_absent hpte hnp] at hW1
      by_cases hswq : pte.swapped
      · obtain ⟨hslt, hbit⟩ := hsv (vp, pte) hmemv hswq
        have hsll : pte.swap_slot < s.swap_space.allocated_slots.length := by
          rw [hsl]; exact hslt
        have hfs_eq : s.swap_space.free_slot pte.swap_slot =
            { s.swap_space with allocated_slots :=
                s.swap_space.allocated_slots.set pte.swap_slot false } := by
          simp [SwapSpace.free_slot, hsll]
        simp only [hswq, eq_self_iff_true, if_true] at hW1 ⊢
        rw [hfs_eq] at hW1 ⊢
        refine ⟨hW1, ?_, hss, hdl, ?_, ?_, ?_, ?_, ?_, ?_, ?_, ?_, ?_⟩
        · show (s.swap_space.allocated_slots.set pte.swap_slot false).length
            = NUM_SLOTS
          rw [List.length_set]; exact hsl
        · intro e he
          exact hbr e (mem_assocErase he)
        · intro e he
          exact hps e (mem_assocErase he)
        · intro e he
          exact hfbs e (mem_assocErase he)
        · intro e he
          exact htb e (mem_assocErase he)
        · intro i hi u hu
          obtain ⟨mo, hmo, hmop, hmoi⟩ := hfo i hi u hu
          have hune : u ≠ vp := by
            intro h
            subst h
            have := Option.some_inj.mp (hmo.symm.trans hpte)
            subst this
            rw [hnp] at hmop
            cases hmop
          refine ⟨mo, ?_, hmop, hmoi⟩
          show assocGet (assocErase s.page_table vp) u = some mo
          rw [assocGet_erase_ne _ _ _ (fun h => hune h.symm)]
          exact hmo
        · intro i hi hnone
          exact hfn i hi hnone
        · intro e he hes
          obtain ⟨he1, hne1⟩ := mem_assocErase_ne hnd he
          obtain ⟨hl1, hl2⟩ := hsv e he1 hes
          have hslne : e.2.swap_slot ≠ pte.swap_slot :=
            hsu e he1 (vp, pte) hmemv hne1 hes hswq
          refine ⟨hl1, ?_⟩
          show (s.swap_space.allocated_slots.set pte.swap_slot false).getD
            e.2.swap_slot false = true
          rw [getD_set_ne _ _ _ _ _ (fun h => hslne h.symm)]
          exact hl2
        · intro e he f hf hne hes hfs
          exact hsu e (mem_assocErase he) f (mem_assocErase hf) hne hes hfs
        · intro j hj hb
          have hb' := (hb : (s.swap_space.allocated_slots.set pte.swap_slot
            false).getD j false = true)
          have hjne : j ≠ pte.swap_slot := by
            intro hq
            rw [hq, getD_set_self _ _ _ _ hsll] at hb'
            cases hb'
          rw [getD_set_ne _ _ _ _ _ (fun h => hjne h.symm)] at hb'
          obtain ⟨⟨k, em⟩, hke, hkes, hkesl⟩ := hso j hj hb'
          have hkne : k ≠ vp := by
            intro hq
            rw [hq] at hke
            have hg2 := assocGet_of_mem hnd hke
            have := Option.some_inj.mp (hg2.symm.trans hpte)
            subst this
            exact hjne hkesl.symm
          exact ⟨(k, em), mem_assocErase_of_mem hke hkne, hkes, hkesl⟩
      · have hsw0 : pte.swapped = false := by simpa using hswq
        simp only [hsw0, Bool.false_eq_true, if_false] at hW1 ⊢
        refine ⟨hW1, hsl, hss, hdl, ?_, ?_, ?_, ?_, ?_, ?_, ?_, ?_, ?_⟩
        · intro e he
          exact hbr e (mem_assocErase he)
        · intro e he
          exact hps e (mem_assocErase he)
        · intro e he
          exact hfbs e (mem_assocErase he)
        · intro e he
          exact htb e (mem_assocErase he)
        · intro i hi u hu
          obtain ⟨mo, hmo, hmop, hmoi⟩ := hfo i hi u hu
          have hune : u ≠ vp := by
            intro h
            subst h
            have := Option.some_inj.mp (hmo.symm.trans hpte)
            subst this
            rw [hnp] at hmop
            cases hmop
          refine ⟨mo, ?_, hmop, hmoi⟩
          show assocGet (assocErase s.page_table vp) u = some mo
          rw [assocGet_erase_ne _ _ _ (fun h => hune h.symm)]
          exact hmo
        · intro i hi hnone
          exact hfn i hi hnone
        · intro e he hes
          exact hsv e (mem_assocErase he) hes
        · intro e he f hf hne hes hfs
          exact hsu e (mem_assocErase he) f (mem_assocErase hf) hne hes hfs
        · intro j hj hb
          obtain ⟨⟨k, em⟩, hke, hkes, hkesl⟩ := hso j hj hb
          have hkne : k ≠ vp := by
            intro hq
            rw [hq] at hke
            have hg2 := assocGet_of_mem hnd hke
            have := Option.some_inj.mp (hg2.symm.trans hpte)
            subst this
            rw [hsw0] at hkes
            cases hkes
          exact ⟨(k, em), mem_assocErase_of_mem hke hkne, hkes, hkesl⟩

/-- SInv is preserved by the MMU::unmap_pages loop. -/
theorem SInv_unmapLoop (n : Nat) : ∀ (s : Sys) (a : Nat), SInv s →
    SInv (MMU.unmapLoop s a n) := by
  induction n with
  | zero => intro s a h; exact h
  | succ k ih => intro s a h; exact ih _ (a + 1) (SInv_unmapOne s a h)

/-- SInv only constrains the bookkeeping structures, not the page
    contents: overwriting one RAM page preserves it. -/
theorem SInv_memwrite {s : Sys} (hS : SInv s) (f : Nat) (p : Page) :
    SInv { s with ram := { s.ram with memory := s.ram.memory.set f p } } := by
  obtain ⟨hW, hsl, hss, hdl, hbr, hps, hfbs, htb, hfo, hfn, hsv, hsu, hso⟩ := hS
  refine ⟨⟨⟨hW.1.1, hW.1.2.1, ?_⟩, hW.2.1, hW.2.2⟩,
    hsl, hss, hdl, hbr, hps, hfbs, htb, hfo, hfn, hsv, hsu, hso⟩
  show (s.ram.memory.set f p).length = NUM_FRAMES
  rw [List.length_set]
  exact hW.1.2.2

/-- Membership in assocSet without a key-uniqueness assumption. -/
theorem mem_assocSet_weak {α : Type} {e : Nat × α} {l : List (Nat × α)}
    {v : Nat} {m : α} (h : e ∈ assocSet l v m) : e = (v, m) ∨ e ∈ l := by
  induction l with
  | nil =>
    simp [assocSet] at h
    exact Or.inl h
  | cons f rest ih =>
    by_cases hf : f.1 = v
    · simp only [assocSet, if_pos hf] at h
      rcases List.mem_cons.mp h with rfl | h1
      · exact Or.inl rfl
      · exact Or.inr (List.mem_cons_of_mem _ h1)
    · simp only [assocSet, if_neg hf] at h
      rcases List.mem_cons.mp h with rfl | h1
      · exact Or.inr (List.mem_cons_self _ _)
      · rcases ih h1 with h2 | h2
        · exact Or.inl h2
        · exact Or.inr (List.mem_cons_of_mem _ h2)

theorem KeysBelow_ptSet {s : Sys} {B : Nat} (hB : KeysBelow s B) {vpn : Nat}
    (hlt : vpn < B) (m : PageMetadata) :
    ∀ e ∈ ptSet s.page_table vpn m, e.1 < B := by
  intro e he
  rcases mem_assocSet_weak he with rfl | h1
  · exact hlt
  · exact hB e h1

theorem KeysBelow_loadAndFinish {s : Sys} {B : Nat} (hB : KeysBelow s B)
    (vpn phys : Nat) : KeysBelow (MMU.loadAndFinish s vpn phys).2 B := by
  unfold MMU.loadAndFinish
  cases hpte : ptGet s.page_table vpn with
  | none => exact hB
  | some pte =>
    have hlt : vpn < B := hB (vpn, pte) (mem_of_assocGet hpte)
    by_cases hsw : pte.swapped <;> by_cases hfb : pte.file_backed <;>
      simp only [hsw, hfb, Bool.false_eq_true, if_true, if_false,
        Bool.true_eq_false, ite_true, ite_false] <;>
      exact KeysBelow_ptSet hB hlt _

theorem KeysBelow_evictVictim {s : Sys} {B : Nat} (hB : KeysBelow s B)
    {vf v : Nat} {meta : PageMetadata}
    (hpte : ptGet s.page_table v = some meta) :
    KeysBelow (MMU.evictVictim s vf v meta) B := by
  obtain ⟨meta2, hpt⟩ := evictVictim_page_table s vf v meta
  intro e he
  rw [hpt] at he
  exact KeysBelow_ptSet hB (hB (v, meta) (mem_of_assocGet hpte)) meta2 e he

set_option maxHeartbeats 2000000 in
theorem KeysBelow_fault {s : Sys} {B : Nat} (hB : KeysBelow s B) (vpn : Nat) :
    KeysBelow (MMU.handle_page_fault s vpn).2 B := by
  cases hpte : ptGet s.page_table vpn with
  | none => rw [fault_invalid hpte]; exact hB
  | some pte0 =>
    cases hff : firstFree s.ram.allocated with
    | some i =>
      by_cases hi : i = NO_FRAME
      · subst hi
        unfold MMU.handle_page_fault
        rw [hpte, RAM.allocate_page_some _ _ _ hff]
        simp only [ite_true, if_pos rfl]
        generalize hsA : ({ s with ram :=
            { s.ram with
                allocated := s.ram.allocated.set NO_FRAME true,
                frame_to_page :=
                  s.ram.frame_to_page.set NO_FRAME (some vpn) } } : Sys) = sA
        have hBA : KeysBelow sA B := by
          rw [← hsA]
          exact fun e he => hB e he
        rcases evict_page_cases sA with hc | ⟨v, meta, hg, hp2, hvfne, heq⟩
        · rw [hc]
          simp only [if_pos rfl, ite_true]
          exact hBA
        · rw [heq]
          simp only [hvfne, if_false, ite_false]
          refine KeysBelow_loadAndFinish ?_ vpn _
          exact KeysBelow_evictVictim hBA hp2
      · rw [fault_alloc hpte hff hi]
        refine KeysBelow_loadAndFinish ?_ vpn i
        exact fun e he => hB e he
    | none =>
      unfold MMU.handle_page_fault
      rw [hpte, RAM.allocate_page_none _ _ hff]
      simp only [if_pos rfl, ite_true,
        show ({ s with ram := s.ram } : Sys) = s from rfl]
      rcases evict_page_cases s with hc | ⟨v, meta, hg, hp2, hvfne, heq⟩
      · rw [hc]
        simp only [if_pos rfl, ite_true]
        exact hB
      · rw [heq]
        simp only [hvfne, if_false, ite_false]
        refine KeysBelow_loadAndFinish ?_ vpn _
        exact KeysBelow_evictVictim hB hp2

theorem KeysBelow_translate {s : Sys} {B : Nat} (hB : KeysBelow s B)
    (va : Nat) (w : Bool) :
    KeysBelow (MMU.translate_address s va w).2 B := by
  cases hpte : ptGet s.page_table (va / PAGE_SIZE) with
  | none => rw [translate_none hpte]; exact hB
  | some pte0 =>
    have hvlt : va / PAGE_SIZE < B := hB _ (mem_of_assocGet hpte)
    by_cases hp : pte0.present
    · rw [translate_present hpte hp]
      exact KeysBelow_ptSet hB hvlt _
    · have hnp : pte0.present = false := by simpa using hp
      rcases hfe : MMU.handle_page_fault s (va / PAGE_SIZE) with ⟨ok, s1⟩
      have hB1 : KeysBelow s1 B := by
        have h := KeysBelow_fault hB (va / PAGE_SIZE)
        rw [hfe] at h
        exact h
      cases ok with
      | false => rw [translate_fault_fail hpte hnp hfe]; exact hB1
      | true =>
        cases hpte1 : ptGet s1.page_table (va / PAGE_SIZE) with
        | none => rw [translate_fault_ok_none hpte hnp hfe hpte1]; exact hB1
        | some pte =>
          rw [translate_fault_ok hpte hnp hfe hpte1]
          exact KeysBelow_ptSet hB1 (hB1 _ (mem_of_assocGet hpte1)) _

theorem KeysBelow_unmapOne {s : Sys} {B : Nat} (hB : KeysBelow s B)
    (vp : Nat) : KeysBelow (MMU.unmapOne s vp) B := by
  cases hpte : ptGet s.page_table vp with
  | none => rw [unmapOne_none hpte]; exact hB
  | some pte =>
    by_cases hp : pte.present
    · rw [unmapOne_present hpte hp]
      exact fun e he => hB e (mem_assocErase he)
    · have hnp : pte.present = false := by simpa using hp
      rw [unmapOne_absent hpte hnp]
      exact fun e he => hB e (mem_assocErase he)

theorem KeysBelow_unmapLoop (n : Nat) : ∀ (s : Sys) (a : Nat) {B : Nat},
    KeysBelow s B → KeysBelow (MMU.unmapLoop s a n) B := by
  induction n with
  | zero => intro s a B h; exact h
  | succ k ih => intro s a B h; exact ih _ (a + 1) (KeysBelow_unmapOne h a)

/-- Keys after the map_pages loop: an old key or one of the new range. -/
theorem mapLoop_keys (n : Nat) : ∀ (s : Sys) (a : Nat) (fb : Bool) (ds : Nat),
    ∀ e ∈ (MMU.mapLoop s a n fb ds).page_table,
      e ∈ s.page_table ∨ (a ≤ e.1 ∧ e.1 < a + n) := by
  induction n with
  | zero => intro s a fb ds e he; exact Or.inl he
  | succ k ih =>
    intro s a fb ds e he
    rcases ih _ (a + 1) fb (ds + 1) e he with h1 | ⟨h2, h3⟩
    · rcases mem_assocSet_weak h1 with rfl | h4
      · right
        constructor
        · exact Nat.le_refl _
        · omega
      · exact Or.inl h4
    · right
      omega

/- The mmap cursor is untouched by the MMU operations. -/

theorem loadAndFinish_next (s : Sys) (vpn phys : Nat) :
    (MMU.loadAndFinish s vpn phys).2.next_virtual_addr
      = s.next_virtual_addr := by
  unfold MMU.loadAndFinish
  cases hpte : ptGet s.page_table vpn with
  | none => rfl
  | some pte =>
    by_cases hsw : pte.swapped <;> by_cases hfb : pte.file_backed <;>
      simp [hsw, hfb]

theorem fault_next (s : Sys) (vpn : Nat) :
    (MMU.handle_page_fault s vpn).2.next_virtual_addr
      = s.next_virtual_addr := by
  cases hpte : ptGet s.page_table vpn with
  | none => rw [fault_invalid hpte]
  | some pte0 =>
    cases hff : firstFree s.ram.allocated with
    | some i =>
      by_cases hi : i = NO_FRAME
      · subst hi
        unfold MMU.handle_page_fault
        rw [hpte, RAM.allocate_page_some _ _ _ hff]
        simp only [ite_true, if_pos rfl]
        generalize hsA : ({ s with ram :=
            { s.ram with
                allocated := s.ram.allocated.set NO_FRAME true,
                frame_to_page :=
                  s.ram.frame_to_page.set NO_FRAME (some vpn) } } : Sys) = sA
        have hnext : sA.next_virtual_addr = s.next_virtual_addr := by
          rw [← hsA]
        rcases evict_page_cases sA with hc | ⟨v, meta, hg, hp2, hvfne, heq⟩
        · rw [hc]
          simp only [if_pos rfl, ite_true]
          exact hnext
        · rw [heq]
          simp only [hvfne, if_false, ite_false]
          rw [loadAndFinish_next]
          exact hnext
      · rw [fault_alloc hpte hff hi, loadAndFinish_next]
    | none =>
      unfold MMU.handle_page_fault
      rw [hpte, RAM.allocate_page_none _ _ hff]
      simp only [if_pos rfl, ite_true,
        show ({ s with ram := s.ram } : Sys) = s from rfl]
      rcases evict_page_cases s with hc | ⟨v, meta, hg, hp2, hvfne, heq⟩
      · rw [hc]
        simp only [if_pos rfl, ite_true]
      · rw [heq]
        simp only [hvfne, if_false, ite_false]
        rw [loadAndFinish_next]
        rfl

theorem translate_next (s : Sys) (va : Nat) (w : Bool) :
    (MMU.translate_address s va w).2.next_virtual_addr
      = s.next_virtual_addr := by
  cases hpte : ptGet s.page_table (va / PAGE_SIZE) with
  | none => rw [translate_none hpte]
  | some pte0 =>
    by_cases hp : pte0.present
    · rw [translate_present hpte hp]
    · have hnp : pte0.present = false := by simpa using hp
      rcases hfe : MMU.handle_page_fault s (va / PAGE_SIZE) with ⟨ok, s1⟩
      have h1 : s1.next_virtual_addr = s.next_virtual_addr := by
        have h := fault_next s (va / PAGE_SIZE)
        rw [hfe] at h
        exact h
      cases ok with
      | false => rw [translate_fault_fail hpte hnp hfe]; exact h1
      | true =>
        cases hpte1 : ptGet s1.page_table (va / PAGE_SIZE) with
        | none => rw [translate_fault_ok_none hpte hnp hfe hpte1]; exact h1
        | some pte => rw [translate_fault_ok hpte hnp hfe hpte1]; exact h1

theorem unmapOne_next (s : Sys) (vp : Nat) :
    (MMU.unmapOne s vp).next_virtual_addr = s.next_virtual_addr := by
  cases hpte : ptGet s.page_table vp with
  | none => rw [unmapOne_none hpte]
  | some pte =>
    by_cases hp : pte.present
    · rw [unmapOne_present hpte hp]
    · rw [unmapOne_absent hpte (by simpa using hp)]

theorem unmapLoop_next (n : Nat) : ∀ (s : Sys) (a : Nat),
    (MMU.unmapLoop s a n).next_virtual_addr = s.next_virtual_addr := by
  induction n with
  | zero => intro s a; rfl
  | succ k ih =>
    intro s a
    rw [show MMU.unmapLoop s a (k + 1)
        = MMU.unmapLoop (MMU.unmapOne s a) (a + 1) k from rfl,
      ih, unmapOne_next]

/- VirtualMemorySystem-level state equations. -/

theorem mmap_snd (s : Sys) (l : Nat) (fd : Int) (off : Nat) :
    ∃ fb ds, (VM.mmap s l fd off).2 =
      { MMU.mapLoop s (s.next_virtual_addr / PAGE_SIZE)
          ((l + PAGE_SIZE - 1) / PAGE_SIZE) fb ds with
        next_virtual_addr := s.next_virtual_addr +
          ((l + PAGE_SIZE - 1) / PAGE_SIZE) * PAGE_SIZE } :=
  ⟨_, _, rfl⟩

theorem munmap_snd (s : Sys) (a l : Nat) :
    (VM.munmap s a l).2 =
      MMU.unmapLoop s (a / PAGE_SIZE) ((l + PAGE_SIZE - 1) / PAGE_SIZE) := rfl

/-- SInv and CursorInv are together preserved by
    VirtualMemorySystem::mmap. -/
theorem SCInv_mmap {s : Sys} (hS : SInv s) (hC : CursorInv s) (l : Nat)
    (fd : Int) (off : Nat) :
    SInv (VM.mmap s l fd off).2 ∧ CursorInv (VM.mmap s l fd off).2 := by
  obtain ⟨fb, ds, hEQ⟩ := mmap_snd s l fd off
  rw [hEQ]
  have hfresh : freshRange s (s.next_virtual_addr / PAGE_SIZE)
      ((l + PAGE_SIZE - 1) / PAGE_SIZE) := by
    intro k hk
    show assocGet s.page_table (s.next_virtual_addr / PAGE_SIZE + k) = none
    rw [assocGet_eq_none_iff]
    intro hmem
    obtain ⟨e, he, he1⟩ := List.mem_map.mp hmem
    have := hC.2 e he
    omega
  have hS1 := SInv_mapLoop _ s _ fb ds hS hfresh
  refine ⟨hS1, ?_, ?_⟩
  · show (s.next_virtual_addr +
      ((l + PAGE_SIZE - 1) / PAGE_SIZE) * PAGE_SIZE) % PAGE_SIZE = 0
    rw [Nat.add_mul_mod_self_right]
    exact hC.1
  · intro e he
    have hk := mapLoop_keys _ s _ fb ds e he
    show e.1 < (s.next_virtual_addr +
      ((l + PAGE_SIZE - 1) / PAGE_SIZE) * PAGE_SIZE) / PAGE_SIZE
    rw [Nat.add_mul_div_right _ _ (by decide : 0 < PAGE_SIZE)]
    rcases hk with h1 | ⟨h2, h3⟩
    · exact Nat.lt_of_lt_of_le (hC.2 e h1) (Nat.le_add_right _ _)
    · omega

/-- SInv and CursorInv are preserved by VirtualMemorySystem::munmap. -/
theorem SCInv_munmap {s : Sys} (hS : SInv s) (hC : CursorInv s) (a l : Nat) :
    SInv (VM.munmap s a l).2 ∧ CursorInv (VM.munmap s a l).2 := by
  rw [munmap_snd]
  refine ⟨SInv_unmapLoop _ s _ hS, ?_, ?_⟩
  · rw [unmapLoop_next]
    exact hC.1
  · intro e he
    rw [unmapLoop_next]
    exact KeysBelow_unmapLoop _ s _ (fun e2 he2 => hC.2 e2 he2) e he

/-- SInv and CursorInv are preserved by
    VirtualMemorySystem::write_memory under the guards. -/
theorem SCInv_write {s : Sys} (hS : SInv s) (hC : CursorInv s)
    (hT : TimeOK s) (hSA : SlotAvail s) (a : Nat) (d : List Nat) :
    SInv (VM.write_memory s a d).2 ∧ CursorInv (VM.write_memory s a d).2 := by
  rcases hte : MMU.translate_address s a true with ⟨r, s1⟩
  have hS1 : SInv s1 := by
    have h := SInv_translate s a true hS hT hSA
    rw [hte] at h
    exact h
  have hn1 : s1.next_virtual_addr = s.next_virtual_addr := by
    have h := translate_next s a true
    rw [hte] at h
    exact h
  have hC1 : CursorInv s1 := by
    refine ⟨by rw [hn1]; exact hC.1, ?_⟩
    intro e he
    rw [hn1]
    have h := KeysBelow_translate (fun e2 he2 => hC.2 e2 he2) a true
    rw [hte] at h
    exact h e he
  cases r with
  | none =>
    have hEQ : (VM.write_memory s a d).2 = s1 := by
      simp [VM.write_memory, hte]
    rw [hEQ]
    exact ⟨hS1, hC1⟩
  | some p =>
    rcases p with ⟨frame, off⟩
    by_cases hfl : frame < s1.ram.memory.length
    · have hEQ : (VM.write_memory s a d).2 = { s1 with ram := { s1.ram with memory := s1.ram.memory.set frame (pageWrite (s1.ram.memory.getD frame zeroPage) off d) } } := by
        simp [VM.write_memory, hte, hfl]
      rw [hEQ]
      exact ⟨SInv_memwrite hS1 _ _, hC1.1, hC1.2⟩
    · have hEQ : (VM.write_memory s a d).2 = s1 := by
        simp [VM.write_memory, hte, hfl]
      rw [hEQ]
      exact ⟨hS1, hC1⟩

/-- SInv and CursorInv are preserved by
    VirtualMemorySystem::read_memory under the guards. -/
theorem SCInv_read {s : Sys} (hS : SInv s) (hC : CursorInv s)
    (hT : TimeOK s) (hSA : SlotAvail s) (a n : Nat) :
    SInv (VM.read_memory s a n).2 ∧ CursorInv (VM.read_memory s a n).2 := by
  rcases hte : MMU.translate_address s a false with ⟨r, s1⟩
  have hS1 : SInv s1 := by
    have h := SInv_translate s a false hS hT hSA
    rw [hte] at h
    exact h
  have hn1 : s1.next_virtual_addr = s.next_virtual_addr := by
    have h := translate_next s a false
    rw [hte] at h
    exact h
  have hC1 : CursorInv s1 := by
    refine ⟨by rw [hn1]; exact hC.1, ?_⟩
    intro e he
    rw [hn1]
    have h := KeysBelow_translate (fun e2 he2 => hC.2 e2 he2) a false
    rw [hte] at h
    exact h e he
  have hEQ : (VM.read_memory s a n).2 = s1 := by
    cases r with
    | none => simp [VM.read_memory, hte]
    | some p =>
      rcases p with ⟨frame, off⟩
      simp [VM.read_memory, hte]
  rw [hEQ]
  exact ⟨hS1, hC1⟩

/-- SInv and CursorInv are preserved by every VirtualMemorySystem-level
    operation under the time and swap-slot guards. -/
theorem SCInv_execV (s : Sys) (op : VMOp) (hS : SInv s) (hC : CursorInv s)
    (hT : TimeOK s) (hSA : SlotAvail s) :
    SInv (execV s op) ∧ CursorInv (execV s op) := by
  cases op with
  | mmapA l fd off => exact SCInv_mmap hS hC l fd off
  | munmapA a l => exact SCInv_munmap hS hC a l
  | writeA a d => exact SCInv_write hS hC hT hSA a d
  | readA a n => exact SCInv_read hS hC hT hSA a n

/-- SInv and CursorInv hold at the end of every guarded trace. -/
theorem SCInv_safeTrace (v : Nat) : ∀ (ops : List VMOp) (s : Sys),
    SInv s → CursorInv s → SafeTrace v s ops →
    SInv (execVList s ops) ∧ CursorInv (execVList s ops) := by
  intro ops
  induction ops with
  | nil => intro s hS hC _; exact ⟨hS, hC⟩
  | cons op rest ih =>
    intro s hS hC hsafe
    obtain ⟨⟨hT, hSA, _⟩, hrest⟩ := hsafe
    obtain ⟨hS1, hC1⟩ := SCInv_execV s op hS hC hT hSA
    exact ih (execV s op) hS1 hC1 hrest

/-- The evict-success state clears the victim's entry. -/
theorem evictVictim_entry (s : Sys) (vf v : Nat) (meta : PageMetadata) :
    ∃ m2, (MMU.evictVictim s vf v meta).page_table = ptSet s.page_table v m2 ∧
      m2.present = false :=
  ⟨_, rfl, rfl⟩

/-- C3: under the strong invariant with clock headroom, (a) if a present
    entry's last_access is strictly below every other present entry's,
    MMU::evict_page selects exactly that entry: RAM::find_lru_page
    returns its frame, the eviction clears it (present := false); (b)
    whenever find_lru_page returns a frame at all, that frame's owner is
    a present entry whose last_access is minimal over all present
    entries, and every lower-numbered occupied frame has a strictly
    larger timestamp (first-frame tie-break in iteration order); (c)
    after re-accessing the minimal entry through translate_address, its
    frame is no longer the one find_lru_page returns, provided any other
    present entry exists. -/
theorem c3_lru_eviction (s : Sys) (hS : SInv s) (hT : TimeOK s) :
    (∀ vStar mStar, ptGet s.page_table vStar = some mStar →
       mStar.present = true →
       (∀ e ∈ s.page_table, e.2.present = true → e.1 ≠ vStar →
          mStar.last_access < e.2.last_access) →
       s.ram.find_lru_page s.page_table = mStar.physical_page ∧
       MMU.evict_page s =
         (mStar.physical_page,
          MMU.evictVictim s mStar.physical_page vStar mStar) ∧
       (∀ m2, ptGet (MMU.evict_page s).2.page_table vStar = some m2 →
          m2.present = false)) ∧
    (s.ram.find_lru_page s.page_table ≠ NO_FRAME →
       ∃ vb mb,
         s.ram.frame_to_page.getD (s.ram.find_lru_page s.page_table) none
           = some vb ∧
         ptGet s.page_table vb = some mb ∧ mb.present = true ∧
         mb.physical_page = s.ram.find_lru_page s.page_table ∧
         (∀ e ∈ s.page_table, e.2.present = true →
            mb.last_access ≤ e.2.last_access) ∧
         (∀ j, j < s.ram.find_lru_page s.page_table → ∀ u m,
            s.ram.frame_to_page.getD j none = some u →
            ptGet s.page_table u = some m →
            mb.last_access < m.last_access)) ∧
    (∀ vStar mStar w mw (wacc : Bool),
       ptGet s.page_table vStar = some mStar → mStar.present = true →
       ptGet s.page_table w = some mw → mw.present = true → w ≠ vStar →
       (MMU.translate_address s (vStar * PAGE_SIZE) wacc).2.ram.find_lru_page
         (MMU.translate_address s (vStar * PAGE_SIZE) wacc).2.page_table
         ≠ mStar.physical_page) := by
  obtain ⟨hW, hsl, hss, hdl, hbr, hps, hfbs, htb, hfo, hfn, hsv, hsu, hso⟩ := hS
  have hnd := hW.2.1
  have hflen : s.ram.frame_to_page.length = NUM_FRAMES := hW.1.2.1
  refine ⟨?_, ?_, ?_⟩
  · -- (a) the strict minimum is the victim
    intro vStar mStar hpte hp hstrict
    have hmemv : (vStar, mStar) ∈ s.page_table := mem_of_assocGet hpte
    obtain ⟨g1, g2, g3⟩ := hW.2.2 (vStar, mStar) hmemv hp
    have hcand : lruCand s.ram s.page_table mStar.physical_page = some mStar :=
      lruCand_eq g2 g3 hpte
    have hlast : mStar.last_access < UINT64_MAX :=
      lt_of_le_of_lt (htb (vStar, mStar) hmemv) hT
    have huniq : ∀ j < NUM_FRAMES, ∀ m,
        lruCand s.ram s.page_table j = some m → j ≠ mStar.physical_page →
        mStar.last_access < m.last_access := by
      intro j hj m hc hjne
      obtain ⟨hbj, u, hfj, hpu⟩ := lruCand_some hc
      obtain ⟨m', hm', hm'p, hm'i⟩ := hfo j hj u hfj
      have hmm : m' = m := Option.some_inj.mp (hm'.symm.trans hpu)
      subst hmm
      have hune : u ≠ vStar := by
        intro hq
        subst hq
        have := Option.some_inj.mp (hpu.symm.trans hpte)
        subst this
        exact hjne hm'i.symm
      exact hstrict (u, m') (mem_of_assocGet hpu) hm'p hune
    have hflr : s.ram.find_lru_page s.page_table = mStar.physical_page :=
      find_lru_unique hflen g1 hcand hlast huniq
    have hgm : s.ram.get_page_metadata mStar.physical_page = some vStar := by
      unfold RAM.get_page_metadata
      rw [if_pos (by rw [hflen]; exact g1)]
      exact g3
    have hnf : mStar.physical_page ≠ NO_FRAME := fun h =>
      no_frame_ge (h ▸ g1)
    have hev : MMU.evict_page s =
        (mStar.physical_page,
         MMU.evictVictim s mStar.physical_page vStar mStar) := by
      unfold MMU.evict_page
      rw [hflr]
      rw [if_neg hnf, hgm]
      simp [hpte]
    refine ⟨hflr, hev, ?_⟩
    intro m2 hm2
    rw [hev] at hm2
    obtain ⟨m3, hm3, hm3p⟩ :=
      evictVictim_entry s mStar.physical_page vStar mStar
    rw [hm3] at hm2
    have := Option.some_inj.mp ((assocGet_set_self s.page_table vStar m3).symm.trans hm2)
    rw [← this]
    exact hm3p
  · -- (b) first-frame minimality of the returned victim
    intro hne
    obtain ⟨mb, hmb, hfk, _, hmin, hfirst⟩ := find_lru_found hflen hne
    obtain ⟨hbvf, vb, hfvf, hptb⟩ := lruCand_some hmb
    obtain ⟨mb', hmb', hmb'p, hmb'i⟩ := hfo _ hfk vb hfvf
    have hmm : mb' = mb := Option.some_inj.mp (hmb'.symm.trans hptb)
    subst hmm
    refine ⟨vb, mb', hfvf, hptb, hmb'p, hmb'i, ?_, ?_⟩
    · intro e he hep
      obtain ⟨f1, f2, f3⟩ := hW.2.2 e he hep
      have hce : lruCand s.ram s.page_table e.2.physical_page = some e.2 :=
        lruCand_eq f2 f3 (by
          have := assocGet_of_mem hnd ((Prod.mk.eta (p := e)).symm ▸ he)
          exact this)
      exact hmin e.2.physical_page f1 e.2 hce
    · intro j hj u m hfj hpm
      obtain ⟨m', hm', hm'p, hm'i⟩ := hfo j
        (Nat.lt_trans hj hfk) u hfj
      have hmm2 : m' = m := Option.some_inj.mp (hm'.symm.trans hpm)
      subst hmm2
      obtain ⟨f1, f2, f3⟩ := hW.2.2 (u, m') (mem_of_assocGet hpm) hm'p
      have hce : lruCand s.ram s.page_table j = some m' := by
        rw [← hm'i]
        exact lruCand_eq f2 f3 hpm
      exact hfirst j hj m' hce
  · -- (c) a re-accessed entry is no longer the chosen victim
    intro vStar mStar w mw wacc hpte hp hw hwp hne
    have hdiv : vStar * PAGE_SIZE / PAGE_SIZE = vStar :=
      Nat.mul_div_cancel _ (by decide : 0 < PAGE_SIZE)
    have hpte' : ptGet s.page_table (vStar * PAGE_SIZE / PAGE_SIZE)
        = some mStar := by rw [hdiv]; exact hpte
    rw [translate_present hpte' hp]
    have hmemv : (vStar, mStar) ∈ s.page_table := mem_of_assocGet hpte
    obtain ⟨g1, g2, g3⟩ := hW.2.2 (vStar, mStar) hmemv hp
    obtain ⟨f1, f2, f3⟩ := hW.2.2 (w, mw) (mem_of_assocGet hw) hwp
    show s.ram.find_lru_page (ptSet s.page_table (vStar * PAGE_SIZE / PAGE_SIZE) { mStar with last_access := s.current_time + 1, accessed := true, dirty := mStar.dirty || wacc }) ≠ mStar.physical_page
    generalize hMn : ({ mStar with last_access := s.current_time + 1, accessed := true, dirty := mStar.dirty || wacc } : PageMetadata) = mNew
    have hMl : mNew.last_access = s.current_time + 1 := by rw [← hMn]
    intro hq
    have hnf : s.ram.find_lru_page (ptSet s.page_table
        (vStar * PAGE_SIZE / PAGE_SIZE) mNew) ≠ NO_FRAME := by
      rw [hq]
      exact fun h => no_frame_ge (h ▸ g1)
    obtain ⟨mb, hmb, hfk, _, hmin, _⟩ := find_lru_found hflen hnf
    rw [hq] at hmb
    have hcand : lruCand s.ram (ptSet s.page_table
        (vStar * PAGE_SIZE / PAGE_SIZE) mNew) mStar.physical_page
        = some mNew := by
      refine lruCand_eq g2 g3 ?_
      rw [hdiv]
      exact assocGet_set_self _ _ _
    have hmbeq : mb = mNew := Option.some_inj.mp (hmb.symm.trans hcand)
    have hcw : lruCand s.ram (ptSet s.page_table
        (vStar * PAGE_SIZE / PAGE_SIZE) mNew) mw.physical_page
        = some mw := by
      refine lruCand_eq f2 f3 ?_
      rw [hdiv]
      show assocGet (assocSet s.page_table vStar mNew) w = some mw
      rw [assocGet_set_ne _ _ _ _ (fun h => hne h.symm)]
      exact hw
    have h1 := hmin mw.physical_page f1 mw hcw
    have h2 : mw.last_access ≤ s.current_time :=
      htb (w, mw) (mem_of_assocGet hw)
    rw [hmbeq, hMl] at h1
    omega

/-- MMU::evict_page write-back for an anonymous victim when every swap
    slot is taken: SwapSpace::allocate_slot returns (uint32_t)-1, the
    unchecked result is used as the slot, and SwapSpace::write_page's
    silent bounds check drops the page content; the entry still gets
    swapped := true with the out-of-range slot. -/
theorem evictVictim_anon_noslot {s : Sys} {vf v : Nat} {meta : PageMetadata}
    (hsw : meta.swapped = false) (hfb : meta.file_backed = false)
    (hj : firstFree s.swap_space.allocated_slots = none)
    (hlen : s.swap_space.allocated_slots.length = NUM_SLOTS) :
    MMU.evictVictim s vf v meta =
      { s with
          page_table := ptSet s.page_table v { meta with present := false, dirty := false, physical_page := 0, swapped := true, swap_slot := NO_SLOT },
          ram := s.ram.free_page vf,
          swap_space :=
            { s.swap_space with log := s.swap_space.log ++ [NO_SLOT] } } := by
  have hns : ¬(NO_SLOT < s.swap_space.allocated_slots.length) := by
    rw [hlen]; decide
  by_cases hd : meta.dirty <;>
    simp [MMU.evictVictim, MMU.evictWriteBack, hsw, hfb, hd,
      SwapSpace.allocate_slot, hj, SwapSpace.write_page, hns]

/-- C4: write-back behaviour of MMU::evict_page on a non-swapped victim.
    (a) A dirty file-backed victim causes exactly one Disk::write_page
    call, at its configured disk_page, and no swap write; (b) a clean
    file-backed victim causes no write at all; (c) an anonymous victim
    (dirty or clean) with a free slot available is written to a freshly
    allocated swap slot which then holds the frame's content, so the
    page is reconstructible; (d) but when every slot is allocated,
    SwapSpace::allocate_slot returns NO_SLOT, the unchecked result is
    used as the slot, SwapSpace::write_page silently drops the copy, and
    the entry is still marked swapped at the out-of-range slot NO_SLOT —
    the evicted page's content is stored nowhere.  The ghost `log`
    fields record every write_page call.  (e) The failed allocation is
    reachable: the c4trace run from the initial state produces an entry
    swapped at NO_SLOT with a full bitmap. -/
theorem c4_evict_writeback :
    (∀ (s : Sys) (vf v : Nat) (meta : PageMetadata),
       meta.swapped = false → meta.file_backed = true → meta.dirty = true →
       (MMU.evictVictim s vf v meta).disk.log
         = s.disk.log ++ [meta.disk_page] ∧
       (MMU.evictVictim s vf v meta).swap_space.log = s.swap_space.log) ∧
    (∀ (s : Sys) (vf v : Nat) (meta : PageMetadata),
       meta.swapped = false → meta.file_backed = true → meta.dirty = false →
       (MMU.evictVictim s vf v meta).disk.log = s.disk.log ∧
       (MMU.evictVictim s vf v meta).swap_space.log = s.swap_space.log) ∧
    (∀ (s : Sys) (vf v : Nat) (meta : PageMetadata) (j : Nat),
       meta.swapped = false → meta.file_backed = false →
       firstFree s.swap_space.allocated_slots = some j →
       s.swap_space.swap_storage.length = NUM_SLOTS →
       s.swap_space.allocated_slots.length = NUM_SLOTS →
       (MMU.evictVictim s vf v meta).swap_space.log
         = s.swap_space.log ++ [j] ∧
       (MMU.evictVictim s vf v meta).swap_space.swap_storage.getD j zeroPage
         = s.ram.read_page vf uninitPage ∧
       (MMU.evictVictim s vf v meta).swap_space.allocated_slots.getD j false
         = true ∧
       ptGet (MMU.evictVictim s vf v meta).page_table v
         = some { meta with present := false, dirty := false, physical_page := 0, swapped := true, swap_slot := j } ∧
       (MMU.evictVictim s vf v meta).disk.log = s.disk.log) ∧
    (∀ (s : Sys) (vf v : Nat) (meta : PageMetadata),
       meta.swapped = false → meta.file_backed = false →
       firstFree s.swap_space.allocated_slots = none →
       s.swap_space.allocated_slots.length = NUM_SLOTS →
       (MMU.evictVictim s vf v meta).swap_space.swap_storage
         = s.swap_space.swap_storage ∧
       (MMU.evictVictim s vf v meta).swap_space.allocated_slots
         = s.swap_space.allocated_slots ∧
       ptGet (MMU.evictVictim s vf v meta).page_table v
         = some { meta with present := false, dirty := false, physical_page := 0, swapped := true, swap_slot := NO_SLOT } ∧
       ¬(NO_SLOT < NUM_SLOTS)) ∧
    (∃ e ∈ (execMList initSys c4trace).page_table,
       e.2.swapped = true ∧ e.2.swap_slot = NO_SLOT ∧
       firstFree (execMList initSys c4trace).swap_space.allocated_slots
         = none) := by
  refine ⟨?_, ?_, ?_, ?_, ?_⟩
  · intro s vf v meta hsw hfb hd
    rw [evictVictim_fb hsw hfb]
    constructor
    · show (if meta.dirty then
          s.disk.write_page meta.disk_page (s.ram.read_page vf uninitPage)
        else s.disk).log = s.disk.log ++ [meta.disk_page]
      rw [if_pos (by rw [hd])]
      unfold Disk.write_page
      split <;> rfl
    · rfl
  · intro s vf v meta hsw hfb hd
    rw [evictVictim_fb hsw hfb]
    constructor
    · show (if meta.dirty then
          s.disk.write_page meta.disk_page (s.ram.read_page vf uninitPage)
        else s.disk).log = s.disk.log
      rw [if_neg (by rw [hd]; simp)]
    · rfl
  · intro s vf v meta j hsw hfb hj hlen1 hlen2
    have hjl : j < s.swap_space.allocated_slots.length := (firstFree_some hj).1
    have hjs : j < s.swap_space.swap_storage.length := by
      rw [hlen1, ← hlen2]; exact hjl
    rw [evictVictim_anon hsw hfb hj hjl]
    refine ⟨rfl, ?_, ?_, ?_, rfl⟩
    · exact getD_set_self _ _ _ _ hjs
    · show (s.swap_space.allocated_slots.set j true).getD j false = true
      exact getD_set_self _ _ _ _ hjl
    · exact assocGet_set_self _ _ _
  · intro s vf v meta hsw hfb hj hlen
    rw [evictVictim_anon_noslot hsw hfb hj hlen]
    exact ⟨rfl, rfl, assocGet_set_self _ _ _, by decide⟩
  · decide

/-- Witness for C4: the four write-back shapes at concrete states. -/
theorem c4_evict_writeback_witness :
    (MMU.evictVictim initSys 0 5 { PageMetadata.init with file_backed := true, dirty := true }).disk.log = initSys.disk.log ++ [0] ∧
    (MMU.evictVictim initSys 0 5 { PageMetadata.init with file_backed := true }).disk.log = initSys.disk.log ∧
    (MMU.evictVictim initSys 0 5 PageMetadata.init).swap_space.log = initSys.swap_space.log ++ [0] ∧
    (MMU.evictVictim c4full 0 5 PageMetadata.init).swap_space.swap_storage = c4full.swap_space.swap_storage := by
  refine ⟨?_, ?_, ?_, ?_⟩
  · exact (c4_evict_writeback.1 initSys 0 5 _ rfl rfl rfl).1
  · exact (c4_evict_writeback.2.1 initSys 0 5 _ rfl rfl rfl).1
  · exact (c4_evict_writeback.2.2.1 initSys 0 5 PageMetadata.init 0 rfl rfl
      (by decide) (by decide) (by decide)).1
  · exact (c4_evict_writeback.2.2.2.1 c4full 0 5 PageMetadata.init rfl rfl
      (by decide) (by decide)).1

/-- Witness for C3: in the c3ops state, page 0 (oldest access) is the
    LRU victim, and after re-accessing it, its frame is no longer
    chosen. -/
theorem c3_lru_eviction_witness :
    c3s.ram.find_lru_page c3s.page_table
      = ((ptGet c3s.page_table 0).getD PageMetadata.init).physical_page ∧
    (MMU.translate_address c3s 0 false).2.ram.find_lru_page
        (MMU.translate_address c3s 0 false).2.page_table
      ≠ ((ptGet c3s.page_table 0).getD PageMetadata.init).physical_page := by
  constructor
  · exact ((c3_lru_eviction c3s (by decide) (by decide)).1 0
      ((ptGet c3s.page_table 0).getD PageMetadata.init) (by decide) (by decide)
      (by decide)).1
  · exact ((c3_lru_eviction c3s (by decide) (by decide)).2.2 0
      ((ptGet c3s.page_table 0).getD PageMetadata.init) 1
      ((ptGet c3s.page_table 1).getD PageMetadata.init) false
      (by decide) (by decide) (by decide) (by decide) (by decide))

/-- The initial state satisfies the strong invariant. -/
theorem SInv_initSys : SInv initSys := by decide

/-- SInv is preserved by every guarded MMU-level operation. -/
theorem SInv_execM_safe (s : Sys) (op : MMUOp) (hS : SInv s)
    (hsafe : SafeMStep s op) : SInv (execM s op) := by
  obtain ⟨hT, hSA, hextra⟩ := hsafe
  cases op with
  | mapPages a n fb ds => exact SInv_mapLoop n s a fb ds hS hextra
  | translateA a w => exact SInv_translate s a w hS hT hSA
  | evictA => exact SInv_evict_page s hS hSA
  | unmapPages a n => exact SInv_unmapLoop n s a hS

/-- SInv holds after every guarded MMU-level trace. -/
theorem SInv_safeMTrace : ∀ (ops : List MMUOp) (s : Sys), SInv s →
    SafeMTrace s ops → SInv (execMList s ops) := by
  intro ops
  induction ops with
  | nil => intro s h _; exact h
  | cons op rest ih =>
    intro s h hsafe
    exact ih _ (SInv_execM_safe s op h hsafe.1) hsafe.2

/-- The load phase of a fault on a swapped-out page: read the slot,
    free it, install the page. -/
theorem alloc_load_swapped {s : Sys} {vpn : Nat} {pte0 : PageMetadata}
    {i : Nat}
    (hpte : ptGet s.page_table vpn = some pte0) (hsw : pte0.swapped = true)
    (hil : i < s.ram.allocated.length) :
    MMU.loadAndFinish { s with ram := { s.ram with allocated := s.ram.allocated.set i true, frame_to_page := s.ram.frame_to_page.set i (some vpn) } } vpn i
      = (true, { s with page_table := ptSet s.page_table vpn { pte0 with swapped := false, physical_page := i, present := true, last_access := s.current_time + 1 }, ram := { memory := s.ram.memory.set i (s.swap_space.read_page pte0.swap_slot uninitPage), frame_to_page := s.ram.frame_to_page.set i (some vpn), allocated := s.ram.allocated.set i true }, swap_space := s.swap_space.free_slot pte0.swap_slot, current_time := s.current_time + 1 }) := by
  have hilA : i < (s.ram.allocated.set i true).length := by
    rw [List.length_set]; exact hil
  simp [MMU.loadAndFinish, hpte, hsw, RAM.write_page, hilA]
  intro h
  omega

/-- The load phase of a fault on a file-backed non-resident page. -/
theorem alloc_load_fb {s : Sys} {vpn : Nat} {pte0 : PageMetadata} {i : Nat}
    (hpte : ptGet s.page_table vpn = some pte0) (hsw : pte0.swapped = false)
    (hfb : pte0.file_backed = true)
    (hil : i < s.ram.allocated.length) :
    MMU.loadAndFinish { s with ram := { s.ram with allocated := s.ram.allocated.set i true, frame_to_page := s.ram.frame_to_page.set i (some vpn) } } vpn i
      = (true, { s with page_table := ptSet s.page_table vpn { pte0 with physical_page := i, present := true, last_access := s.current_time + 1 }, ram := { memory := s.ram.memory.set i (s.disk.read_page pte0.disk_page uninitPage), frame_to_page := s.ram.frame_to_page.set i (some vpn), allocated := s.ram.allocated.set i true }, current_time := s.current_time + 1 }) := by
  have hilA : i < (s.ram.allocated.set i true).length := by
    rw [List.length_set]; exact hil
  simp [MMU.loadAndFinish, hpte, hsw, hfb, RAM.write_page, hilA]
  intro h
  omega

/-- The load phase of a fault on an anonymous never-swapped page:
    zero-fill. -/
theorem alloc_load_anon {s : Sys} {vpn : Nat} {pte0 : PageMetadata} {i : Nat}
    (hpte : ptGet s.page_table vpn = some pte0) (hsw : pte0.swapped = false)
    (hfb : pte0.file_backed = false)
    (hil : i < s.ram.allocated.length) :
    MMU.loadAndFinish { s with ram := { s.ram with allocated := s.ram.allocated.set i true, frame_to_page := s.ram.frame_to_page.set i (some vpn) } } vpn i
      = (true, { s with page_table := ptSet s.page_table vpn { pte0 with physical_page := i, present := true, last_access := s.current_time + 1 }, ram := { memory := s.ram.memory.set i zeroPage, frame_to_page := s.ram.frame_to_page.set i (some vpn), allocated := s.ram.allocated.set i true }, current_time := s.current_time + 1 }) := by
  have hilA : i < (s.ram.allocated.set i true).length := by
    rw [List.length_set]; exact hil
  simp [MMU.loadAndFinish, hpte, hsw, hfb, RAM.write_page, hilA]
  intro h
  omega

/-- Decomposition of a successful page fault under the guards: the
    fault either allocates directly (sE = s) or first evicts a present
    victim owned by a different vpn, and then runs the load phase on a
    freshly allocated frame. -/
theorem fault_effect {s : Sys} (hS : SInv s) (hT : TimeOK s)
    (hSA : SlotAvail s) {vpn : Nat} {pte0 : PageMetadata}
    (hpte : ptGet s.page_table vpn = some pte0) (hnp : pte0.present = false) :
    ∃ sE i,
      ((sE = s) ∨ ∃ vf v meta, s.ram.get_page_metadata vf = some v ∧
          ptGet s.page_table v = some meta ∧ v ≠ vpn ∧
          sE = MMU.evictVictim s vf v meta) ∧
      ptGet sE.page_table vpn = some pte0 ∧
      SInv sE ∧
      firstFree sE.ram.allocated = some i ∧
      MMU.handle_page_fault s vpn =
        MMU.loadAndFinish
          { sE with ram :=
              { sE.ram with
                  allocated := sE.ram.allocated.set i true,
                  frame_to_page := sE.ram.frame_to_page.set i (some vpn) } }
          vpn i := by
  cases hff : firstFree s.ram.allocated with
  | some i =>
    have hi8 : i < NUM_FRAMES := by rw [← hS.1.1.1]; exact (firstFree_some hff).1
    have hiNF : i ≠ NO_FRAME := fun h => no_frame_ge (h ▸ hi8)
    exact ⟨s, i, Or.inl rfl, hpte, hS, hff, fault_alloc hpte hff hiNF⟩
  | none =>
    have hSkeep := hS
    obtain ⟨hW, hsl, hss, hdl, hbr, hps, hfbs, htb, hfo, hfn, hsv, hsu, hso⟩ :=
      hSkeep
    have hflen : s.ram.frame_to_page.length = NUM_FRAMES := hW.1.2.1
    have halen : s.ram.allocated.length = NUM_FRAMES := hW.1.1
    have h08 : (0 : Nat) < NUM_FRAMES := by decide
    have hbit0 : s.ram.allocated.getD 0 false = true := by
      rw [getD_default_irrel (by rw [halen]; exact h08) false true]
      exact (getD_default_irrel (by rw [halen]; exact h08) true false) ▸
        firstFree_none hff 0 (by rw [halen]; exact h08)
    cases hf0 : s.ram.frame_to_page.getD 0 none with
    | none =>
      have hc := hfn 0 h08 hf0
      rw [hbit0] at hc
      cases hc
    | some v0 =>
      obtain ⟨m0c, hm0c, _, _⟩ := hfo 0 h08 v0 hf0
      have hcand : lruCand s.ram s.page_table 0 = some m0c :=
        lruCand_eq hbit0 hf0 hm0c
      have hlast : m0c.last_access < UINT64_MAX :=
        lt_of_le_of_lt (htb (v0, m0c) (mem_of_assocGet hm0c)) hT
      have hvfne := find_lru_success hflen h08 hcand hlast
      obtain ⟨mb, hmb, hfk, _, _, _⟩ := find_lru_found hflen hvfne
      obtain ⟨hbvf, v, hfvf, hptv⟩ := lruCand_some hmb
      have hg : s.ram.get_page_metadata (s.ram.find_lru_page s.page_table)
          = some v := by
        have hlt : s.ram.find_lru_page s.page_table
            < s.ram.frame_to_page.length := by
          rw [hflen]; exact hfk
        unfold RAM.get_page_metadata
        rw [if_pos hlt]
        exact hfvf
      have hev : MMU.evict_page s =
          (s.ram.find_lru_page s.page_table,
           MMU.evictVictim s (s.ram.find_lru_page s.page_table) v mb) := by
        simp [MMU.evict_page, hvfne, hg, hptv]
      have hSE := SInv_evictVictim hS hg hptv hSA
      have hmbp : mb.present = true := by
        obtain ⟨m2, hm2, hm2p, _⟩ :=
          hfo (s.ram.find_lru_page s.page_table) hfk v hfvf
        have := Option.some_inj.mp (hm2.symm.trans hptv)
        subst this
        exact hm2p
      have hvne : v ≠ vpn := by
        intro hq
        subst hq
        have := Option.some_inj.mp (hptv.symm.trans hpte)
        subst this
        rw [hnp] at hmbp
        cases hmbp
      obtain ⟨meta2, hptE⟩ := evictVictim_page_table s
        (s.ram.find_lru_page s.page_table) v mb
      have hptesE : ptGet (MMU.evictVictim s
          (s.ram.find_lru_page s.page_table) v mb).page_table vpn
          = some pte0 := by
        rw [hptE]
        show assocGet (assocSet s.page_table v meta2) vpn = some pte0
        rw [assocGet_set_ne _ _ _ _ hvne]
        exact hpte
      have hramE : (MMU.evictVictim s
          (s.ram.find_lru_page s.page_table) v mb).ram
          = s.ram.free_page (s.ram.find_lru_page s.page_table) := rfl
      have hvfaS : s.ram.find_lru_page s.page_table
          < s.ram.allocated.length := by
        rw [halen]; exact hfk
      have hfreeS : s.ram.free_page (s.ram.find_lru_page s.page_table) =
          { s.ram with
              allocated := s.ram.allocated.set
                (s.ram.find_lru_page s.page_table) false,
              frame_to_page := s.ram.frame_to_page.set
                (s.ram.find_lru_page s.page_table) none } := by
        simp [RAM.free_page, hvfaS]
      have hbitE : (MMU.evictVictim s
          (s.ram.find_lru_page s.page_table) v mb).ram.allocated.getD
          (s.ram.find_lru_page s.page_table) false = false := by
        rw [hramE, hfreeS]
        exact getD_set_self _ _ _ _ hvfaS
      have hf2pE : (MMU.evictVictim s
          (s.ram.find_lru_page s.page_table) v mb).ram.frame_to_page.getD
          (s.ram.find_lru_page s.page_table) none = none := by
        rw [hramE, hfreeS]
        exact getD_set_self _ _ _ _ (by rw [hflen]; exact hfk)
      have hvfaE : s.ram.find_lru_page s.page_table
          < (MMU.evictVictim s
              (s.ram.find_lru_page s.page_table) v mb).ram.allocated.length := by
        rw [hSE.1.1.1]; exact hfk
      have hvfaF : s.ram.find_lru_page s.page_table
          < (MMU.evictVictim s
              (s.ram.find_lru_page s.page_table)
              v mb).ram.frame_to_page.length := by
        rw [hSE.1.1.2.1]; exact hfk
      have hramF : (MMU.evictVictim s
          (s.ram.find_lru_page s.page_table) v mb).ram.free_page
            (s.ram.find_lru_page s.page_table)
          = (MMU.evictVictim s (s.ram.find_lru_page s.page_table) v mb).ram := by
        simp [RAM.free_page, hvfaE,
          set_getD_eq_self _ _ _ _ hvfaE hbitE,
          set_getD_eq_self _ _ _ _ hvfaF hf2pE]
      obtain ⟨j, hj⟩ := firstFree_isSome hvfaE hbitE
      have halloc : ((MMU.evictVictim s
          (s.ram.find_lru_page s.page_table) v mb).ram.free_page
            (s.ram.find_lru_page s.page_table)).allocate_page (some vpn)
          = (j, { (MMU.evictVictim s
                (s.ram.find_lru_page s.page_table) v mb).ram with
              allocated := (MMU.evictVictim s
                (s.ram.find_lru_page s.page_table)
                v mb).ram.allocated.set j true,
              frame_to_page := (MMU.evictVictim s
                (s.ram.find_lru_page s.page_table)
                v mb).ram.frame_to_page.set j (some vpn) }) := by
        rw [hramF]
        exact RAM.allocate_page_some _ _ _ hj
      exact ⟨MMU.evictVictim s (s.ram.find_lru_page s.page_table) v mb, j,
        Or.inr ⟨s.ram.find_lru_page s.page_table, v, mb, hg, hptv, hvne, rfl⟩,
        hptesE, hSE, hj, fault_evict hpte hff hev hvfne halloc⟩

/-- C6 counterexample: MMU::map_pages on an already-mapped page silently
    overwrites the entry, so a page can leave the swapped state without
    its slot being released: after c6trace, swap slot 0 is still
    allocated while no page-table entry is swapped at all. -/
theorem c6_counterexample :
    (execMList initSys c6trace).swap_space.allocated_slots.getD 0 false = true
    ∧ ∀ e ∈ (execMList initSys c6trace).page_table, e.2.swapped = false := by
  decide

/-- C6 (amended): along remap-free guarded MMU traces from the initial
    state, (a) every swapped entry owns a valid allocated slot, no two
    swapped entries share a slot, and every allocated slot is owned by a
    swapped entry; (b) a page fault on a swapped entry succeeds, makes
    the entry present and non-swapped, and releases its slot; (c)
    unmapping a swapped entry erases it and releases its slot. -/
theorem c6_swap_slot_ownership :
    (∀ ops : List MMUOp, SafeMTrace initSys ops →
       (∀ e ∈ (execMList initSys ops).page_table, e.2.swapped = true →
          e.2.swap_slot < NUM_SLOTS ∧
          (execMList initSys ops).swap_space.allocated_slots.getD
            e.2.swap_slot false = true) ∧
       (∀ e ∈ (execMList initSys ops).page_table,
          ∀ f ∈ (execMList initSys ops).page_table, e.1 ≠ f.1 →
          e.2.swapped = true → f.2.swapped = true →
          e.2.swap_slot ≠ f.2.swap_slot) ∧
       (∀ j < NUM_SLOTS,
          (execMList initSys ops).swap_space.allocated_slots.getD j false
            = true →
          ∃ e ∈ (execMList initSys ops).page_table,
            e.2.swapped = true ∧ e.2.swap_slot = j)) ∧
    (∀ (s : Sys) (vpn : Nat) (m : PageMetadata), SInv s → TimeOK s →
       SlotAvail s → ptGet s.page_table vpn = some m → m.swapped = true →
       (MMU.handle_page_fault s vpn).1 = true ∧
       (∃ m2, ptGet (MMU.handle_page_fault s vpn).2.page_table vpn
           = some m2 ∧ m2.present = true ∧ m2.swapped = false) ∧
       (MMU.handle_page_fault s vpn).2.swap_space.allocated_slots.getD
         m.swap_slot false = false) ∧
    (∀ (s : Sys) (vp : Nat) (m : PageMetadata), SInv s →
       ptGet s.page_table vp = some m → m.swapped = true →
       ptGet (MMU.unmapOne s vp).page_table vp = none ∧
       (MMU.unmapOne s vp).swap_space.allocated_slots.getD
         m.swap_slot false = false) := by
  refine ⟨?_, ?_, ?_⟩
  · intro ops hsafe
    have hS := SInv_safeMTrace ops initSys SInv_initSys hsafe
    obtain ⟨hW, hsl, hss, hdl, hbr, hps, hfbs, htb, hfo, hfn, hsv, hsu, hso⟩ :=
      hS
    exact ⟨hsv, hsu, hso⟩
  · intro s vpn m hS hT hSA hpte hsw
    have hmemv : (vpn, m) ∈ s.page_table := mem_of_assocGet hpte
    have hnp : m.present = false := by
      cases hq : m.present
      · rfl
      · exact absurd ⟨hq, hsw⟩ (hS.2.2.2.2.2.1 (vpn, m) hmemv)
    obtain ⟨sE, i, hcase, hpteE, hSE, hff, hEQ⟩ :=
      fault_effect hS hT hSA hpte hnp
    have hil : i < sE.ram.allocated.length := (firstFree_some hff).1
    rw [hEQ, alloc_load_swapped hpteE hsw hil]
    have hmemE : (vpn, m) ∈ sE.page_table := mem_of_assocGet hpteE
    obtain ⟨hslt, _⟩ := hSE.2.2.2.2.2.2.2.2.2.2.1 (vpn, m) hmemE hsw
    have hsll : m.swap_slot < sE.swap_space.allocated_slots.length := by
      rw [hSE.2.1]; exact hslt
    have hfs_eq : sE.swap_space.free_slot m.swap_slot =
        { sE.swap_space with allocated_slots :=
            sE.swap_space.allocated_slots.set m.swap_slot false } := by
      simp [SwapSpace.free_slot, hsll]
    refine ⟨rfl, ⟨_, assocGet_set_self _ _ _, rfl, rfl⟩, ?_⟩
    show (sE.swap_space.free_slot m.swap_slot).allocated_slots.getD
      m.swap_slot false = false
    rw [hfs_eq]
    exact getD_set_self _ _ _ _ hsll
  · intro s vp m hS hpte hsw
    have hmemv : (vp, m) ∈ s.page_table := mem_of_assocGet hpte
    have hnp : m.present = false := by
      cases hq : m.present
      · rfl
      · exact absurd ⟨hq, hsw⟩ (hS.2.2.2.2.2.1 (vp, m) hmemv)
    obtain ⟨hslt, _⟩ := hS.2.2.2.2.2.2.2.2.2.2.1 (vp, m) hmemv hsw
    have hsll : m.swap_slot < s.swap_space.allocated_slots.length := by
      rw [hS.2.1]; exact hslt
    have hfs_eq : s.swap_space.free_slot m.swap_slot =
        { s.swap_space with allocated_slots :=
            s.swap_space.allocated_slots.set m.swap_slot false } := by
      simp [SwapSpace.free_slot, hsll]
    rw [unmapOne_absent hpte hnp]
    simp only [hsw, eq_self_iff_true, if_true]
    constructor
    · exact assocGet_erase_self _ _ hS.1.2.1
    · show (s.swap_space.free_slot m.swap_slot).allocated_slots.getD
        m.swap_slot false = false
      rw [hfs_eq]
      exact getD_set_self _ _ _ _ hsll

/-- Witness for C6: after the c6safe trace, every allocated slot has a
    swapped owner; faulting the swapped page 0 back in succeeds and
    releases its slot; unmapping it also releases its slot. -/
theorem c6_swap_slot_ownership_witness :
    (∀ j < NUM_SLOTS,
       (execMList initSys c6safe).swap_space.allocated_slots.getD j false
         = true →
       ∃ e ∈ (execMList initSys c6safe).page_table,
         e.2.swapped = true ∧ e.2.swap_slot = j) ∧
    (MMU.handle_page_fault (execMList initSys c6safe) 0).1 = true ∧
    (MMU.handle_page_fault
        (execMList initSys c6safe) 0).2.swap_space.allocated_slots.getD
      ((ptGet (execMList initSys c6safe).page_table 0).getD
        PageMetadata.init).swap_slot false = false ∧
    (MMU.unmapOne (execMList initSys c6safe) 0).swap_space.allocated_slots.getD
      ((ptGet (execMList initSys c6safe).page_table 0).getD
        PageMetadata.init).swap_slot false = false := by
  refine ⟨?_, ?_, ?_, ?_⟩
  · exact (c6_swap_slot_ownership.1 c6safe (by decide)).2.2
  · exact (c6_swap_slot_ownership.2.1 (execMList initSys c6safe) 0
      ((ptGet (execMList initSys c6safe).page_table 0).getD PageMetadata.init)
      (by decide) (by decide) (by decide) (by decide) (by decide)).1
  · exact (c6_swap_slot_ownership.2.1 (execMList initSys c6safe) 0
      ((ptGet (execMList initSys c6safe).page_table 0).getD PageMetadata.init)
      (by decide) (by decide) (by decide) (by decide) (by decide)).2.2
  · exact (c6_swap_slot_ownership.2.2 (execMList initSys c6safe) 0
      ((ptGet (execMList initSys c6safe).page_table 0).getD PageMetadata.init)
      (by decide) (by decide) (by decide)).2

/-- Reading back the bytes just written into a page. -/
theorem pageRead_pageWrite (P : Page) (off : Nat) (data : List Nat)
    (hoff : off ≤ P.length) :
    pageRead (pageWrite P off data) off data.length = data := by
  unfold pageRead pageWrite
  have h1 : (P.take off).length = off := by
    rw [List.length_take]
    omega
  rw [List.append_assoc, List.drop_left' h1, List.take_left' rfl]

/-- Keys below the mapped range are untouched by the map_pages loop. -/
theorem mapLoop_lookup_lt (n : Nat) : ∀ (s : Sys) (a : Nat) (fb : Bool)
    (ds u : Nat), u < a →
    ptGet (MMU.mapLoop s a n fb ds).page_table u = ptGet s.page_table u := by
  induction n with
  | zero => intro s a fb ds u _; rfl
  | succ k ih =>
    intro s a fb ds u hu
    rw [show MMU.mapLoop s a (k + 1) fb ds = MMU.mapLoop { s with page_table := ptSet s.page_table a { PageMetadata.init with file_backed := fb, virtual_page := a, disk_page := if fb then ds else 0 } } (a + 1) k fb (ds + 1) from rfl]
    rw [ih _ (a + 1) fb (ds + 1) u (by omega)]
    show assocGet (assocSet s.page_table a { PageMetadata.init with file_backed := fb, virtual_page := a, disk_page := if fb then ds else 0 }) u = assocGet s.page_table u
    rw [assocGet_set_ne _ _ _ _ (by omega)]

/-- The first page mapped by the loop. -/
theorem mapLoop_first (n : Nat) (hn : 0 < n) (s : Sys) (a : Nat) (fb : Bool)
    (ds : Nat) :
    ptGet (MMU.mapLoop s a n fb ds).page_table a =
      some { PageMetadata.init with file_backed := fb, virtual_page := a, disk_page := if fb then ds else 0 } := by
  cases n with
  | zero => cases hn
  | succ k =>
    show ptGet (MMU.mapLoop _ (a + 1) k fb (ds + 1)).page_table a = _
    rw [mapLoop_lookup_lt k _ (a + 1) fb (ds + 1) a (by omega)]
    exact assocGet_set_self _ _ _

/-- The map_pages loop leaves the clock, the swap space, the disk and
    the RAM untouched. -/
theorem mapLoop_frame (n : Nat) : ∀ (s : Sys) (a : Nat) (fb : Bool)
    (ds : Nat),
    (MMU.mapLoop s a n fb ds).current_time = s.current_time ∧
    (MMU.mapLoop s a n fb ds).swap_space = s.swap_space ∧
    (MMU.mapLoop s a n fb ds).ram = s.ram ∧
    (MMU.mapLoop s a n fb ds).disk = s.disk := by
  induction n with
  | zero => intro s a fb ds; exact ⟨rfl, rfl, rfl, rfl⟩
  | succ k ih => intro s a fb ds; exact ih _ (a + 1) fb (ds + 1)

/-- VirtualMemorySystem::mmap with fd = -1: anonymous mapping at the
    cursor. -/
theorem mmap_anon_eq (s : Sys) (l : Nat) (off : Nat) :
    VM.mmap s l (-1) off =
      (some s.next_virtual_addr,
       { MMU.mapLoop s (s.next_virtual_addr / PAGE_SIZE)
           ((l + PAGE_SIZE - 1) / PAGE_SIZE) false 0 with
         next_virtual_addr := s.next_virtual_addr +
           ((l + PAGE_SIZE - 1) / PAGE_SIZE) * PAGE_SIZE }) := rfl

/-- VirtualMemorySystem::read_memory does not change the state beyond
    what translate_address does. -/
theorem read_memory_snd (s : Sys) (a n : Nat) :
    (VM.read_memory s a n).2 = (MMU.translate_address s a false).2 := by
  rcases hte : MMU.translate_address s a false with ⟨r, s1⟩
  cases r with
  | none => simp [VM.read_memory, hte]
  | some p =>
    rcases p with ⟨f, off⟩
    simp [VM.read_memory, hte]

/-- The entry installed by a successful page fault is present. -/
theorem fault_entry {s : Sys} (hS : SInv s) (hT : TimeOK s) (hSA : SlotAvail s)
    {vpn : Nat} {pte0 : PageMetadata}
    (hpte : ptGet s.page_table vpn = some pte0) (hnp : pte0.present = false) :
    ∃ m2, ptGet (MMU.handle_page_fault s vpn).2.page_table vpn = some m2 ∧
      m2.present = true := by
  obtain ⟨sE, i, _, hpteE, hSE, hff, hEQ⟩ := fault_effect hS hT hSA hpte hnp
  have hil : i < sE.ram.allocated.length := (firstFree_some hff).1
  by_cases hswq : pte0.swapped
  · rw [hEQ, alloc_load_swapped hpteE hswq hil]
    exact ⟨_, assocGet_set_self _ _ _, rfl⟩
  · have hsw0 : pte0.swapped = false := by simpa using hswq
    by_cases hfbq : pte0.file_backed
    · rw [hEQ, alloc_load_fb hpteE hsw0 hfbq hil]
      exact ⟨_, assocGet_set_self _ _ _, rfl⟩
    · have hfb0 : pte0.file_backed = false := by simpa using hfbq
      rw [hEQ, alloc_load_anon hpteE hsw0 hfb0 hil]
      exact ⟨_, assocGet_set_self _ _ _, rfl⟩

/-- A translate on a mapped page returns its (possibly freshly faulted)
    frame, and the final entry is present at that frame. -/
theorem translate_entry_present {s : Sys} (hS : SInv s) (hT : TimeOK s)
    (hSA : SlotAvail s) (va : Nat) (w : Bool) {m0 : PageMetadata}
    (hm0 : ptGet s.page_table (va / PAGE_SIZE) = some m0) :
    ∃ f mf,
      (MMU.translate_address s va w).1 = some (f, va % PAGE_SIZE) ∧
      ptGet (MMU.translate_address s va w).2.page_table (va / PAGE_SIZE)
        = some mf ∧ mf.present = true ∧ mf.physical_page = f := by
  by_cases hp : m0.present
  · rw [translate_present hm0 hp]
    refine ⟨m0.physical_page, _, rfl, assocGet_set_self _ _ _, ?_, rfl⟩
    exact hp
  · have hnp : m0.present = false := by simpa using hp
    obtain ⟨hok, hS1p⟩ := SInv_fault hS hT hSA hm0 hnp
    obtain ⟨m2, hm2, hm2p⟩ := fault_entry hS hT hSA hm0 hnp
    rcases hfe : MMU.handle_page_fault s (va / PAGE_SIZE) with ⟨ok, s1⟩
    rw [hfe] at hok hm2
    cases ok with
    | false => cases hok
    | true =>
      rw [translate_fault_ok hm0 hnp hfe hm2]
      refine ⟨m2.physical_page, _, rfl, assocGet_set_self _ _ _, ?_, rfl⟩
      exact hm2p

/-- SwapSpace::free_slot never changes the stored pages. -/
theorem SwapSpace.free_slot_storage (sw : SwapSpace) (k : Nat) :
    (sw.free_slot k).swap_storage = sw.swap_storage := by
  unfold SwapSpace.free_slot
  split <;> rfl

/-- RAM::free_page never changes the page contents. -/
theorem RAM.free_page_memory (r : RAM) (k : Nat) :
    (r.free_page k).memory = r.memory := by
  unfold RAM.free_page
  split <;> rfl

/-- The translate bookkeeping update keeps the round-trip invariant:
    only dirty/accessed/last_access change. -/
theorem GA_touch {s1 : Sys} {u : Nat} {pte pte' : PageMetadata}
    (hpte1 : ptGet s1.page_table u = some pte)
    (hp : pte'.present = pte.present)
    (hph : pte'.physical_page = pte.physical_page)
    (hsw : pte'.swapped = pte.swapped)
    (hslt : pte'.swap_slot = pte.swap_slot)
    (hfb : pte'.file_backed = pte.file_backed)
    {v : Nat} {P : Page} (hG : GoodAnon s1 v P) (t : Nat) :
    GoodAnon { s1 with page_table := ptSet s1.page_table u pte', current_time := t } v P := by
  obtain ⟨m, hm, hfbm, h1, h2, h3⟩ := hG
  by_cases hueq : u = v
  · subst hueq
    have hmeq : m = pte := Option.some_inj.mp (hm.symm.trans hpte1)
    subst hmeq
    refine ⟨pte', assocGet_set_self _ _ _, by rw [hfb]; exact hfbm, ?_, ?_, ?_⟩
    · intro hp2
      rw [hp] at hp2
      rw [hph]
      exact h1 hp2
    · intro a b
      rw [hp] at a
      rw [hsw] at b
      rw [hslt]
      exact h2 a b
    · intro a b
      rw [hp] at a
      rw [hsw] at b
      exact h3 a b
  · refine ⟨m, ?_, hfbm, h1, h2, h3⟩
    show assocGet (assocSet s1.page_table u pte') v = some m
    rw [assocGet_set_ne _ _ _ _ hueq]
    exact hm

/-- The round-trip invariant survives an eviction: the page's content
    moves from its frame into its fresh swap slot if the page itself is
    the victim, and is untouched otherwise. -/
theorem GA_evictVictim {s : Sys} (hS : SInv s) (hSA : SlotAvail s)
    {vf vv : Nat} {meta : PageMetadata}
    (hg : s.ram.get_page_metadata vf = some vv)
    (hpte' : ptGet s.page_table vv = some meta)
    {v : Nat} {P : Page} (hG : GoodAnon s v P) :
    GoodAnon (MMU.evictVictim s vf vv meta) v P := by
  have hSkeep := hS
  obtain ⟨hW, hsl, hss, hdl, hbr, hps, hfbs, htb, hfo, hfn, hsv, hsu, hso⟩ :=
    hSkeep
  obtain ⟨hvlt, hf2p⟩ := get_page_metadata_some hg
  have hvf8 : vf < NUM_FRAMES := by rw [← hW.1.2.1]; exact hvlt
  obtain ⟨m0, hm0, hm0p, hm0i⟩ := hfo vf hvf8 vv hf2p
  have hmeq : m0 = meta := Option.some_inj.mp (hm0.symm.trans hpte')
  subst hmeq
  have hmemv : (vv, m0) ∈ s.page_table := mem_of_assocGet hpte'
  have hmsw : m0.swapped = false := by
    cases hq : m0.swapped
    · rfl
    · exact absurd ⟨hm0p, hq⟩ (hps (vv, m0) hmemv)
  have hvfa : vf < s.ram.allocated.length := by rw [hW.1.1]; exact hvf8
  have hvfm : vf < s.ram.memory.length := by rw [hW.1.2.2]; exact hvf8
  have hbuf : s.ram.read_page vf uninitPage = s.ram.memory.getD vf zeroPage := by
    unfold RAM.read_page
    rw [if_pos hvfa]
    rfl
  obtain ⟨m, hm, hfbm, h1, h2, h3⟩ := hG
  obtain ⟨j, hj⟩ := Option.isSome_iff_exists.mp hSA
  have hjlS : j < NUM_SLOTS := by rw [← hsl]; exact (firstFree_some hj).1
  have hjl : j < s.swap_space.allocated_slots.length := by
    rw [hsl]; exact hjlS
  have hjst : j < s.swap_space.swap_storage.length := by
    rw [hss]; exact hjlS
  have hbitj : s.swap_space.allocated_slots.getD j false = false := by
    rw [getD_default_irrel hjl false true]
    exact (firstFree_some hj).2
  by_cases hveq : vv = v
  · subst hveq
    have hmeq2 : m = m0 := Option.some_inj.mp (hm.symm.trans hpte')
    subst hmeq2
    have hanon : m.file_backed = false := hfbm
    rw [evictVictim_anon hmsw hanon hj hjl]
    have hPval : s.ram.memory.getD vf zeroPage = P := by
      have := h1 hm0p
      rw [hm0i] at this
      exact this
    refine ⟨_, assocGet_set_self _ _ _, hfbm, ?_, ?_, ?_⟩
    · intro hc
      cases hc
    · intro _ _
      show (s.swap_space.swap_storage.set j
        (s.ram.read_page vf uninitPage)).getD j zeroPage = P
      rw [getD_set_self _ _ _ _ hjst, hbuf]
      exact hPval
    · intro _ hc
      cases hc
  · have hlook : ∀ (m2 : PageMetadata),
        assocGet (assocSet s.page_table vv m2) v = some m := by
      intro m2
      rw [assocGet_set_ne _ _ _ _ hveq]
      exact hm
    cases hfbq : m0.file_backed with
    | true =>
      rw [evictVictim_fb hmsw hfbq]
      refine ⟨m, hlook _, hfbm, ?_, h2, h3⟩
      intro hp2
      show (s.ram.free_page vf).memory.getD m.physical_page zeroPage = P
      rw [RAM.free_page_memory]
      exact h1 hp2
    | false =>
      rw [evictVictim_anon hmsw hfbq hj hjl]
      refine ⟨m, hlook _, hfbm, ?_, ?_, h3⟩
      · intro hp2
        show (s.ram.free_page vf).memory.getD m.physical_page zeroPage = P
        rw [RAM.free_page_memory]
        exact h1 hp2
      · intro hp2 hsw2
        obtain ⟨_, hbit⟩ := hsv (v, m) (mem_of_assocGet hm) hsw2
        have hslne : m.swap_slot ≠ j := by
          intro hq
          rw [hq, hbitj] at hbit
          cases hbit
        show (s.swap_space.swap_storage.set j
          (s.ram.read_page vf uninitPage)).getD m.swap_slot zeroPage = P
        rw [getD_set_ne _ _ _ _ _ (fun h => hslne h.symm)]
        exact h2 hp2 hsw2

/-- The round-trip invariant survives a page fault on any mapped
    non-present page under the guards: the faulting page itself is
    reloaded from swap (or zero-filled) into its new frame, other pages
    keep their content. -/
theorem GA_fault {s : Sys} (hS : SInv s) (hT : TimeOK s) (hSA : SlotAvail s)
    {vpn : Nat} {pte0 : PageMetadata}
    (hpte : ptGet s.page_table vpn = some pte0) (hnp : pte0.present = false)
    {v : Nat} {P : Page} (hG : GoodAnon s v P) :
    GoodAnon (MMU.handle_page_fault s vpn).2 v P := by
  obtain ⟨sE, i, hcase, hpteE, hSE, hff, hEQ⟩ := fault_effect hS hT hSA hpte hnp
  have hGE : GoodAnon sE v P := by
    rcases hcase with rfl | ⟨vf, v', meta, hg, hpv', hvne, rfl⟩
    · exact hG
    · exact GA_evictVictim hS hSA hg hpv' hG
  have hil : i < sE.ram.allocated.length := (firstFree_some hff).1
  have him : i < sE.ram.memory.length := by
    rw [hSE.1.1.2.2, ← hSE.1.1.1]; exact hil
  have hbitiE : sE.ram.allocated.getD i false = false := by
    rw [getD_default_irrel hil false true]
    exact (firstFree_some hff).2
  obtain ⟨mE, hmE, hfbE, hE1, hE2, hE3⟩ := hGE
  by_cases hveq : vpn = v
  · subst hveq
    have hmeq : mE = pte0 := Option.some_inj.mp (hmE.symm.trans hpteE)
    subst hmeq
    by_cases hswq : mE.swapped
    · rw [hEQ, alloc_load_swapped hpteE hswq hil]
      obtain ⟨hslt, _⟩ := hSE.2.2.2.2.2.2.2.2.2.2.1 (vpn, mE)
        (mem_of_assocGet hpteE) hswq
      have hsll : mE.swap_slot < sE.swap_space.allocated_slots.length := by
        rw [hSE.2.1]; exact hslt
      have hbufE : sE.swap_space.read_page mE.swap_slot uninitPage = P := by
        unfold SwapSpace.read_page
        rw [if_pos hsll]
        exact hE2 hnp hswq
      refine ⟨_, assocGet_set_self _ _ _, hfbE, ?_, ?_, ?_⟩
      · intro _
        show (sE.ram.memory.set i
          (sE.swap_space.read_page mE.swap_slot uninitPage)).getD i zeroPage
          = P
        rw [getD_set_self _ _ _ _ him]
        exact hbufE
      · intro hc
        cases hc
      · intro hc
        cases hc
    · have hsw0 : mE.swapped = false := by simpa using hswq
      have hP0 : P = zeroPage := hE3 hnp hsw0
      rw [hEQ, alloc_load_anon hpteE hsw0 hfbE hil]
      refine ⟨_, assocGet_set_self _ _ _, hfbE, ?_, ?_, ?_⟩
      · intro _
        show (sE.ram.memory.set i zeroPage).getD i zeroPage = P
        rw [getD_set_self _ _ _ _ him]
        exact hP0.symm
      · intro hc
        cases hc
      · intro hc
        cases hc
  · have hine : mE.present = true → i ≠ mE.physical_page := by
      intro hp2 hq
      obtain ⟨_, f2, _⟩ := hSE.1.2.2 (v, mE) (mem_of_assocGet hmE) hp2
      rw [← hq, hbitiE] at f2
      cases f2
    have hlook : ∀ (m2 : PageMetadata),
        assocGet (assocSet sE.page_table vpn m2) v = some mE := by
      intro m2
      rw [assocGet_set_ne _ _ _ _ hveq]
      exact hmE
    have hmemcl : ∀ (b : Page), mE.present = true →
        (sE.ram.memory.set i b).getD mE.physical_page zeroPage = P := by
      intro b hp2
      rw [getD_set_ne _ _ _ _ _ (hine hp2)]
      exact hE1 hp2
    by_cases hswq : pte0.swapped
    · rw [hEQ, alloc_load_swapped hpteE hswq hil]
      refine ⟨mE, hlook _, hfbE, ?_, ?_, hE3⟩
      · intro hp2
        exact hmemcl _ hp2
      · intro hp2 hsw2
        show (sE.swap_space.free_slot pte0.swap_slot).swap_storage.getD
          mE.swap_slot zeroPage = P
        rw [SwapSpace.free_slot_storage]
        exact hE2 hp2 hsw2
    · have hsw0 : pte0.swapped = false := by simpa using hswq
      by_cases hfbq : pte0.file_backed
      · rw [hEQ, alloc_load_fb hpteE hsw0 hfbq hil]
        refine ⟨mE, hlook _, hfbE, ?_, hE2, hE3⟩
        intro hp2
        exact hmemcl _ hp2
      · have hfb0 : pte0.file_backed = false := by simpa using hfbq
        rw [hEQ, alloc_load_anon hpteE hsw0 hfb0 hil]
        refine ⟨mE, hlook _, hfbE, ?_, hE2, hE3⟩
        intro hp2
        exact hmemcl _ hp2

/-- The round-trip invariant survives any translate_address call under
    the guards. -/
theorem GA_translate {s : Sys} (hS : SInv s) (hT : TimeOK s) (hSA : SlotAvail s)
    {v : Nat} {P : Page} (hG : GoodAnon s v P) (va : Nat) (w : Bool) :
    GoodAnon (MMU.translate_address s va w).2 v P := by
  cases hpte : ptGet s.page_table (va / PAGE_SIZE) with
  | none => rw [translate_none hpte]; exact hG
  | some pte0 =>
    by_cases hp : pte0.present
    · rw [translate_present hpte hp]
      refine GA_touch hpte ?_ ?_ ?_ ?_ ?_ hG _ <;> rfl
    · have hnp : pte0.present = false := by simpa using hp
      obtain ⟨hok, _⟩ := SInv_fault hS hT hSA hpte hnp
      have hGA1 := GA_fault hS hT hSA hpte hnp hG
      rcases hfe : MMU.handle_page_fault s (va / PAGE_SIZE) with ⟨ok, s1⟩
      rw [hfe] at hok hGA1
      cases ok with
      | false => cases hok
      | true =>
        cases hpte1 : ptGet s1.page_table (va / PAGE_SIZE) with
        | none =>
          rw [translate_fault_ok_none hpte hnp hfe hpte1]
          exact hGA1
        | some pte =>
          rw [translate_fault_ok hpte hnp hfe hpte1]
          refine GA_touch hpte1 ?_ ?_ ?_ ?_ ?_ hGA1 _ <;> rfl

/-- Mapping fresh pages leaves the round-trip invariant of an existing
    page intact. -/
theorem GA_mapLoop (n : Nat) : ∀ (s : Sys) (a : Nat) (fb : Bool) (ds : Nat)
    {v : Nat} {P : Page}, GoodAnon s v P → freshRange s a n →
    GoodAnon (MMU.mapLoop s a n fb ds) v P := by
  induction n with
  | zero => intro s a fb ds v P hG _; exact hG
  | succ k ih =>
    intro s a fb ds v P hG hfresh
    obtain ⟨m, hm, hfbm, h1, h2, h3⟩ := hG
    have h0 : ptGet s.page_table a = none := by
      have := hfresh 0 (Nat.succ_pos k)
      simpa using this
    have hne : a ≠ v := by
      intro hq
      rw [hq, hm] at h0
      cases h0
    have hG1 : GoodAnon { s with page_table := ptSet s.page_table a { PageMetadata.init with file_backed := fb, virtual_page := a, disk_page := if fb then ds else 0 } } v P := by
      refine ⟨m, ?_, hfbm, h1, h2, h3⟩
      show assocGet (assocSet s.page_table a { PageMetadata.init with file_backed := fb, virtual_page := a, disk_page := if fb then ds else 0 }) v = some m
      rw [assocGet_set_ne _ _ _ _ hne]
      exact hm
    refine ih _ (a + 1) fb (ds + 1) hG1 ?_
    intro k2 hk2
    show assocGet (assocSet s.page_table a { PageMetadata.init with file_backed := fb, virtual_page := a, disk_page := if fb then ds else 0 }) (a + 1 + k2) = none
    rw [assocGet_set_ne _ _ _ _ (by omega)]
    have h2' : a + 1 + k2 = a + (k2 + 1) := by omega
    rw [h2']
    exact hfresh (k2 + 1) (by omega)

/-- Unmapping a different page leaves the round-trip invariant intact. -/
theorem GA_unmapOne {s : Sys} (hS : SInv s) {vp : Nat}
    {v : Nat} {P : Page} (hG : GoodAnon s v P) (hne : vp ≠ v) :
    GoodAnon (MMU.unmapOne s vp) v P := by
  obtain ⟨m, hm, hfbm, h1, h2, h3⟩ := hG
  have hlook : assocGet (assocErase s.page_table vp) v = some m := by
    rw [assocGet_erase_ne _ _ _ hne]
    exact hm
  cases hpte : ptGet s.page_table vp with
  | none => rw [unmapOne_none hpte]; exact ⟨m, hm, hfbm, h1, h2, h3⟩
  | some pte =>
    have hmemp : (vp, pte) ∈ s.page_table := mem_of_assocGet hpte
    by_cases hp : pte.present
    · have hpsw : pte.swapped = false := by
        cases hq : pte.swapped
        · rfl
        · exact absurd ⟨hp, hq⟩ (hS.2.2.2.2.2.1 (vp, pte) hmemp)
      rw [unmapOne_present_ns hpte hp hpsw]
      refine ⟨m, hlook, hfbm, ?_, h2, h3⟩
      intro hp2
      show (s.ram.free_page pte.physical_page).memory.getD
        m.physical_page zeroPage = P
      rw [RAM.free_page_memory]
      exact h1 hp2
    · have hnp : pte.present = false := by simpa using hp
      rw [unmapOne_absent hpte hnp]
      by_cases hswq : pte.swapped
      · simp only [hswq, eq_self_iff_true, if_true]
        refine ⟨m, hlook, hfbm, h1, ?_, h3⟩
        intro hp2 hsw2
        show (s.swap_space.free_slot pte.swap_slot).swap_storage.getD
          m.swap_slot zeroPage = P
        rw [SwapSpace.free_slot_storage]
        exact h2 hp2 hsw2
      · have hsw0 : pte.swapped = false := by simpa using hswq
        simp only [hsw0, Bool.false_eq_true, if_false]
        exact ⟨m, hlook, hfbm, h1, h2, h3⟩

/-- Unmapping a range that avoids the page leaves the round-trip
    invariant intact. -/
theorem GA_unmapLoop (n : Nat) : ∀ (s : Sys) (a : Nat) {v : Nat} {P : Page},
    SInv s → GoodAnon s v P → (∀ k < n, a + k ≠ v) →
    GoodAnon (MMU.unmapLoop s a n) v P := by
  induction n with
  | zero => intro s a v P _ hG _; exact hG
  | succ k ih =>
    intro s a v P hS hG hk
    have h0 : a ≠ v := by
      have := hk 0 (Nat.succ_pos k)
      simpa using this
    refine ih _ (a + 1) (SInv_unmapOne s a hS) (GA_unmapOne hS hG h0) ?_
    intro k2 hk2
    have h2' : a + 1 + k2 = a + (k2 + 1) := by omega
    rw [h2']
    exact hk (k2 + 1) (by omega)

/-- A write through translate_address into a different page leaves the
    round-trip invariant intact. -/
theorem GA_write_other {s : Sys} (hS : SInv s) (hT : TimeOK s)
    (hSA : SlotAvail s) {v : Nat} {P : Page} (hG : GoodAnon s v P)
    {a : Nat} (d : List Nat) (hav : a / PAGE_SIZE ≠ v) :
    GoodAnon (VM.write_memory s a d).2 v P := by
  cases hpte : ptGet s.page_table (a / PAGE_SIZE) with
  | none =>
    have hEQ : (VM.write_memory s a d).2 = s := by
      simp [VM.write_memory, translate_none hpte]
    rw [hEQ]
    exact hG
  | some m0 =>
    obtain ⟨f, mf, hfst, hmf, hmfp, hmfi⟩ :=
      translate_entry_present hS hT hSA a true hpte
    have hGA1 := GA_translate hS hT hSA hG a true
    have hS1 := SInv_translate s a true hS hT hSA
    rcases hte : MMU.translate_address s a true with ⟨r, s1⟩
    rw [hte] at hfst hmf hGA1 hS1
    have hr : r = some (f, a % PAGE_SIZE) := hfst
    subst hr
    obtain ⟨m1, hm1, hfb1, h11, h12, h13⟩ := hGA1
    by_cases hfl : f < s1.ram.memory.length
    · have hEQ : (VM.write_memory s a d).2 = { s1 with ram := { s1.ram with memory := s1.ram.memory.set f (pageWrite (s1.ram.memory.getD f zeroPage) (a % PAGE_SIZE) d) } } := by
        simp [VM.write_memory, hte, hfl]
      rw [hEQ]
      refine ⟨m1, hm1, hfb1, ?_, h12, h13⟩
      intro hp1
      have hfne : f ≠ m1.physical_page := by
        intro hq
        have g3 : s1.ram.frame_to_page.getD mf.physical_page none
            = some (a / PAGE_SIZE) :=
          (hS1.1.2.2 (a / PAGE_SIZE, mf) (mem_of_assocGet hmf) hmfp).2.2
        have g3' : s1.ram.frame_to_page.getD m1.physical_page none
            = some v :=
          (hS1.1.2.2 (v, m1) (mem_of_assocGet hm1) hp1).2.2
        rw [hmfi] at g3
        rw [← hq] at g3'
        exact hav (Option.some_inj.mp (g3.symm.trans g3'))
      show (s1.ram.memory.set f (pageWrite (s1.ram.memory.getD f zeroPage) (a % PAGE_SIZE) d)).getD m1.physical_page zeroPage = P
      rw [getD_set_ne _ _ _ _ _ hfne]
      exact h11 hp1
    · have hEQ : (VM.write_memory s a d).2 = s1 := by
        simp [VM.write_memory, hte, hfl]
      rw [hEQ]
      exact ⟨m1, hm1, hfb1, h11, h12, h13⟩

/-- A write through translate_address into the page itself succeeds and
    updates its logical content in place. -/
theorem GA_write_self {s : Sys} (hS : SInv s) (hT : TimeOK s)
    (hSA : SlotAvail s) {v : Nat} {P : Page} (hG : GoodAnon s v P)
    {a : Nat} (d : List Nat) (hav : a / PAGE_SIZE = v) :
    (VM.write_memory s a d).1 = true ∧
    GoodAnon (VM.write_memory s a d).2 v
      (pageWrite P (a % PAGE_SIZE) d) := by
  obtain ⟨m, hm, hfbm, h1, h2, h3⟩ := hG
  have hm0 : ptGet s.page_table (a / PAGE_SIZE) = some m := by
    rw [hav]; exact hm
  obtain ⟨f, mf, hfst, hmf, hmfp, hmfi⟩ :=
    translate_entry_present hS hT hSA a true hm0
  have hGA1 := GA_translate hS hT hSA ⟨m, hm, hfbm, h1, h2, h3⟩ a true
  have hS1 := SInv_translate s a true hS hT hSA
  rcases hte : MMU.translate_address s a true with ⟨r, s1⟩
  rw [hte] at hfst hmf hGA1 hS1
  have hr : r = some (f, a % PAGE_SIZE) := hfst
  subst hr
  obtain ⟨m1, hm1, hfb1, h11, h12, h13⟩ := hGA1
  have hm1f : m1 = mf := by
    rw [hav] at hmf
    exact Option.some_inj.mp (hm1.symm.trans hmf)
  subst hm1f
  have hmemf : s1.ram.memory.getD f zeroPage = P := by
    have h := h11 hmfp
    rw [hmfi] at h
    exact h
  have hflt : f < s1.ram.memory.length := by
    have g1 : m1.physical_page < NUM_FRAMES :=
      (hS1.1.2.2 (v, m1) (mem_of_assocGet hm1) hmfp).1
    rw [hmfi] at g1
    rw [hS1.1.1.2.2]
    exact g1
  have hEQ : VM.write_memory s a d = (true, { s1 with ram := { s1.ram with memory := s1.ram.memory.set f (pageWrite (s1.ram.memory.getD f zeroPage) (a % PAGE_SIZE) d) } }) := by
    simp [VM.write_memory, hte, hflt]
  rw [hEQ, hmemf]
  refine ⟨rfl, m1, hm1, hfb1, ?_, ?_, ?_⟩
  · intro _
    show (s1.ram.memory.set f (pageWrite P (a % PAGE_SIZE) d)).getD
      m1.physical_page zeroPage = pageWrite P (a % PAGE_SIZE) d
    rw [hmfi]
    exact getD_set_self _ _ _ _ hflt
  · intro hc
    rw [hmfp] at hc
    cases hc
  · intro hc
    rw [hmfp] at hc
    cases hc

/-- A read (translate without write access) leaves the round-trip
    invariant intact. -/
theorem GA_read {s : Sys} (hS : SInv s) (hT : TimeOK s) (hSA : SlotAvail s)
    {v : Nat} {P : Page} (hG : GoodAnon s v P) (a n : Nat) :
    GoodAnon (VM.read_memory s a n).2 v P := by
  rw [read_memory_snd]
  exact GA_translate hS hT hSA hG a false

/-- Reading the page through VirtualMemorySystem::read_memory returns
    its logical content, faulting it back in if needed. -/
theorem read_self {s : Sys} (hS : SInv s) (hT : TimeOK s) (hSA : SlotAvail s)
    {v : Nat} {P : Page} (hG : GoodAnon s v P) {a : Nat} (n : Nat)
    (hav : a / PAGE_SIZE = v) :
    (VM.read_memory s a n).1 = some (pageRead P (a % PAGE_SIZE) n) := by
  obtain ⟨m, hm, hfbm, h1, h2, h3⟩ := hG
  have hm0 : ptGet s.page_table (a / PAGE_SIZE) = some m := by
    rw [hav]; exact hm
  obtain ⟨f, mf, hfst, hmf, hmfp, hmfi⟩ :=
    translate_entry_present hS hT hSA a false hm0
  have hGA1 := GA_translate hS hT hSA ⟨m, hm, hfbm, h1, h2, h3⟩ a false
  rcases hte : MMU.translate_address s a false with ⟨r, s1⟩
  rw [hte] at hfst hmf hGA1
  have hr : r = some (f, a % PAGE_SIZE) := hfst
  subst hr
  obtain ⟨m1, hm1, hfb1, h11, h12, h13⟩ := hGA1
  have hm1f : m1 = mf := by
    rw [hav] at hmf
    exact Option.some_inj.mp (hm1.symm.trans hmf)
  subst hm1f
  have hmemf : s1.ram.memory.getD f zeroPage = P := by
    have h := h11 hmfp
    rw [hmfi] at h
    exact h
  have hEQ : (VM.read_memory s a n).1
      = some (pageRead (s1.ram.memory.getD f zeroPage) (a % PAGE_SIZE) n) := by
    simp [VM.read_memory, hte]
  rw [hEQ, hmemf]

/-- Everything at or above the cursor is unmapped. -/
theorem cursor_fresh {s : Sys} (hC : CursorInv s) (l : Nat) :
    freshRange s (s.next_virtual_addr / PAGE_SIZE) l := by
  intro k hk
  show assocGet s.page_table (s.next_virtual_addr / PAGE_SIZE + k) = none
  rw [assocGet_eq_none_iff]
  intro hmem
  obtain ⟨e, he, he1⟩ := List.mem_map.mp hmem
  have := hC.2 e he
  omega

/-- The round-trip invariant survives every guarded operation that
    avoids the page. -/
theorem GA_execV {s : Sys} (hS : SInv s) (hC : CursorInv s) (hT : TimeOK s)
    (hSA : SlotAvail s) {v : Nat} {P : Page} (hG : GoodAnon s v P)
    (op : VMOp) (hav : avoids v op) :
    GoodAnon (execV s op) v P := by
  cases op with
  | mmapA l fd off =>
    obtain ⟨fb, ds, hEQ⟩ := mmap_snd s l fd off
    show GoodAnon (VM.mmap s l fd off).2 v P
    rw [hEQ]
    exact GA_mapLoop _ s _ fb ds hG (cursor_fresh hC _)
  | munmapA a l =>
    show GoodAnon (VM.munmap s a l).2 v P
    rw [munmap_snd]
    exact GA_unmapLoop _ s _ hS hG hav
  | writeA a d => exact GA_write_other hS hT hSA hG d hav.1
  | readA a n => exact GA_read hS hT hSA hG a n

/-- The three trace invariants (strong invariant, cursor invariant,
    round-trip content) hold at the end of every guarded trace that
    avoids the page. -/
theorem GASC_trace {v : Nat} {P : Page} : ∀ (ops : List VMOp) (s : Sys),
    SInv s → CursorInv s → GoodAnon s v P → SafeTrace v s ops →
    SInv (execVList s ops) ∧ CursorInv (execVList s ops) ∧
      GoodAnon (execVList s ops) v P := by
  intro ops
  induction ops with
  | nil => intro s hS hC hG _; exact ⟨hS, hC, hG⟩
  | cons op rest ih =>
    intro s hS hC hG hsafe
    obtain ⟨⟨hT, hSA, hava⟩, hrest⟩ := hsafe
    obtain ⟨hS1, hC1⟩ := SCInv_execV s op hS hC hT hSA
    exact ih (execV s op) hS1 hC1 (GA_execV hS hC hT hSA hG op hava) hrest

/-- An anonymous mmap returns the cursor and establishes the zero-page
    round-trip invariant for its first page. -/
theorem mmap_anon_establish {s0 : Sys} (hC0 : CursorInv s0) (l : Nat)
    (hl : 0 < l) :
    (VM.mmap s0 l (-1) 0).1 = some s0.next_virtual_addr ∧
    GoodAnon (VM.mmap s0 l (-1) 0).2 (s0.next_virtual_addr / PAGE_SIZE)
      zeroPage := by
  rw [mmap_anon_eq]
  refine ⟨rfl, ?_⟩
  have hpg : 0 < (l + PAGE_SIZE - 1) / PAGE_SIZE := by
    have h4 : PAGE_SIZE = 4096 := rfl
    rw [h4]
    omega
  have hfirst := mapLoop_first _ hpg s0 (s0.next_virtual_addr / PAGE_SIZE)
    false 0
  refine ⟨_, hfirst, rfl, ?_, ?_, ?_⟩
  · intro hc
    cases hc
  · intro _ hc
    cases hc
  · intro _ _
    rfl

/-- VirtualMemorySystem::mmap leaves the clock and the swap space
    untouched. -/
theorem mmap_guards (s : Sys) (l : Nat) (fd : Int) (off : Nat) :
    (VM.mmap s l fd off).2.current_time = s.current_time ∧
    (VM.mmap s l fd off).2.swap_space = s.swap_space := by
  obtain ⟨fb, ds, hEQ⟩ := mmap_snd s l fd off
  rw [hEQ]
  exact ⟨(mapLoop_frame _ s _ fb ds).1, (mapLoop_frame _ s _ fb ds).2.1⟩

/-- C1 counterexample: after c1trace, reading back the two bytes
    written to the file-backed page does not return them — the page was
    evicted, its write-back went nowhere, and the reload finds the
    never-written disk page. -/
theorem c1_counterexample :
    (VM.read_memory (execVList initSys c1trace) 0x10000000 2).1
      ≠ some [65, 66] := by
  decide

/-- C1 (amended, anonymous pages): from any state satisfying the strong
    and cursor invariants with clock and swap headroom, the sequence
    mmap (anonymous) → write data into the first page → any guarded
    trace that avoids that page (it may evict and re-fault the page any
    number of times) → read, returns exactly the written bytes.  The
    mmap returns the cursor address and the write reports success. -/
theorem c1_anonymous_roundtrip (s0 : Sys) (len off : Nat) (data : List Nat)
    (ops : List VMOp)
    (hS0 : SInv s0) (hC0 : CursorInv s0) (hT0 : TimeOK s0)
    (hSA0 : SlotAvail s0)
    (hlen : 0 < len) (hd : 0 < data.length)
    (hoff : off + data.length ≤ PAGE_SIZE)
    (hsafe : SafeTrace (s0.next_virtual_addr / PAGE_SIZE)
      (VM.write_memory (VM.mmap s0 len (-1) 0).2
        (s0.next_virtual_addr + off) data).2 ops)
    (hT3 : TimeOK (execVList (VM.write_memory (VM.mmap s0 len (-1) 0).2
      (s0.next_virtual_addr + off) data).2 ops))
    (hSA3 : SlotAvail (execVList (VM.write_memory (VM.mmap s0 len (-1) 0).2
      (s0.next_virtual_addr + off) data).2 ops)) :
    (VM.mmap s0 len (-1) 0).1 = some s0.next_virtual_addr ∧
    (VM.write_memory (VM.mmap s0 len (-1) 0).2
      (s0.next_virtual_addr + off) data).1 = true ∧
    (VM.read_memory (execVList (VM.write_memory (VM.mmap s0 len (-1) 0).2
        (s0.next_virtual_addr + off) data).2 ops)
      (s0.next_virtual_addr + off) data.length).1 = some data := by
  have hP4 : PAGE_SIZE = 4096 := rfl
  have hmod0 : s0.next_virtual_addr % PAGE_SIZE = 0 := hC0.1
  have hdiv : (s0.next_virtual_addr + off) / PAGE_SIZE
      = s0.next_virtual_addr / PAGE_SIZE := by
    rw [hP4]
    rw [hP4] at hmod0 hoff
    omega
  have hmod : (s0.next_virtual_addr + off) % PAGE_SIZE = off := by
    rw [hP4]
    rw [hP4] at hmod0 hoff
    omega
  obtain ⟨hmret, hG1⟩ := mmap_anon_establish hC0 len hlen
  obtain ⟨hS1, hC1⟩ := SCInv_mmap hS0 hC0 len (-1) 0
  have hT1 : TimeOK (VM.mmap s0 len (-1) 0).2 := by
    unfold TimeOK
    rw [(mmap_guards s0 len (-1) 0).1]
    exact hT0
  have hSA1 : SlotAvail (VM.mmap s0 len (-1) 0).2 := by
    unfold SlotAvail
    rw [(mmap_guards s0 len (-1) 0).2]
    exact hSA0
  obtain ⟨hwret, hG2⟩ := GA_write_self hS1 hT1 hSA1 hG1 data hdiv
  rw [hmod] at hG2
  obtain ⟨hS2, hC2⟩ := SCInv_write hS1 hC1 hT1 hSA1
    (s0.next_virtual_addr + off) data
  obtain ⟨hS3, hC3, hG3⟩ := GASC_trace ops _ hS2 hC2 hG2 hsafe
  have hread := read_self hS3 hT3 hSA3 hG3 data.length hdiv
  rw [hmod] at hread
  rw [pageRead_pageWrite zeroPage off data
    (by rw [show zeroPage.length = PAGE_SIZE from List.length_replicate _ _]; omega)] at hread
  exact ⟨hmret, hwret, hread⟩

/-- Witness for C1: writing byte 7 into a fresh anonymous page, evicting
    it by touching eight other pages, and reading it back returns 7. -/
theorem c1_anonymous_roundtrip_witness :
    (VM.read_memory (execVList (VM.write_memory (VM.mmap initSys 4096 (-1) 0).2
        (initSys.next_virtual_addr + 0) [7]).2 c1wops)
      (initSys.next_virtual_addr + 0) 1).1 = some [7] :=
  (c1_anonymous_roundtrip initSys 4096 0 [7] c1wops (by decide) (by decide)
    (by decide) (by decide) (by decide) (by decide) (by decide) (by decide)
    (by decide) (by decide)).2.2
